import Mathlib

/-!
# JNLua native bridge (`jnlua.c`): a shallow embedding

The bridge lets a Java host drive a Lua 5.2 interpreter.  The interpreter
signals errors with `longjmp`; the bridge replicates the interpreter's
protected-call bookkeeping (`JNLUA_TRY` / `JNLUA_END`) so that every error
lands inside the bridge and is turned into one Java exception.

The embedding keeps the C function names.  Interpreter and JNI primitives that
live outside `jnlua.c` are modelled by their documented contracts.
-/

namespace JNLua

/-! ## Constants of `lua.h` (Lua 5.2) -/

def LUA_OK : Int := 0
def LUA_YIELD : Int := 1
def LUA_ERRRUN : Int := 2
def LUA_ERRSYNTAX : Int := 3
def LUA_ERRMEM : Int := 4
def LUA_ERRGCMM : Int := 5
def LUA_ERRERR : Int := 6
def LUA_MULTRET : Int := -1
def LUA_MINSTACK : Int := 20
def LUAI_MAXSTACK : Int := 1000000
def LUA_REGISTRYINDEX : Int := -LUAI_MAXSTACK - 1000

def LUA_TNONE : Int := -1
def LUA_TNIL : Int := 0
def LUA_TBOOLEAN : Int := 1
def LUA_TLIGHTUSERDATA : Int := 2
def LUA_TNUMBER : Int := 3
def LUA_TSTRING : Int := 4
def LUA_TTABLE : Int := 5
def LUA_TFUNCTION : Int := 6
def LUA_TUSERDATA : Int := 7
def LUA_TTHREAD : Int := 8

def JNLUA_MOBJECT : String := "com.naef.jnlua.Object"
def JNLUA_RENV : String := "com.naef.jnlua.Env"
def JNLUA_RJAVASTATE : String := "com.naef.jnlua.JavaState"

/-- Wrap a mathematical integer into the range of a C `int` (two's complement, 32 bit). -/
def wrap32 (x : Int) : Int := (x + 2 ^ 31) % 2 ^ 32 - 2 ^ 31

/-- C `int` addition. -/
def addInt (a b : Int) : Int := wrap32 (a + b)

/-- C `int` subtraction. -/
def subInt (a b : Int) : Int := wrap32 (a - b)

def INT_MAX : Int := 2 ^ 31 - 1
def INT_MIN : Int := -(2 ^ 31)

/-- The values of a `jint`. -/
def isInt32 (x : Int) : Prop := INT_MIN ≤ x ∧ x ≤ INT_MAX

instance (x : Int) : Decidable (isInt32 x) := by unfold isInt32; infer_instance

/-! ## The Java side -/

/-- Java classes the bridge names (the `static jclass` variables), and any other class. -/
inductive JClass
  | luaError
  | luaRuntimeException
  | luaSyntaxException
  | luaMemoryAllocationException
  | luaGcMetamethodException
  | luaMessageHandlerException
  | luaStackTraceElement
  | javaFunction
  | nullPointerException
  | illegalArgumentException
  | illegalStateException
  | ioException
  | other (n : Nat)
  deriving DecidableEq, Repr

/-- A JNI reference: `NULL`, a local reference, or a (strong or weak) global
reference with its own identity.  `o` is the identity of the Java object. -/
inductive jobject
  | null
  | loc (o : Nat)
  | glob (id : Nat) (o : Nat)
  | weak (id : Nat) (o : Nat)
  deriving DecidableEq, Repr

/-- The Java object a reference designates. -/
def jobject.target : jobject → Option Nat
  | .null => none
  | .loc o => some o
  | .glob _ o => some o
  | .weak _ o => some o

/-- One `LuaStackTraceElement`. -/
structure TraceElement where
  functionName : Option String
  sourceName : Option String
  line : Int
  deriving DecidableEq, Repr

/-- The fields of a Java object that the bridge reads or writes. -/
structure JavaObject where
  cls : JClass
  message : Option String := none
  cause : Option Nat := none
  luaError : Option Nat := none
  luaStackTrace : Option (List (Option TraceElement)) := none
  deriving DecidableEq, Repr

/-- What the bridge does to the host, in order. -/
inductive Event
  | throwException (status : Int)
  | Throw (o : Nat)
  | ThrowNew (cls : JClass) (msg : String)
  | ExceptionClear
  | NewGlobalRef (id : Nat) (o : Nat)
  | DeleteGlobalRef (r : jobject)
  | landed (addr : Nat)
  | closed (addr : Nat) (found : Option Nat) (restored : Option Nat)
  | lua_pcall (nargs nresults : Int)
  | lua_yield (nresults : Int)
  | DeleteWeakGlobalRef (p : Nat)
  | GetByteArrayElements
  | ReleaseByteArrayElements (mode : Int)
  | streamRead
  | streamWrite (off len : Int) (buffer : List Nat)
  | outOfBounds (n : Nat)
  deriving DecidableEq, Repr

/-- The C struct `Stream` of `lua_load` / `lua_dump`, as far as it changes: whether
`byteArray` and `bytes` are non-`NULL`, and `isCopy`. -/
structure Stream where
  byteArray : Bool := false
  bytes : Bool := false
  isCopy : Bool := false
  deriving DecidableEq, Repr

/-- One outcome of `InputStream.read(byte[])`: the value returned, the bytes the stream
stored at the start of the array, and the exception it raised, if any. -/
structure ReadResult where
  count : Int
  data : List Nat := []
  raises : Option Nat := none
  deriving DecidableEq, Repr

/-- The transfer of a chunk between the interpreter and a host stream.  `array` is the
content of the Java `byte[]` buffer; `elems` is the copy `GetByteArrayElements` handed
out, while there is one; `copies` tells whether the JVM copies array elements; `stream`
is the `Stream` local of the running `lua_load` or `lua_dump` (kept here because it has
to survive a `longjmp`); `reads` and `writes` give the outcomes of the successive calls
of `InputStream.read` and `OutputStream.write` (the exception raised, if any); when
`reads` is used up the stream is at its end, when `writes` is used up every write
succeeds. -/
structure Transfer where
  array : List Nat := []
  elems : Option (List Nat) := none
  copies : Bool := true
  stream : Stream := {}
  reads : List ReadResult := []
  writes : List (Option Nat) := []
  deriving DecidableEq, Repr

/-- The host runtime as seen through `JNIEnv *`.  `oracle` gives the outcomes of
the successive JNI calls that can fail for lack of memory (`true`: success);
when it is used up every call succeeds.  `javaLuaThread`, `javaYield` and
`javaLuaState` are the `luaThread`, `yield` and `luaState` fields of the Java `LuaState`
object of the session (0 is `NULL`). -/
structure JNIEnv where
  heap : List JavaObject := []
  pending : Option Nat := none
  globals : List Nat := []
  nextRef : Nat := 0
  oracle : List Bool := []
  log : List Event := []
  javaLuaThread : Nat := 0
  javaYield : Bool := false
  javaLuaState : Nat := 0
  io : Transfer := {}
  deriving DecidableEq, Repr

/-! ## The interpreter side -/

inductive CFunction
  | callJavaFunction
  | gcJavaObject
  | handleError
  | other (n : Nat)
  deriving DecidableEq, Repr

/-- Lua values.  Collectable objects are identified by address. -/
inductive Value
  | nil
  | boolean (b : Bool)
  | number (n : Int)
  | string (s : String)
  | lightuserdata (p : Nat)
  | userdata (addr : Nat)
  | table (addr : Nat)
  | cfunction (f : CFunction)
  | cclosure (f : CFunction) (addr : Nat)
  | lclosure (addr : Nat)
  | thread (id : Nat)
  deriving DecidableEq, Repr

/-- A full userdata block of `sizeof(jobject)` bytes and its metatable. -/
structure UData where
  payload : jobject
  metatable : Option Nat
  deriving DecidableEq, Repr

/-- `struct lua_longjmp` without the machine `jmp_buf`. -/
structure lua_longjmp where
  previous : Option Nat
  status : Int
  deriving DecidableEq, Repr

/-- An activation record as `lua_getinfo(L, "nSl", &ar)` fills it; `none` is a `NULL`
string. -/
structure lua_Debug where
  name : Option String := none
  what : Option String := none
  source : Option String := none
  currentline : Int := -1
  deriving DecidableEq, Repr

/-- The part of `lua_State` (and of the global state reachable from it) that the bridge
touches.  `stack` is the current frame, bottom first; `upvalues` are those of the running
C closure; `lightMeta` is the metatable shared by all light userdata;
`stackLimit` is the number of slots `lua_checkstack` can still provide for; `self` names
this thread and `threads` holds the stacks of the other threads of the same global state;
`callStack` lists the activation records, level 0 first; `tables` holds the integer-keyed
entries of the tables, by address; `memory` is the process memory outside the userdata
blocks, as far as it is read as a `jobject`: the word found at an address (an address that
is not listed holds zero bytes). -/
structure lua_State where
  stack : List Value := []
  registry : List (String × Value) := []
  udata : List (Nat × UData) := []
  closures : List (Nat × List Value) := []
  upvalues : List Value := []
  lightMeta : Option Nat := none
  nextAddr : Nat := 1
  stackLimit : Int := LUAI_MAXSTACK
  nCcalls : Nat := 0
  errorJmp : Option Nat := none
  self : Nat := 0
  threads : List (Nat × List Value) := []
  callStack : List lua_Debug := []
  tables : List (Nat × List (Int × Value)) := []
  memory : List (Nat × jobject) := []
  deriving DecidableEq, Repr

/-- Everything a bridge function can see: the interpreter state, the host, and the
depth of the C stack (where the next `struct lua_longjmp` local is placed). -/
structure World where
  L : lua_State := {}
  env : JNIEnv := {}
  csp : Nat := 0
  deriving DecidableEq, Repr

/-- A `longjmp`: the buffer it jumps to (the value of `errorJmp` at that moment) and the
status stored into that buffer before jumping, if any. -/
structure Unwind where
  target : Option Nat
  status : Option Int
  deriving DecidableEq, Repr

/-- How a C function of the bridge ends: it returns, or control leaves it by `longjmp`. -/
inductive Outcome (α : Type)
  | ret (a : α)
  | unwind (u : Unwind)
  deriving DecidableEq, Repr

/-- A bridge computation.  The world it leaves behind is kept on both exits:
`longjmp` undoes nothing. -/
def M (α : Type) : Type := World → Outcome α × World

def M.pure {α : Type} (a : α) : M α := fun w => (.ret a, w)

def M.bind {α β : Type} (m : M α) (f : α → M β) : M β := fun w =>
  match m w with
  | (.ret a, w1) => f a w1
  | (.unwind u, w1) => (.unwind u, w1)

instance : Monad M where
  pure := M.pure
  bind := M.bind

def getL : M lua_State := fun w => (.ret w.L, w)
def setL (L : lua_State) : M Unit := fun w => (.ret (), { w with L := L })
def modifyL (f : lua_State → lua_State) : M Unit := fun w => (.ret (), { w with L := f w.L })
def getEnv : M JNIEnv := fun w => (.ret w.env, w)
def modifyEnv (f : JNIEnv → JNIEnv) : M Unit := fun w => (.ret (), { w with env := f w.env })
def logEvent (e : Event) : M Unit := modifyEnv fun env => { env with log := env.log ++ [e] }

/-! ## Interpreter primitives (`lua.h`, `lauxlib.h`) used by the bridge -/

def lookup {β : Type} (k : Nat) : List (Nat × β) → Option β
  | [] => none
  | (k1, v) :: r => if k1 = k then some v else lookup k r

def update {β : Type} (k : Nat) (v : β) : List (Nat × β) → List (Nat × β)
  | [] => [(k, v)]
  | (k1, v1) :: r => if k1 = k then (k1, v) :: r else (k1, v1) :: update k v r

def getfield (name : String) : List (String × Value) → Value
  | [] => .nil
  | (k, v) :: r => if k = name then v else getfield name r

def setfield (name : String) (v : Value) : List (String × Value) → List (String × Value)
  | [] => [(name, v)]
  | (k, v1) :: r => if k = name then (k, v) :: r else (k, v1) :: setfield name v r

def lua_gettop (L : lua_State) : Int := L.stack.length

/-- The pseudo-index of the `i`-th upvalue of the running C closure. -/
def lua_upvalueindex (i : Int) : Int := LUA_REGISTRYINDEX - i

/-- The value an index designates (`index2addr`); `none` for a position that holds no
value.  The registry pseudo-index designates a table, which has no `Value` here:
it is only reached through `getfield` / `setfield`. -/
def index2value (L : lua_State) (idx : Int) : Option Value :=
  if 0 < idx then L.stack.get? (idx - 1).toNat
  else if LUA_REGISTRYINDEX < idx then
    if -idx ≤ lua_gettop L ∧ idx ≠ 0 then L.stack.get? (lua_gettop L + idx).toNat else none
  else if idx = LUA_REGISTRYINDEX then none
  else L.upvalues.get? (LUA_REGISTRYINDEX - idx - 1).toNat

def typeOf : Value → Int
  | .nil => LUA_TNIL
  | .boolean _ => LUA_TBOOLEAN
  | .number _ => LUA_TNUMBER
  | .string _ => LUA_TSTRING
  | .lightuserdata _ => LUA_TLIGHTUSERDATA
  | .userdata _ => LUA_TUSERDATA
  | .table _ => LUA_TTABLE
  | .cfunction _ => LUA_TFUNCTION
  | .cclosure _ _ => LUA_TFUNCTION
  | .lclosure _ => LUA_TFUNCTION
  | .thread _ => LUA_TTHREAD

def lua_type (L : lua_State) (idx : Int) : Int :=
  if idx = LUA_REGISTRYINDEX then LUA_TTABLE
  else match index2value L idx with
    | some v => typeOf v
    | none => LUA_TNONE

def lua_isuserdata (L : lua_State) (idx : Int) : Bool :=
  match index2value L idx with
  | some (.userdata _) => true
  | some (.lightuserdata _) => true
  | _ => false

/-- The block address of a full userdata, the pointer of a light one, else `NULL` (0). -/
def lua_touserdata (L : lua_State) (idx : Int) : Nat :=
  match index2value L idx with
  | some (.userdata a) => a
  | some (.lightuserdata p) => p
  | _ => 0

def lua_tocfunction (L : lua_State) (idx : Int) : Option CFunction :=
  match index2value L idx with
  | some (.cfunction f) => some f
  | some (.cclosure f _) => some f
  | _ => none

/-- Read a `jobject` through a pointer: `*(jobject *) p`.  In a userdata block the read
finds the payload; anywhere else it finds whatever the memory holds at that address. -/
def derefObject (L : lua_State) (p : Nat) : jobject :=
  match lookup p L.udata with
  | some u => u.payload
  | none => (lookup p L.memory).getD .null

/-- The metatable of a value, by address.  Tables and other types carry none here. -/
def metatableOf (L : lua_State) : Value → Option Nat
  | .userdata a => (lookup a L.udata).bind UData.metatable
  | .lightuserdata _ => L.lightMeta
  | _ => none

def push (v : Value) (L : lua_State) : lua_State := { L with stack := L.stack ++ [v] }

def lua_pop (n : Nat) (L : lua_State) : lua_State :=
  { L with stack := L.stack.take (L.stack.length - n) }

def lua_settop0 (L : lua_State) : lua_State := { L with stack := [] }

/-- The operation `lua_getmetatable`: pushes the metatable and returns `true`, or pushes
nothing and returns `false`. -/
def lua_getmetatable (L : lua_State) (idx : Int) : Bool × lua_State :=
  match (index2value L idx).bind (metatableOf L) with
  | some t => (true, push (.table t) L)
  | none => (false, L)

def luaL_getmetatable (name : String) (L : lua_State) : lua_State :=
  push (getfield name L.registry) L

def lua_rawequal (L : lua_State) (i1 i2 : Int) : Bool :=
  match index2value L i1, index2value L i2 with
  | some a, some b => decide (a = b)
  | _, _ => false

/-- The operation `lua_newuserdata(L, sizeof(jobject))`: a fresh block, pushed.  Its
content is not initialised; it reads as `NULL` until written. -/
def lua_newuserdata (L : lua_State) : Nat × lua_State :=
  (L.nextAddr,
    push (.userdata L.nextAddr)
      { L with udata := update L.nextAddr { payload := .null, metatable := none } L.udata,
               nextAddr := L.nextAddr + 1 })

/-- Store a `jobject` through a pointer: `*p = r`. -/
def storeObject (p : Nat) (r : jobject) (L : lua_State) : lua_State :=
  match lookup p L.udata with
  | some u => { L with udata := update p { u with payload := r } L.udata }
  | none => L

/-- The operation `lua_setmetatable(L, idx)`: pops a table or nil and makes it the metatable of
the value at `idx` (resolved before the pop). -/
def lua_setmetatable (L : lua_State) (idx : Int) : lua_State :=
  let mt : Option Nat := match L.stack.getLast? with
    | some (.table t) => some t
    | _ => none
  let L1 := lua_pop 1 L
  match index2value L idx with
  | some (.userdata a) =>
    match lookup a L1.udata with
    | some u => { L1 with udata := update a { u with metatable := mt } L1.udata }
    | none => L1
  | some (.lightuserdata _) => { L1 with lightMeta := mt }
  | _ => L1

/-- The operation `lua_insert(L, idx)` for a positive index: the top value moves to position `idx`. -/
def lua_insert (L : lua_State) (idx : Int) : lua_State :=
  match L.stack.getLast? with
  | some v =>
    let body := L.stack.dropLast
    { L with stack := body.take (idx - 1).toNat ++ v :: body.drop (idx - 1).toNat }
  | none => L

/-- The operation `lua_remove(L, idx)` for a positive index. -/
def lua_remove (L : lua_State) (idx : Int) : lua_State :=
  { L with stack := L.stack.eraseIdx (idx - 1).toNat }

/-- The operation `lua_checkstack`: whether `space` more slots fit. -/
def lua_checkstack (L : lua_State) (space : Int) : Bool :=
  decide (lua_gettop L + space ≤ L.stackLimit)

/-- An interpreter error (`lua_error`, `luaL_error`): the status goes into the current
jump buffer and control jumps there.  The error value is on top of the stack. -/
def luaD_throw {α : Type} (status : Int) : M α := fun w =>
  (.unwind { target := w.L.errorJmp, status := some status }, w)

def luaL_error {α : Type} (msg : String) : M α := do
  modifyL (push (.string msg))
  luaD_throw LUA_ERRRUN

/-- The string form `luaL_tolstring` gives a value (without a `__tostring` metamethod). -/
def tolstring : Value → String
  | .nil => "nil"
  | .boolean b => if b then "true" else "false"
  | .number n => toString n
  | .string s => s
  | .lightuserdata p => "userdata: " ++ toString p
  | .userdata a => "userdata: " ++ toString a
  | .table a => "table: " ++ toString a
  | .cfunction _ => "function: builtin"
  | .cclosure _ a => "function: " ++ toString a
  | .lclosure a => "function: " ++ toString a
  | .thread a => "thread: " ++ toString a

/-- The operation `luaL_tolstring(L, idx, NULL)`: pushes the string form and returns it. -/
def luaL_tolstring (idx : Int) : M String := fun w =>
  let s := tolstring ((index2value w.L idx).getD .nil)
  (.ret s, { w with L := push (.string s) w.L })

/-! ## JNI primitives -/

/-- Consume the outcome of the next JNI call that can fail. -/
def takeOracle (env : JNIEnv) : Bool × JNIEnv :=
  match env.oracle with
  | [] => (true, env)
  | b :: r => (b, { env with oracle := r })

/-- JNI `NewGlobalRef`: `NULL` for `NULL` and when memory runs out. -/
def NewGlobalRef (obj : jobject) : M jobject := fun w =>
  match obj.target with
  | none => (.ret .null, w)
  | some o =>
    match takeOracle w.env with
    | (true, env) =>
      (.ret (.glob env.nextRef o),
        { w with env := { env with globals := env.nextRef :: env.globals,
                                   nextRef := env.nextRef + 1,
                                   log := env.log ++ [.NewGlobalRef env.nextRef o] } })
    | (false, env) => (.ret .null, { w with env := env })

/-- JNI `NewWeakGlobalRef`. -/
def NewWeakGlobalRef (obj : jobject) : M jobject := fun w =>
  match obj.target with
  | none => (.ret .null, w)
  | some o =>
    match takeOracle w.env with
    | (true, env) =>
      (.ret (.weak env.nextRef o),
        { w with env := { env with globals := env.nextRef :: env.globals,
                                   nextRef := env.nextRef + 1,
                                   log := env.log ++ [.NewGlobalRef env.nextRef o] } })
    | (false, env) => (.ret .null, { w with env := env })

/-- The identity of a global reference. -/
def jobject.refId : jobject → Option Nat
  | .glob id _ => some id
  | .weak id _ => some id
  | _ => none

/-- JNI `DeleteGlobalRef`: the reference stops being outstanding. -/
def DeleteGlobalRef (r : jobject) : M Unit :=
  modifyEnv fun env =>
    { env with globals := match r.refId with
                          | some id => env.globals.erase id
                          | none => env.globals,
               log := env.log ++ [.DeleteGlobalRef r] }

/-- JNI `ThrowNew`: a new exception of the class becomes the pending exception. -/
def ThrowNew (cls : JClass) (msg : String) : M Unit :=
  modifyEnv fun env =>
    { env with heap := env.heap ++ [{ cls := cls, message := some msg }],
               pending := some env.heap.length,
               log := env.log ++ [.ThrowNew cls msg] }

/-- JNI `NewObject`: a local reference to a new object, or `NULL`. -/
def NewObject (obj : JavaObject) : M jobject := fun w =>
  match takeOracle w.env with
  | (true, env) => (.ret (.loc env.heap.length), { w with env := { env with heap := env.heap ++ [obj] } })
  | (false, env) => (.ret .null, { w with env := env })

/-- JNI `Throw`: 0 on success, negative on failure. -/
def Throw (r : jobject) : M Int := fun w =>
  match r.target, takeOracle w.env with
  | some o, (true, env) =>
    (.ret 0, { w with env := { env with pending := some o, log := env.log ++ [.Throw o] } })
  | _, (_, env) => (.ret (-1), { w with env := env })

/-- JNI `IsInstanceOf`: `NULL` is an instance of every class. -/
def IsInstanceOf (env : JNIEnv) (r : jobject) (cls : JClass) : Bool :=
  match r.target with
  | none => true
  | some o =>
    match env.heap.get? o with
    | some obj => decide (obj.cls = cls)
    | none => false

/-- JNI `ExceptionClear`. -/
def ExceptionClear : M Unit :=
  modifyEnv fun env => { env with pending := none, log := env.log ++ [.ExceptionClear] }

/-- Change the fields of the object a reference designates (a Java setter). -/
def modifyObject (r : jobject) (f : JavaObject → JavaObject) : M Unit :=
  modifyEnv fun env =>
    match r.target with
    | some o =>
      match env.heap.get? o with
      | some obj => { env with heap := env.heap.set o (f obj) }
      | none => env
    | none => env

/-! ## `jnlua.c`: helpers -/

def JNLUA_WEAKREF : Int := 0
def JNLUA_HARDREF : Int := 1

/-- Throws an exception: `ThrowNew`, then `longjmp` to the current jump buffer.  No
status is stored. -/
def throw {α : Type} (throwableClass : JClass) (msg : String) : M α := do
  ThrowNew throwableClass msg
  fun w => (.unwind { target := w.L.errorJmp, status := none }, w)

/-- Checks a condition. -/
def check (cond : Bool) (throwableClass : JClass) (msg : String) : M Unit :=
  if !cond then throw throwableClass msg else pure ()

/-- Checks an argument condition. -/
def checkarg (cond : Bool) (msg : String) : M Unit :=
  check cond .illegalArgumentException msg

/-- Checks a state condition. -/
def checkstate (cond : Bool) (msg : String) : M Unit :=
  check cond .illegalStateException msg

/-- Checks an argument for not-null. -/
def checknotnull (object : jobject) : M Unit :=
  check (decide (object ≠ .null)) .nullPointerException "null"

/-- Checks that there are at least n values on the stack. -/
def checknelems (n : Int) : M Unit := do
  let L ← getL
  checkstate (decide (lua_gettop L ≥ n)) "stack underflow"

/-- Returns whether an index is valid. -/
def validindex (L : lua_State) (index : Int) : Bool :=
  let top := lua_gettop L
  if index ≤ 0 then
    if index > LUA_REGISTRYINDEX then
      let index1 := addInt (addInt top index) 1
      decide (index1 ≥ 1 ∧ index1 ≤ top)
    else if index = LUA_REGISTRYINDEX then true
    else false
  else decide (index ≥ 1 ∧ index ≤ top)

/-- Checks if an index is valid. -/
def checkindex (index : Int) : M Unit := do
  let L ← getL
  checkarg (validindex L index) "illegal index"

/-- Checks the type of a stack value. -/
def checktype (index : Int) (type : Int) : M Unit := do
  checkindex index
  let L ← getL
  checkarg (decide (lua_type L index = type)) "illegal type"

/-- Checks stack space. -/
def checkstack (space : Int) (msg : Option String) : M Unit := do
  let L ← getL
  if !lua_checkstack L space then
    match msg with
    | some m => luaL_error ("stack overflow (" ++ m ++ ")")
    | none => luaL_error "stack overflow"
  else pure ()

/-- Returns a new JNI global reference. -/
def newGlobalRef (obj : jobject) (type : Int) : M jobject := do
  checknotnull obj
  if type = JNLUA_HARDREF then
    let ref ← NewGlobalRef obj
    check (decide (ref ≠ .null)) .luaMemoryAllocationException "JNI error: NewGlobalRef() failed"
    pure ref
  else
    let ref ← NewWeakGlobalRef obj
    check (decide (ref ≠ .null)) .luaMemoryAllocationException "JNI error: NewWeakGlobalRef() failed"
    pure ref

/-- The operation `lua_setfield(L, LUA_REGISTRYINDEX, name)`: pops the value into the registry. -/
def setRegistryField (name : String) (L : lua_State) : lua_State :=
  lua_pop 1 { L with registry := setfield name (L.stack.getLast?.getD .nil) L.registry }

/-- Returns the JNI environment from the Lua state (0 is `NULL`). -/
def getJniEnv : M Nat := do
  modifyL (luaL_getmetatable JNLUA_RENV)
  let L ← getL
  let env := lua_touserdata L (-1)
  modifyL (lua_pop 1)
  pure env

/-- Sets the JNI environment in the Lua state. -/
def setJniEnv (env : Nat) : M Unit := do
  modifyL (push (.lightuserdata env))
  modifyL (setRegistryField JNLUA_RENV)

/-- Returns the Java state from the Lua state (0 is `NULL`). -/
def getJavaState : M Nat := do
  modifyL (luaL_getmetatable JNLUA_RJAVASTATE)
  let L ← getL
  let obj := lua_touserdata L (-1)
  modifyL (lua_pop 1)
  pure obj

/-- Pushes a Java object on the stack. -/
def pushJavaObject (object : jobject) : M Unit := do
  let L ← getL
  let (userData, L1) := lua_newuserdata L
  setL L1
  modifyL (luaL_getmetatable JNLUA_MOBJECT)
  let ref ← newGlobalRef object JNLUA_HARDREF
  modifyL (storeObject userData ref)
  modifyL fun L => lua_setmetatable L (-2)

/-- Returns the Java object at the specified index, or NULL if such an object is
unobtainable. -/
def getJavaObject (index : Int) (clazz : Option JClass) : M jobject := do
  let L ← getL
  if !lua_isuserdata L index then
    pure .null
  else
    let (has, L1) := lua_getmetatable L index
    setL L1
    if !has then
      pure .null
    else
      modifyL (luaL_getmetatable JNLUA_MOBJECT)
      let L2 ← getL
      let result := lua_rawequal L2 (-1) (-2)
      modifyL (lua_pop 2)
      if !result then
        pure .null
      else
        let L3 ← getL
        let object := derefObject L3 (lua_touserdata L3 index)
        match clazz with
        | some c =>
          let env ← getEnv
          if !IsInstanceOf env object c then pure .null else pure object
        | none => pure object

/-- Returns a Java string for a value on the stack. -/
def toString (index : Int) : M String := do
  let s ← luaL_tolstring index
  modifyL (lua_pop 1)
  pure s

/-- Finalizes Java objects. -/
def gcJavaObject : M Int := do
  let env ← getJniEnv
  if env = 0 then
    pure 0
  else
    let L ← getL
    let obj := derefObject L (lua_touserdata L 1)
    DeleteGlobalRef obj
    pure 0

/-- The switch at the head of `throwException`: the exception class for a status. -/
def throwableClassOf (status : Int) : JClass :=
  if status = LUA_ERRSYNTAX then .luaSyntaxException
  else if status = LUA_ERRMEM then .luaMemoryAllocationException
  else if status = LUA_ERRERR then .luaMessageHandlerException
  else if status = LUA_ERRGCMM then .luaGcMetamethodException
  else .luaRuntimeException

/-- Handles Lua errors by throwing a Java exception. -/
def throwException (status : Int) : M Unit := do
  logEvent (.throwException status)
  let throwableClass := throwableClassOf status
  let msg ← toString (-1)
  let throwable ← NewObject { cls := throwableClass, message := some msg }
  if throwable = .null then
    pure ()
  else
    let luaErrorObj ← getJavaObject (-1) (some .luaError)
    if luaErrorObj ≠ .null ∧ throwableClass = .luaRuntimeException then
      modifyObject throwable fun t => { t with luaError := luaErrorObj.target }
    let r ← Throw throwable
    if r < 0 then
      pure ()
    else
      modifyL (lua_pop 1)

/-! ## `JNLUA_TRY` ... `JNLUA_END` -/

/-- The macro `JNLUA_THROW(status)` inside the region whose buffer is at `addr`. -/
def JNLUA_THROW {α : Type} (addr : Nat) (status : Int) : M α := fun w =>
  (.unwind { target := some addr, status := some status }, w)

/-- The macro `JNLUA_END`, for the region whose buffer `lj` is at `addr`. -/
def JNLUA_END (oldnCcalls : Nat) (addr : Nat) (lj : lua_longjmp) : M Unit := do
  let L ← getL
  logEvent (.closed addr L.errorJmp lj.previous)
  modifyL fun L => { L with errorJmp := lj.previous, nCcalls := oldnCcalls }
  if lj.status ≠ LUA_OK then
    throwException lj.status
  else pure ()

/-- The macro `JNLUA_TRY` and the body that follows it, up to the point where control
either reaches `JNLUA_END` or leaves by `longjmp`: the jump buffer is installed at the
next free address `w.csp`, then `checkstack`, `setJniEnv` and the body run. -/
def JNLUA_TRY {α : Type} (env : Nat) (body : Nat → M α) : M α := fun w =>
  let addr := w.csp
  let w1 : World := { w with L := { w.L with errorJmp := some addr }, csp := addr + 1 }
  let inner : M α := do
    checkstack LUA_MINSTACK none
    setJniEnv env
    body addr
  inner w1

/-- A guard region: `JNLUA_TRY body JNLUA_END`.  The body is given the address of the
region's jump buffer.  A `longjmp` to this buffer lands here and the region closes; a
`longjmp` to another buffer leaves the region without closing it.  The result is
`none` when the body did not complete. -/
def guarded {α : Type} (env : Nat) (body : Nat → M α) : M (Option α) := fun w =>
  let addr := w.csp
  let oldnCcalls := w.L.nCcalls
  let lj : lua_longjmp := { status := LUA_OK, previous := w.L.errorJmp }
  match JNLUA_TRY env body w with
  | (.ret a, w2) =>
    match JNLUA_END oldnCcalls addr lj { w2 with csp := addr } with
    | (.ret _, w3) => (.ret (some a), w3)
    | (.unwind u, w3) => (.unwind u, w3)
  | (.unwind u, w2) =>
    if u.target = some addr then
      let w2a : World :=
        { w2 with csp := addr, env := { w2.env with log := w2.env.log ++ [.landed addr] } }
      match JNLUA_END oldnCcalls addr { lj with status := u.status.getD lj.status } w2a with
      | (.ret _, w3) => (.ret none, w3)
      | (.unwind u1, w3) => (.unwind u1, w3)
    else (.unwind u, w2)

/-- The status in the region's jump buffer when control reaches `JNLUA_END`. -/
def recordedStatus {α : Type} : Outcome α → Int
  | .ret _ => LUA_OK
  | .unwind u => u.status.getD LUA_OK

/-- Control reaches the `JNLUA_END` of the region whose buffer is at `addr`. -/
def reachesClose {α : Type} (addr : Nat) : Outcome α → Prop
  | .ret _ => True
  | .unwind u => u.target = some addr

instance {α : Type} (addr : Nat) (o : Outcome α) : Decidable (reachesClose addr o) := by
  cases o <;> unfold reachesClose <;> infer_instance

/-- The same guard region `n + 1` times, each opened inside the previous one; `body` runs
in the innermost. -/
def nestedRegions (env : Nat) (body : Nat → M Unit) : Nat → M (Option Unit)
  | 0 => guarded env body
  | n + 1 => guarded env fun _ => do
      let _ ← nestedRegions env body n
      pure ()

/-! ## Vocabulary of the statements -/

/-- Number of times `throwException` was entered. -/
def throwCount (log : List Event) : Nat :=
  log.countP fun e => match e with
    | .throwException _ => true
    | _ => false

/-- The landings and closes of guard regions, in order. -/
def guardEvents (log : List Event) : List Event :=
  log.filter fun e => match e with
    | .landed _ => true
    | .closed _ _ _ => true
    | _ => false

/-- The closes of regions `n + 1`, ..., `1` whose buffers lie at `csp + n`, ..., `csp`:
each finds its own buffer installed and restores what was installed when it opened. -/
def lifoCloses (csp : Nat) (outer : Option Nat) : Nat → List Event
  | 0 => [.closed csp (some csp) outer]
  | n + 1 => .closed (csp + (n + 1)) (some (csp + (n + 1))) (some (csp + n)) :: lifoCloses csp outer n

/-- Between the two logs `throwException` was not entered and no region landed or closed. -/
def QuietLog (l0 l1 : List Event) : Prop :=
  throwCount l1 = throwCount l0 ∧ guardEvents l1 = guardEvents l0

/-- The computation returns from every world, and relates the worlds by `R`. -/
def Returns {α : Type} (R : World → World → Prop) (m : M α) : Prop :=
  ∀ w, ∃ a w1, m w = (.ret a, w1) ∧ R w w1

/-- The guard bookkeeping is untouched and `throwException` was not entered. -/
def Keeps (w w1 : World) : Prop :=
  w1.L.errorJmp = w.L.errorJmp ∧ w1.L.nCcalls = w.L.nCcalls ∧ w1.csp = w.csp ∧
    QuietLog w.env.log w1.env.log

/-- What `getJavaObject` computes, as a function of the state. -/
def unwrap (L : lua_State) (env : JNIEnv) (idx : Int) (c : Option JClass) : jobject :=
  if lua_isuserdata L idx then
    match (index2value L idx).bind (metatableOf L) with
    | some t =>
      if getfield JNLUA_MOBJECT L.registry = .table t then
        let object := derefObject L (lua_touserdata L idx)
        match c with
        | some c => if IsInstanceOf env object c then object else .null
        | none => object
      else .null
    | none => .null
  else .null

/-- The world in which the body of a region opened in `w` starts, when the stack has
room: the region's buffer is installed and the execution context is bound. -/
def entered (env : Nat) (w : World) : World :=
  { w with
    L := setRegistryField JNLUA_RENV
          (push (.lightuserdata env) { w.L with errorJmp := some w.csp }),
    csp := w.csp + 1 }

/-- The failure kinds of the taxonomy that come from an interpreter status. -/
inductive FailureKind
  | parse
  | memory
  | messageHandler
  | finalizer
  | runtime
  deriving DecidableEq, Repr

/-- The failure kind a host exception class stands for. -/
def kindOfClass : JClass → Option FailureKind
  | .luaSyntaxException => some .parse
  | .luaMemoryAllocationException => some .memory
  | .luaMessageHandlerException => some .messageHandler
  | .luaGcMetamethodException => some .finalizer
  | .luaRuntimeException => some .runtime
  | _ => none

/-- The taxonomy as the specification words it: the kind is decided by the interpreter's
status code alone, and everything that is not a syntax, memory, message-handler or finalizer
status is a runtime error. -/
def specKind (status : Int) : FailureKind :=
  if status = 3 then .parse
  else if status = 4 then .memory
  else if status = 6 then .messageHandler
  else if status = 5 then .finalizer
  else .runtime

/-! ## Protected call (`lua_pcall`) -/

/-- What running a function does, as far as the bridge can tell: the status, the values
it produced (all its results, or the one error value after the message handler ran) and
the world it left. -/
structure CallOutcome where
  status : Int
  values : List Value
  world : World

/-- The behaviour of the interpreter on the code it is asked to run: from the world in
which the function and `nargs` arguments are on top of the stack.  Guest code is
arbitrary, so this is a parameter. -/
abbrev Run := World → Int → CallOutcome

/-- Adjust a list of results to exactly `n` values (`n ≥ 0`), padding with nil. -/
def adjustResults (vals : List Value) (n : Nat) : List Value :=
  vals.take n ++ List.replicate (n - vals.length) .nil

/-- The contract of `lua_pcall(L, nargs, nresults, msgh)`: the function and its arguments
are removed; on success the results, adjusted to `nresults` unless that is
`LUA_MULTRET`, are pushed; on an error exactly one error value is pushed and the status
is returned.  The values below the function stay.  No `longjmp` leaves it. -/
def lua_pcall (run : Run) (nargs nresults : Int) (_msgh : Int) : M Int := fun w =>
  let w0 : World := { w with env := { w.env with log := w.env.log ++ [.lua_pcall nargs nresults] } }
  let below := w0.L.stack.take (w0.L.stack.length - (nargs + 1).toNat)
  let out := run w0 nargs
  if out.status = LUA_OK then
    let results :=
      if nresults = LUA_MULTRET then out.values else adjustResults out.values nresults.toNat
    (.ret LUA_OK, { out.world with L := { out.world.L with stack := below ++ results } })
  else
    (.ret out.status,
      { out.world with L := { out.world.L with stack := below ++ [out.values.headD .nil] } })

/-- The operation `lua_pcall()` of the Java class (`Java_com_naef_jnlua_LuaState_lua_1pcall`). -/
def lua_1pcall (run : Run) (env : Nat) (nargs nresults : Int) : M (Option Unit) :=
  guarded env fun addr => do
    checkarg (decide (nargs ≥ 0)) "illegal argument count"
    checkarg (decide (nresults ≥ 0 ∨ nresults = LUA_MULTRET)) "illegal return count"
    checknelems (addInt nargs 1)
    if nresults ≠ LUA_MULTRET then
      checkstack (subInt nresults (addInt nargs 1)) (some "call results")
    let L ← getL
    let index := subInt (lua_gettop L) nargs
    modifyL (push (.cfunction .handleError))
    modifyL fun L => lua_insert L index
    let status ← lua_pcall run nargs nresults index
    modifyL fun L => lua_remove L index
    if status ≠ LUA_OK then
      JNLUA_THROW addr status
    else pure ()

/-- Guest code that returns nothing. -/
def runNothing : Run := fun w _ => { status := LUA_OK, values := [], world := w }

/-- The values below the called function: all but the top `nargs + 1`. -/
def belowCall (L : lua_State) (nargs : Int) : List Value :=
  L.stack.take (L.stack.length - (nargs + 1).toNat)

/-- The world in which `lua_1pcall` hands control to the interpreter: the region is
entered, `handleError` sits just below the function, and the call is logged. -/
def callWorld (env : Nat) (nargs nresults : Int) (w : World) : World :=
  { L := { (entered env w).L with
            stack := belowCall w.L nargs ++ .cfunction .handleError
              :: w.L.stack.drop (w.L.stack.length - (nargs + 1).toNat) },
    env := { w.env with log := w.env.log ++ [.lua_pcall nargs nresults] },
    csp := w.csp + 1 }

/-! ## Embedding host objects and callables -/

/-- The operation `lua_pushcclosure(L, f, 1)`: pops one value, which becomes the upvalue of
a new C closure, and pushes the closure. -/
def lua_pushcclosure1 (f : CFunction) (L : lua_State) : lua_State :=
  let up := L.stack.getLast?.getD .nil
  push (.cclosure f L.nextAddr)
    { lua_pop 1 L with closures := update L.nextAddr [up] L.closures,
                       nextAddr := L.nextAddr + 1 }

/-- The operation `lua_getupvalue(L, idx, 1)` on a C function: pushes the first upvalue and
returns `true`, or pushes nothing and returns `false` when there is none.  (The upvalues of
Lua closures are not part of this model.) -/
def lua_getupvalue1 (L : lua_State) (idx : Int) : Bool × lua_State :=
  match index2value L idx with
  | some (.cclosure _ addr) =>
    match lookup addr L.closures with
    | some (up :: _) => (true, push up L)
    | _ => (false, L)
  | _ => (false, L)

/-- A guard region whose body may execute a C `return` statement: `.inl b` is
`return b;` inside the region, which leaves the function without reaching `JNLUA_END`;
`.inr a` falls through to `JNLUA_END`. -/
def guardedEarly {α : Type} (env : Nat) (body : Nat → M (α ⊕ α)) : M (Option α) := fun w =>
  let addr := w.csp
  let oldnCcalls := w.L.nCcalls
  let lj : lua_longjmp := { status := LUA_OK, previous := w.L.errorJmp }
  match JNLUA_TRY env body w with
  | (.ret (.inl b), w2) => (.ret (some b), { w2 with csp := addr })
  | (.ret (.inr a), w2) =>
    match JNLUA_END oldnCcalls addr lj { w2 with csp := addr } with
    | (.ret _, w3) => (.ret (some a), w3)
    | (.unwind u, w3) => (.unwind u, w3)
  | (.unwind u, w2) =>
    if u.target = some addr then
      let w2a : World :=
        { w2 with csp := addr, env := { w2.env with log := w2.env.log ++ [.landed addr] } }
      match JNLUA_END oldnCcalls addr { lj with status := u.status.getD lj.status } w2a with
      | (.ret _, w3) => (.ret none, w3)
      | (.unwind u1, w3) => (.unwind u1, w3)
    else (.unwind u, w2)

/-- The statements of `lua_pushjavafunction()` between `JNLUA_TRY` and `JNLUA_END`. -/
def pushjavafunctionBody (f : jobject) : M Unit := do
  pushJavaObject f
  modifyL (lua_pushcclosure1 .callJavaFunction)

/-- The operation `lua_pushjavafunction()` of the Java class. -/
def lua_1pushjavafunction (env : Nat) (f : jobject) : M (Option Unit) :=
  guarded env fun _ => pushjavafunctionBody f

/-- The operation `lua_pushjavaobject()` of the Java class. -/
def lua_1pushjavaobject (env : Nat) (object : jobject) : M (Option Unit) :=
  guarded env fun _ => pushJavaObject object

/-- The statements of `lua_tojavafunction()` between `JNLUA_TRY` and `JNLUA_END`:
`.inl` is a `return` inside the region, `.inr` the value of `functionObj` at `JNLUA_END`. -/
def tojavafunctionBody (index : Int) : M (jobject ⊕ jobject) := do
  checkindex index
  let L ← getL
  if lua_tocfunction L index ≠ some .callJavaFunction then
    pure (.inl .null)
  else
    let (has, L1) := lua_getupvalue1 L index
    setL L1
    if !has then
      pure (.inl .null)
    else
      let functionObj ← getJavaObject (-1) (some .javaFunction)
      modifyL (lua_pop 1)
      pure (.inr functionObj)

/-- The operation `lua_tojavafunction()` of the Java class.  The result is `NULL` when the
region landed an error. -/
def lua_1tojavafunction (env : Nat) (index : Int) : M jobject := do
  let r ← guardedEarly env fun _ => tojavafunctionBody index
  pure (r.getD .null)

/-- The operation `lua_tojavaobject()` of the Java class. -/
def lua_1tojavaobject (env : Nat) (index : Int) : M jobject := do
  let r ← guarded env fun _ => do
    checkindex index
    getJavaObject index none
  pure (r.getD .null)

/-- A valid session: `lua_newstate` has stored the marker metatable, a table, in the
registry under `JNLUA_MOBJECT`. -/
def ValidSession (L : lua_State) : Prop :=
  ∃ t, getfield JNLUA_MOBJECT L.registry = .table t

/-- The world after `JNLUA_END` closed, with status `LUA_OK`, the region opened in `w`
whose body ended in `w2`. -/
def closedWorld (w w2 : World) : World :=
  { L := { w2.L with errorJmp := w.L.errorJmp, nCcalls := w.L.nCcalls },
    env := { w2.env with log := w2.env.log ++ [.closed w.csp w2.L.errorJmp w.L.errorJmp] },
    csp := w.csp }

/-- A fresh valid session whose host holds one object, a host callable. -/
def demoSession : World :=
  { L := { registry := [(JNLUA_MOBJECT, .table 7)] },
    env := { heap := [{ cls := .javaFunction }] } }

/-- The value at `idx` is a userdata whose metatable is the very table stored in the
registry under `JNLUA_MOBJECT` (the private marker). -/
def IsWrapper (L : lua_State) (idx : Int) : Prop :=
  lua_isuserdata L idx = true ∧
    ∃ t, (index2value L idx).bind (metatableOf L) = some t ∧
      getfield JNLUA_MOBJECT L.registry = .table t

/-- The reference stored in the userdata at `idx`: `*(jobject *) lua_touserdata(L, idx)`. -/
def storedObject (L : lua_State) (idx : Int) : jobject :=
  derefObject L (lua_touserdata L idx)

/-- The stored object satisfies the expected class, when one is given. -/
def SatisfiesClass (env : JNIEnv) (r : jobject) : Option JClass → Prop
  | none => True
  | some c => IsInstanceOf env r c = true

/-- The frame in which the collector runs the `__gc` metamethod of the userdata at `a`:
the userdata is the only argument, and the registry binds the execution context `env`
(0 when there is none). -/
def finalizerFrame (w : World) (a : Nat) (env : Nat) : World :=
  { w with L := { w.L with stack := [.userdata a],
                           registry := setfield JNLUA_RENV (.lightuserdata env) w.L.registry } }

/-! ## Threads (`lua_resume`) -/

/-- The operation `lua_tothread`: the thread a value is, if it is one. -/
def lua_tothread (L : lua_State) (idx : Int) : Option Nat :=
  match index2value L idx with
  | some (.thread id) => some id
  | _ => none

/-- The stack of thread `tid` as seen from `L`. -/
def threadStack (L : lua_State) (tid : Nat) : List Value :=
  if tid = L.self then L.stack else (lookup tid L.threads).getD []

/-- The operation `lua_xmove(L, thread, n)`: pops the top `n` values of `L` and pushes them, in
order, onto the thread `tid`; nothing happens when the thread is `L` itself. -/
def xmoveToThread (tid : Nat) (n : Int) (L : lua_State) : lua_State :=
  if tid = L.self then L
  else
    { L with stack := L.stack.take (L.stack.length - n.toNat),
             threads := update tid
               (threadStack L tid ++ L.stack.drop (L.stack.length - n.toNat)) L.threads }

/-- The operation `lua_xmove(thread, L, n)`: pops the top `n` values of thread `tid` and pushes
them, in order, onto `L`. -/
def xmoveFromThread (tid : Nat) (n : Int) (L : lua_State) : lua_State :=
  if tid = L.self then L
  else
    let ts := threadStack L tid
    { L with stack := L.stack ++ ts.drop (ts.length - n.toNat),
             threads := update tid (ts.take (ts.length - n.toNat)) L.threads }

/-- What resuming a thread does, as far as the bridge can tell: the status, the stack the
thread is left with, and the world. -/
structure ResumeOutcome where
  status : Int
  threadStack : List Value
  world : World

/-- The behaviour of the interpreter when it runs a thread: from the world in which
the arguments are on the thread's stack.  Guest code is arbitrary, so this is a
parameter. -/
abbrev ResumeRun := World → Nat → Int → ResumeOutcome

/-- The contract of `lua_resume(thread, from, nargs)`: the thread runs until it returns,
yields or fails, and is left with the stack the run produced; the stack of the resuming
state is not touched.  No `longjmp` leaves it. -/
def lua_resume (run : ResumeRun) (tid : Nat) (nargs : Int) : M Int := fun w =>
  let out := run w tid nargs
  (.ret out.status,
    { out.world with
      L := { out.world.L with
        stack := w.L.stack, self := w.L.self,
        threads := update tid out.threadStack out.world.L.threads } })

/-- The operation `checkstack(luaThread, space, msg)` on another thread.  (A failure is raised
in the resuming state.) -/
def checkstackThread (tid : Nat) (space : Int) (msg : String) : M Unit := do
  let L ← getL
  if !decide (((threadStack L tid).length : Int) + space ≤ L.stackLimit) then
    luaL_error ("stack overflow (" ++ msg ++ ")")
  else pure ()

/-- The statements of `lua_resume()` between `JNLUA_TRY` and `JNLUA_END`; the value is
`nresults`. -/
def resumeBody (run : ResumeRun) (index nargs : Int) (addr : Nat) : M Int := do
  checktype index LUA_TTHREAD
  checkarg (decide (nargs ≥ 0)) "illegal argument count"
  checknelems (addInt nargs 1)
  let L ← getL
  let luaThread := (lua_tothread L index).getD L.self
  checkstackThread luaThread nargs "resume arguments"
  modifyL (xmoveToThread luaThread nargs)
  let status ← lua_resume run luaThread nargs
  if status = LUA_OK ∨ status = LUA_YIELD then
    let L1 ← getL
    let nresults : Int := (threadStack L1 luaThread).length
    checkstack nresults (some "yield arguments")
    modifyL (xmoveFromThread luaThread nresults)
    pure nresults
  else
    JNLUA_THROW addr status

/-- The operation `lua_resume()` of the Java class; the value is `nresults`, 0 when the region
landed an error. -/
def lua_1resume (run : ResumeRun) (env : Nat) (index nargs : Int) : M Int := do
  let r ← guarded env (resumeBody run index nargs)
  pure (r.getD 0)

/-- A thread that yields the values it finds on its stack above its function. -/
def runYieldsArgs : ResumeRun := fun w tid nargs =>
  { status := LUA_YIELD,
    threadStack := (threadStack w.L tid).drop ((threadStack w.L tid).length - nargs.toNat),
    world := w }

/-- The world in which `lua_1resume` hands control to the interpreter: the region is
entered and the arguments have been moved to the thread. -/
def resumeWorld (env : Nat) (tid : Nat) (nargs : Int) (w : World) : World :=
  { entered env w with L := xmoveToThread tid nargs (entered env w).L }

/-- A caller whose stack holds a new thread (id 5, holding only its function) and two numbers. -/
def demoCaller : World :=
  { L := { stack := [.thread 5, .number 10, .number 20], threads := [(5, [.lclosure 3])] } }

/-! ## Calling host functions (`callJavaFunction`) and the message handler (`handleError`) -/

/-- The operation `lua_error`: raises the value on top of the stack as a runtime error. -/
def lua_error {α : Type} : M α := luaD_throw LUA_ERRRUN

/-- The operation `lua_yield(L, nresults)` from a C function: control leaves the function
with status `LUA_YIELD`; the top `nresults` values are the values yielded. -/
def lua_yield {α : Type} (nresults : Int) : M α := do
  logEvent (.lua_yield nresults)
  luaD_throw LUA_YIELD

/-- The field `short_src` of an activation record (`luaO_chunkid`, without truncation):
the source without its leading marker, or the quoted chunk text. -/
def short_src (source : String) : String :=
  match source.data with
  | '=' :: r => String.mk r
  | '@' :: r => String.mk r
  | _ => "[string \"" ++ source ++ "\"]"

/-- The string `luaL_where(L, 1)` pushes: the position of the function at level 1, or the
empty string when there is none. -/
def luaL_where1 (L : lua_State) : String :=
  match L.callStack.get? 1 with
  | some ar =>
    if ar.currentline > 0 then
      short_src (ar.source.getD "?") ++ ":" ++ ToString.toString ar.currentline ++ ": "
    else ""
  | none => ""

/-- What a host callable does when invoked: the result count it returns and the world it
leaves (it may use the stack, raise a host exception, set the yield flag).  Host code is
arbitrary, so this is a parameter. -/
abbrev HostCall := World → Nat → Int × World

/-- JNI `CallIntMethod(env, javaFunctionObj, invokeId, obj)`. -/
def CallIntMethod (invoke : HostCall) (f : jobject) : M Int := fun w =>
  ((.ret (invoke w (f.target.getD 0)).1), (invoke w (f.target.getD 0)).2)

def getYield : M Bool := fun w => (.ret w.env.javaYield, w)
def setYield (y : Bool) : M Unit := modifyEnv fun env => { env with javaYield := y }
def getLuaThread : M Nat := fun w => (.ret w.env.javaLuaThread, w)
def setLuaThread (t : Nat) : M Unit := modifyEnv fun env => { env with javaLuaThread := t }

/-- JNI `ExceptionOccurred`. -/
def ExceptionOccurred : M (Option Nat) := fun w => (.ret w.env.pending, w)

/-- The block of `callJavaFunction` under `if (throwable)`: push exception, clear, error
out. -/
def raiseJavaException (throwable : Nat) : M Int := do
  modifyL lua_settop0
  modifyL fun L => push (.string (luaL_where1 L)) L
  let whereString ← toString (-1)
  modifyL (lua_pop 1)
  let luaErrorObj ← NewObject { cls := .luaError, message := some whereString, cause := some throwable }
  pushJavaObject luaErrorObj
  ExceptionClear
  lua_error

/-- Calls a Java function.  If an exception is reported, store it as the cause for later use. -/
def callJavaFunction (invoke : HostCall) : M Int := do
  let _env ← getJniEnv
  let obj ← getJavaState
  if obj = 0 then
    modifyL (push (.string "no Java VM"))
    lua_error
  else
    modifyL fun L => push ((index2value L (lua_upvalueindex 1)).getD .nil) L
    let javaFunctionObj ← getJavaObject (-1) (some .javaFunction)
    modifyL (lua_pop 1)
    if javaFunctionObj = .null then
      modifyL (push (.string "no Java function"))
      lua_error
    else
      setYield false
      let javaLuaThread ← getLuaThread
      let L ← getL
      let result ←
        if javaLuaThread = L.self then
          CallIntMethod invoke javaFunctionObj
        else do
          setLuaThread L.self
          let r ← CallIntMethod invoke javaFunctionObj
          setLuaThread javaLuaThread
          pure r
      let throwable ← ExceptionOccurred
      match throwable with
      | some e => raiseJavaException e
      | none =>
        let y ← getYield
        if y then
          let L1 ← getL
          if result < 0 ∨ result > lua_gettop L1 then
            modifyL (push (.string "illegal return count"))
            lua_error
          else
            lua_yield result
        else
          pure result

/-- Processes a Lua activation record and returns whether it is relevant. -/
def processActivationRecord (ar : lua_Debug) : Bool × lua_Debug :=
  let ar1 := if ar.name = some "" then { ar with name := none } else ar
  let ar2 := if ar1.what = some "C" then { ar1 with source := none } else ar1
  let ar3 :=
    match ar2.source with
    | some src =>
      match src.data with
      | c :: rest =>
        if c = '=' ∨ c = '@' then { ar2 with source := some (String.mk rest) } else ar2
      | [] => ar2
    | none => ar2
  (ar3.name.isSome || ar3.source.isSome, ar3)

/-- JNI `NewObjectArray(env, count, ...)`: an array of `count` null slots, or `NULL`. -/
def NewObjectArray (count : Nat) : M (Option (List (Option TraceElement))) := fun w =>
  match takeOracle w.env with
  | (true, env) => (.ret (some (List.replicate count none)), { w with env := env })
  | (false, env) => (.ret none, { w with env := env })

/-- JNI `NewObject` for a `LuaStackTraceElement`: the element, or `NULL`. -/
def NewTraceElement (e : TraceElement) : M (Option TraceElement) := fun w =>
  match takeOracle w.env with
  | (true, env) => (.ret (some e), { w with env := env })
  | (false, env) => (.ret none, { w with env := env })

/-- The second loop of `handleError` over the activation records from level 1 on: fills the
array, or gives `none` when the function returns early. -/
def fillTrace : List lua_Debug → Nat → List (Option TraceElement) →
    M (Option (List (Option TraceElement)))
  | [], _, array => pure (some array)
  | ar :: rest, count, array =>
    if (processActivationRecord ar).1 then do
      let ar1 := (processActivationRecord ar).2
      let element ← NewTraceElement
        { functionName := ar1.name, sourceName := ar1.source, line := ar1.currentline }
      match element with
      | none => pure none
      | some e =>
        let env ← getEnv
        if env.pending.isSome then pure none
        else fillTrace rest (count + 1) (array.set count (some e))
    else fillTrace rest count array

/-- Handles Lua errors. -/
def handleError : M Int := do
  let _env ← getJniEnv
  let L ← getL
  let frames := L.callStack.drop 1
  let count := (frames.filter fun ar => (processActivationRecord ar).1).length
  let luaStackTraceArray ← NewObjectArray count
  match luaStackTraceArray with
  | none => pure 1
  | some array0 =>
    let filled ← fillTrace frames 0 array0
    match filled with
    | none => pure 1
    | some array =>
      let found ← getJavaObject (-1) (some .luaError)
      let luaErrorObj ←
        if found = .null then do
          let messageString ← toString (-1)
          NewObject { cls := .luaError, message := some messageString }
        else pure found
      if luaErrorObj = .null then pure 1
      else
        modifyObject luaErrorObj fun t => { t with luaStackTrace := some array }
        pushJavaObject luaErrorObj
        pure 1

/-- The interpreter running a bridge closure under `lua_pcall`: the closure is called
on a frame that holds its arguments; when it raises an error the message handler is
called on the error value and its result is the error value of the call.  A `longjmp`
that stored no status leaves the status of the call `LUA_OK`. -/
def runCallable (invoke : HostCall) : Run := fun w nargs =>
  let n := w.L.stack.length - nargs.toNat
  match w.L.stack.get? (n - 1) with
  | some (.cclosure .callJavaFunction addr) =>
    let frame : World :=
      { w with L := { w.L with stack := w.L.stack.drop n,
                               upvalues := (lookup addr w.L.closures).getD [] } }
    match callJavaFunction invoke frame with
    | (.ret r, w1) =>
      { status := LUA_OK, values := w1.L.stack.drop (w1.L.stack.length - r.toNat),
        world := { w1 with L := { w1.L with upvalues := w.L.upvalues } } }
    | (.unwind u, w1) =>
      match u.status with
      | some st =>
        let errv := w1.L.stack.getLast?.getD .nil
        match handleError { w1 with L := { w1.L with stack := [errv], upvalues := [] } } with
        | (.ret _, w2) =>
          { status := st, values := [w2.L.stack.getLast?.getD .nil],
            world := { w2 with L := { w2.L with upvalues := w.L.upvalues } } }
        | (.unwind _, w2) =>
          { status := LUA_ERRERR, values := [w2.L.stack.getLast?.getD .nil],
            world := { w2 with L := { w2.L with upvalues := w.L.upvalues } } }
      | none =>
        { status := LUA_OK, values := [],
          world := { w1 with L := { w1.L with upvalues := w.L.upvalues } } }
  | _ => { status := LUA_OK, values := [], world := w }

/-- A host callable that raises the host exception `e` (an object of the host heap). -/
def hostRaises (e : Nat) : HostCall := fun w _ =>
  (0, { w with env := { w.env with pending := some e } })

/-- A session bound to its Java state, whose host holds a callable (object 0) and an
exception (object 1), with the callable wrapped by a bridge closure on the stack; the
calling guest frame is at `chunk:3:`. -/
def demoCall : World :=
  { L := { stack := [.cclosure .callJavaFunction 2],
           registry := [(JNLUA_MOBJECT, .table 7), (JNLUA_RJAVASTATE, .lightuserdata 9)],
           udata := [(1, { payload := .glob 0 0, metatable := some 7 })],
           closures := [(2, [.userdata 1])],
           nextAddr := 3,
           callStack := [{ what := some "C" }, { name := some "f", what := some "Lua", source := some "@chunk", currentline := 3 }] },
    env := { heap := [{ cls := .javaFunction }, { cls := .other 1 }], globals := [0], nextRef := 1 } }

/-- The world in which `JNLUA_END` translates the error of a failed `lua_1pcall`: the
handler is removed, the error value is on top, the region has landed and closed. -/
def failedCallWorld (run : Run) (env : Nat) (nargs nresults : Int) (w : World) : World :=
  { L := { (run (callWorld env nargs nresults w) nargs).world.L with stack := belowCall w.L nargs ++ [(run (callWorld env nargs nresults w) nargs).values.headD .nil], errorJmp := w.L.errorJmp, nCcalls := w.L.nCcalls },
    env := { (run (callWorld env nargs nresults w) nargs).world.env with log := (run (callWorld env nargs nresults w) nargs).world.env.log ++ [.landed w.csp, .closed w.csp (run (callWorld env nargs nresults w) nargs).world.L.errorJmp w.L.errorJmp] },
    csp := w.csp }

/-- The session `demoCall` when the next JNI object creation fails. -/
def demoCallNoMemory : World :=
  { demoCall with env := { demoCall.env with oracle := [false] } }

/-! ## The call of the host callable inside `callJavaFunction` -/

/-- The world in which `callJavaFunction`, entered in `F`, calls the host callable: the
yield flag is cleared and the `luaThread` field names the running thread. -/
def invocationWorld (F : World) : World :=
  { F with env := { F.env with javaYield := false, javaLuaThread := F.L.self } }

/-- The world in which `callJavaFunction`, entered in `F`, goes on after the host callable
returned in `H`: when the `luaThread` field was switched it is set back. -/
def returnWorld (F H : World) : World :=
  if F.env.javaLuaThread = F.L.self then H
  else { H with env := { H.env with javaLuaThread := F.env.javaLuaThread } }

/-- The statements of `callJavaFunction` that follow the call of the host callable, which
returned `result`: "Handle exception" and "Handle yield". -/
def finishCall (result : Int) : M Int := do
  let throwable ← ExceptionOccurred
  match throwable with
  | some e => raiseJavaException e
  | none =>
    let y ← getYield
    if y then
      let L1 ← getL
      if result < 0 ∨ result > lua_gettop L1 then
        modifyL (push (.string "illegal return count"))
        lua_error
      else
        lua_yield result
    else
      pure result

/-- The fields of the Java `LuaState` object and the registry are the same in both worlds. -/
def SameSession (w w1 : World) : Prop :=
  w1.env.javaLuaThread = w.env.javaLuaThread ∧ w1.env.javaYield = w.env.javaYield ∧
    w1.env.javaLuaState = w.env.javaLuaState ∧ w1.L.registry = w.L.registry

/-- However the computation ends, by return or by `longjmp`, it relates the worlds by `R`. -/
def Always {α : Type} (R : World → World → Prop) (m : M α) : Prop :=
  ∀ w, R w (m w).2

/-- The world with the yield flag of the Java state set to `b`. -/
def withYield (b : Bool) (w : World) : World :=
  { w with env := { w.env with javaYield := b } }

/-- The computation does not read the yield flag: run with another value of the flag it
ends the same way, in the same world up to the flag. -/
def FlagBlind {α : Type} (m : M α) : Prop :=
  ∀ b w, m (withYield b w) = ((m w).1, withYield b (m w).2)

/-- A coroutine (thread 5) of the session `demoCall` calls the wrapped callable while the
`luaThread` field names the main thread (0). -/
def demoThreadCall : World :=
  { demoCall with L := { demoCall.L with self := 5, upvalues := [.userdata 1], stack := [] } }

/-- A host callable that asks for a yield: it sets the yield flag and returns `r`. -/
def hostYields (r : Int) : HostCall := fun w _ =>
  (r, { w with env := { w.env with javaYield := true } })

/-- A host callable that returns `r` values. -/
def hostReturns (r : Int) : HostCall := fun w _ => (r, w)

/-- A call of the bridge closure in a state whose upvalue is not a wrapper (a number). -/
def demoStrayCall : World :=
  { demoThreadCall with L := { demoThreadCall.L with upvalues := [.number 1] } }

/-! ## Function kind queries -/

/-- The operation `lua_iscfunction()` of the Java class. -/
def lua_1iscfunction (env : Nat) (index : Int) : M Int := do
  let L ← getL
  if !validindex L index then
    pure 0
  else
    let r ← guarded env fun _ => do
      let L1 ← getL
      pure (lua_tocfunction L1 index)
    let cFunction : Option CFunction := r.getD none
    pure (if cFunction ≠ none ∧ cFunction ≠ some .callJavaFunction then 1 else 0)

/-- The operation `lua_isjavafunction()` of the Java class. -/
def lua_1isjavafunction (env : Nat) (index : Int) : M Int := do
  let L ← getL
  if !validindex L index then
    pure 0
  else
    let r ← guarded env fun _ => do
      let L1 ← getL
      pure (if lua_tocfunction L1 index = some .callJavaFunction then (1 : Int) else 0)
    pure (r.getD 0)

/-! ## Closing a session (`lua_close`) -/

def getLuaState : M Nat := fun w => (.ret w.env.javaLuaState, w)
def setLuaState (s : Nat) : M Unit := modifyEnv fun env => { env with javaLuaState := s }

/-- Sets the Java state in the Lua state. -/
def setJavaState (javaState : Nat) : M Unit := do
  modifyL (push (.lightuserdata javaState))
  modifyL (setRegistryField JNLUA_RJAVASTATE)

/-- The operation `lua_getstack(L, level, &ar)`: whether there is an activation record at
the level. -/
def lua_getstack (L : lua_State) (level : Nat) : Bool := (L.callStack.get? level).isSome

/-- JNI `DeleteWeakGlobalRef` on the reference stored as a pointer `p`: the reference stops
being outstanding.  A global reference of identity `id` is stored as the pointer `id + 1`;
`NULL` (0) designates none. -/
def DeleteWeakGlobalRef (p : Nat) : M Unit :=
  modifyEnv fun env =>
    { env with globals := if p = 0 then env.globals else env.globals.erase (p - 1),
               log := env.log ++ [.DeleteWeakGlobalRef p] }

/-- The wrappers of the state: the userdata whose metatable is the marker table, which
carries the finalizer `gcJavaObject` as `__gc`. -/
def wrappers (L : lua_State) : List Nat :=
  (L.udata.filter fun p =>
    match p.2.metatable with
    | some t => decide (getfield JNLUA_MOBJECT L.registry = .table t)
    | none => false).map Prod.fst

/-- The interpreter's `lua_close(L)`: the finalizer of every wrapper is called with the
wrapper as its argument, then the memory of the state is freed.  Nothing of the state can
be observed afterwards; the empty state stands for it. -/
def lua_close : M Unit := fun w =>
  let w1 := (wrappers w.L).foldl
    (fun acc a => (gcJavaObject { acc with L := { acc.L with stack := [.userdata a] } }).2) w
  (.ret (), { w1 with L := {} })

/-- How `lua_close()` of the Java class ends: it returns, or it passes to the interpreter a
pointer that designates no state (`lua_getstack(NULL, ...)`, `getJavaState(NULL)` on a
closed session), which is undefined behaviour. -/
inductive Ended
  | returned
  | invalidAccess
  deriving DecidableEq, Repr

/-- The operation `lua_close()` of the Java class (`Java_com_naef_jnlua_LuaState_lua_1close`).
The world holds the state of the current thread.  The pointer in the `luaState` field is
`NULL` or designates the main state of the session, which is the current thread unless a
coroutine is current.  `lua_getstack` and the interpreter's `lua_close` need the state
itself, which the world has for the current thread only.  `getJavaState`, `setJavaState`
and `setJniEnv` read and write the registry, which all threads share, through a slot they
push and pop on the stack of `luaState`; that stack is left as it was, so they are done
here whichever thread is current. -/
def lua_1close (ownState : Bool) : M Ended := do
  let luaState ← getLuaState
  let L ← getL
  let designates := decide (luaState ≠ 0 ∧ luaState = L.self)
  let known := decide (luaState ≠ 0)
  let luaThread ← getLuaThread
  if ownState ∧ luaState ≠ luaThread then
    pure .returned
  else if ownState ∧ !designates then
    pure .invalidAccess
  else if ownState ∧ lua_getstack L 0 then
    pure .returned
  else
    setLuaState 0
    setLuaThread 0
    if !known then
      pure .invalidAccess
    else if ownState then
      let javaState ← getJavaState
      DeleteWeakGlobalRef javaState
      lua_close
      pure .returned
    else
      let javaState ← getJavaState
      DeleteWeakGlobalRef javaState
      setJavaState 0
      setJniEnv 0
      pure .returned

/-- The main state 5 of a session calls the wrapped callable of `demoCall`: the `luaState`
and `luaThread` fields both name it. -/
def demoMainCall : World :=
  { demoThreadCall with env := { demoThreadCall.env with javaLuaThread := 5, javaLuaState := 5 } }

/-- A host callable that detaches the session (`lua_close()` without ownership) and
returns no values. -/
def hostCloses : HostCall := fun w _ => (0, (lua_1close false w).2)

/-- Modelled from the spec: the method `close` of the Java class `LuaState`, which is not
among the sources.  Closing an already closed session is a no-op; otherwise the native
`lua_close` is called, and when the session is then still open (the native code refused,
because call frames are active) the method fails with a State error. -/
def close (ownState : Bool) : M Unit := do
  let luaState ← getLuaState
  if luaState = 0 then
    pure ()
  else
    let _ ← lua_1close ownState
    let luaState1 ← getLuaState
    if luaState1 ≠ 0 then
      ThrowNew .illegalStateException "cannot close"
    else
      pure ()

/-- A sequence of `close` calls, one for each ownership mode of the list. -/
def closeAll : List Bool → M Unit
  | [] => pure ()
  | m :: r => do
    close m
    closeAll r

/-- Number of times the weak reference to the Java state was released. -/
def releaseCount (log : List Event) : Nat :=
  log.countP fun e => match e with
    | .DeleteWeakGlobalRef _ => true
    | _ => false

/-- An open session: the `luaState` field designates the main state, and the `luaThread`
field the current thread, which is the main state or one of its coroutines. -/
def OpenSession (w : World) : Prop :=
  w.env.javaLuaState ≠ 0 ∧ w.env.javaLuaThread = w.L.self

/-- An open session (state 4, Java state stored as the weak reference 8) with one wrapper;
no function is running. -/
def demoOpen : World :=
  { L := { self := 4,
           registry := [(JNLUA_MOBJECT, .table 7), (JNLUA_RJAVASTATE, .lightuserdata 9), (JNLUA_RENV, .lightuserdata 1)],
           udata := [(1, { payload := .glob 0 0, metatable := some 7 })] },
    env := { heap := [{ cls := .javaFunction }], globals := [8, 0], nextRef := 9, javaLuaState := 4, javaLuaThread := 4 } }

/-- The session `demoOpen` while its coroutine 5 is the current thread and no function is
running in it: the main state 4 is one of the other threads. -/
def demoInCoroutine : World :=
  { demoOpen with L := { demoOpen.L with self := 5, threads := [(4, [])] }, env := { demoOpen.env with javaLuaThread := 5 } }

/-- The session `demoOpen` while a host callable invoked from guest code is running. -/
def demoBusy : World :=
  { demoOpen with L := { demoOpen.L with callStack := [{ what := some "C" }, { what := some "Lua", source := some "@chunk", currentline := 3 }] } }

/-- Nothing was released or raised between the two worlds and the fields of the Java state
are the same. -/
def NoRelease (w w1 : World) : Prop :=
  w1.env.javaLuaState = w.env.javaLuaState ∧ w1.env.javaLuaThread = w.env.javaLuaThread ∧
    w1.env.pending = w.env.pending ∧ w1.env.heap = w.env.heap ∧
    releaseCount w1.env.log = releaseCount w.env.log

/-- Whether the native `lua_close` refuses to close the open session of `w` in the mode:
with ownership it does when a coroutine is current or the main state has a call frame. -/
def refuses (w : World) (ownState : Bool) : Bool :=
  ownState && (decide (w.env.javaLuaState ≠ w.env.javaLuaThread) || lua_getstack w.L 0)

/-- What `getJavaState` computes: the pointer stored in the registry under
`JNLUA_RJAVASTATE`, `NULL` (0) when there is none. -/
def javaStateOf (L : lua_State) : Nat :=
  match getfield JNLUA_RJAVASTATE L.registry with
  | .userdata a => a
  | .lightuserdata p => p
  | _ => 0

/-- The world in which `lua_close()` of the Java class, accepted in `w`, hands the state to
the interpreter or detaches it: the fields are cleared and the weak reference released. -/
def releasedWorld (w : World) : World :=
  { w with env := { w.env with javaLuaState := 0, javaLuaThread := 0, globals := if javaStateOf w.L = 0 then w.env.globals else w.env.globals.erase (javaStateOf w.L - 1), log := w.env.log ++ [.DeleteWeakGlobalRef (javaStateOf w.L)] } }

/-- Checks if an index is valid, ignoring pseudo indexes. -/
def checkrealindex (index : Int) : M Unit := do
  let L ← getL
  let top := lua_gettop L
  let index1 := if index ≤ 0 then addInt (addInt top index) 1 else index
  checkarg (decide (index1 ≥ 1 ∧ index1 ≤ top)) "illegal index"

/-! ## Creating a thread (`lua_newthread`) -/

/-- The operation `lua_absindex(L, idx)` for a stack index. -/
def lua_absindex (L : lua_State) (idx : Int) : Int :=
  if idx > 0 then idx else lua_gettop L + idx + 1

/-- The interpreter's `lua_newthread(L)`: a new thread with an empty stack is created and
pushed; its identity is its address. -/
def lua_newthread (L : lua_State) : Nat × lua_State :=
  (L.nextAddr,
    push (.thread L.nextAddr)
      { L with threads := update L.nextAddr [] L.threads, nextAddr := L.nextAddr + 1 })

/-- The statements of `lua_newthread()` between `JNLUA_TRY` and `JNLUA_END`. -/
def newthreadBody : M Unit := do
  checktype (-1) LUA_TFUNCTION
  let L ← getL
  let (luaThread, L1) := lua_newthread L
  setL L1
  modifyL fun L => lua_insert L (lua_absindex L (-2))
  modifyL (xmoveToThread luaThread 1)

/-- The operation `lua_newthread()` of the Java class. -/
def lua_1newthread (env : Nat) : M (Option Unit) :=
  guarded env fun _ => newthreadBody

/-- A session whose stack holds a number and a function. -/
def demoFunction : World :=
  { L := { stack := [.number 1, .lclosure 3], self := 2, nextAddr := 6 } }

/-- A thread whose function fails with a runtime error: the error message is left on top of
the thread's stack. -/
def runThreadFails (msg : String) : ResumeRun := fun w tid _ =>
  { status := LUA_ERRRUN, threadStack := threadStack w.L tid ++ [.string msg], world := w }

/-- The interpreter resuming a thread whose function is the bridge closure of a host
callable that asks for a yield: `callJavaFunction` runs on the thread and yields. -/
def runWrapperYields : ResumeRun := fun w tid _ =>
  let frame : World := { w with L := { w.L with stack := [], upvalues := [.userdata 1], self := tid } }
  let w1 := (callJavaFunction (hostYields 0) frame).2
  { status := LUA_YIELD, threadStack := [],
    world := { w1 with L := { w1.L with self := w.L.self, upvalues := w.L.upvalues } } }

/-- A host callable that resumes the thread at index 1 (through `lua_resume()` of the Java
class) and then returns no values, without asking for a yield. -/
def hostResumesThenReturns : HostCall := fun w _ =>
  (0, (lua_1resume runWrapperYields 1 1 0 w).2)

/-- The frame of a bridge closure in the session `demoCall`, called with the thread 5 as
its argument; the function of the thread is a bridge closure too. -/
def demoNested : World :=
  { demoCall with L := { demoCall.L with stack := [.thread 5], upvalues := [.userdata 1], threads := [(5, [.cclosure .callJavaFunction 2])] } }

/-- The stack trace of the frames: one element, in order, for each frame that
`processActivationRecord` finds relevant, built from the processed record. -/
def traceOf (frames : List lua_Debug) : List TraceElement :=
  (frames.filter fun ar => (processActivationRecord ar).1).map fun ar =>
    { functionName := (processActivationRecord ar).2.name,
      sourceName := (processActivationRecord ar).2.source,
      line := (processActivationRecord ar).2.currentline }

/-- The message handler is entered, with the execution context 1 bound, with a string as
error value, below two guest frames of which the inner one has neither a name nor a
source. -/
def demoHandler : World :=
  { L := { stack := [.string "boom"],
           registry := [(JNLUA_MOBJECT, .table 7), (JNLUA_RENV, .lightuserdata 1)],
           callStack := [{ what := some "C" }, { name := some "", what := some "C", source := some "=[C]" }, { name := some "f", what := some "Lua", source := some "@chunk", currentline := 3 }] } }

/-! ## Moving table entries (`lua_tablemove`) -/

/-- The value an integer key has in the entries of a table; nil when absent. -/
def rawget : List (Int × Value) → Int → Value
  | [], _ => .nil
  | (k1, v) :: r, k => if k1 = k then v else rawget r k

/-- The entries of a table after a raw assignment. -/
def rawset : List (Int × Value) → Int → Value → List (Int × Value)
  | [], k, v => [(k, v)]
  | (k1, v1) :: r, k, v => if k1 = k then (k1, v) :: r else (k1, v1) :: rawset r k v

/-- The integer-keyed entries of the table a value is; none for another value. -/
def entriesOf (L : lua_State) : Option Value → List (Int × Value)
  | some (.table a) => (lookup a L.tables).getD []
  | _ => []

/-- The operation `lua_pushvalue(L, idx)`. -/
def lua_pushvalue (L : lua_State) (idx : Int) : lua_State :=
  push ((index2value L idx).getD .nil) L

/-- The operation `lua_rawgeti(L, idx, n)`: pushes `t[n]` of the table at `idx`. -/
def lua_rawgeti (L : lua_State) (idx : Int) (n : Int) : lua_State :=
  push (rawget (entriesOf L (index2value L idx)) n) L

/-- The operation `lua_rawseti(L, idx, n)`: pops a value and stores it as `t[n]` of the
table at `idx` (resolved before the pop). -/
def lua_rawseti (L : lua_State) (idx : Int) (n : Int) : lua_State :=
  let v := L.stack.getLast?.getD .nil
  let L1 := lua_pop 1 L
  match index2value L idx with
  | some (.table a) => { L1 with tables := update a (rawset ((lookup a L.tables).getD []) n v) L.tables }
  | _ => L1

/-- The loop `for (i = count - 1; i >= 0; i--)` of `lua_tablemove`, entered with
`i = n - 1`. -/
def moveDown (src dst : Int) : Nat → lua_State → lua_State
  | 0, L => L
  | n + 1, L =>
    moveDown src dst n
      (lua_rawseti (lua_rawgeti L (-1) (addInt src n)) (-2) (addInt dst n))

/-- The loop `for (i = 0; i < count; i++)` of `lua_tablemove`, entered at `i` with
`n` rounds to go. -/
def moveUp (src dst : Int) : Nat → Nat → lua_State → lua_State
  | _, 0, L => L
  | i, n + 1, L =>
    moveUp src dst (i + 1) n
      (lua_rawseti (lua_rawgeti L (-1) (addInt src i)) (-2) (addInt dst i))

/-- The statements of `lua_tablemove()` between `JNLUA_TRY` and `JNLUA_END`. -/
def tablemoveBody (index src dst count : Int) : M Unit := do
  checktype index LUA_TTABLE
  checkarg (decide (count ≥ 0)) "illegal count"
  modifyL fun L => lua_pushvalue L index
  if src < dst then
    modifyL (moveDown src dst count.toNat)
  else if src > dst then
    modifyL (moveUp src dst 0 count.toNat)
  else pure ()
  modifyL (lua_pop 1)

/-- The operation `lua_tablemove()` of the Java class. -/
def lua_1tablemove (env : Nat) (index src dst count : Int) : M (Option Unit) :=
  guarded env fun _ => tablemoveBody index src dst count

/-- A session whose stack holds the table 3 with the entries 1 ↦ a, 2 ↦ b, 3 ↦ c. -/
def demoTable : World :=
  { L := { stack := [.table 3], tables := [(3, [(1, .string "a"), (2, .string "b"), (3, .string "c")])] } }

/-- The loop of `moveDown` on the entries of the table. -/
def entriesDown (src dst : Int) : Nat → List (Int × Value) → List (Int × Value)
  | 0, T => T
  | n + 1, T => entriesDown src dst n (rawset T (addInt dst n) (rawget T (addInt src n)))

/-- The loop of `moveUp` on the entries of the table. -/
def entriesUp (src dst : Int) : Nat → Nat → List (Int × Value) → List (Int × Value)
  | _, 0, T => T
  | i, n + 1, T => entriesUp src dst (i + 1) n (rawset T (addInt dst i) (rawget T (addInt src i)))

/-! ## Streams (`lua_load`, `lua_dump`) -/

def JNI_COMMIT : Int := 1
def JNI_ABORT : Int := 2

/-- The width of `size_t` in bits (an LP64 platform). -/
def SIZE_BITS : Nat := 64

/-- The conversion of an `int` to `size_t`, as in `*size = read`. -/
def toSize (n : Int) : Nat := (n % 2 ^ SIZE_BITS).toNat

/-- JNI `GetStringUTFChars`: whether the result is non-`NULL`. -/
def GetStringUTFChars : M Bool := fun w =>
  match takeOracle w.env with
  | (ok, env) => (.ret ok, { w with env := env })

/-- JNI `NewByteArray`: whether the result is non-`NULL`; a new array holds zeros and has
no elements handed out. -/
def NewByteArray (length : Nat) : M Bool := fun w =>
  match takeOracle w.env with
  | (true, env) =>
    (.ret true, { w with env := { env with io := { env.io with array := List.replicate length 0, elems := none } } })
  | (false, env) => (.ret false, { w with env := env })

/-- JNI `GetByteArrayElements(env, stream->byteArray, &stream->isCopy)`: `none` is `NULL`,
otherwise the value stored into `isCopy`.  A successful call pins the array. -/
def GetByteArrayElements : M (Option Bool) := fun w =>
  match takeOracle w.env with
  | (true, env) =>
    (.ret (some env.io.copies), { w with env := { env with log := env.log ++ [.GetByteArrayElements], io := { env.io with elems := if env.io.copies then some env.io.array else none } } })
  | (false, env) => (.ret none, { w with env := env })

/-- JNI `ReleaseByteArrayElements(env, stream->byteArray, stream->bytes, mode)`: mode 0
copies back and frees the buffer, `JNI_COMMIT` copies back and keeps it, `JNI_ABORT`
frees it without copying back. -/
def ReleaseByteArrayElements (mode : Int) : M Unit :=
  modifyEnv fun env => { env with log := env.log ++ [.ReleaseByteArrayElements mode], io := { env.io with array := if mode = JNI_ABORT then env.io.array else env.io.elems.getD env.io.array, elems := if mode = JNI_COMMIT then env.io.elems else none } }

/-- JNI `ExceptionCheck`. -/
def ExceptionCheck : M Bool := fun w => (.ret w.env.pending.isSome, w)

/-- The memory at `stream->bytes` while the array is pinned: the copy handed out, or the
array itself. -/
def bufferOf (io : Transfer) : List Nat := io.elems.getD io.array

def getStream : M Stream := fun w => (.ret w.env.io.stream, w)

def modifyStream (f : Stream → Stream) : M Unit :=
  modifyEnv fun env => { env with io := { env.io with stream := f env.io.stream } }

/-- The call `CallIntMethod(stream->env, stream->stream, readId, stream->byteArray)`, that
is `InputStream.read(byte[])`: the next scripted outcome happens; a stream at its end
returns -1. -/
def InputStream_read : M Int := fun w =>
  match w.env.io.reads with
  | [] => (.ret (-1), { w with env := { w.env with log := w.env.log ++ [.streamRead] } })
  | r :: rest =>
    (.ret r.count, { w with env := { w.env with log := w.env.log ++ [.streamRead], pending := if r.raises.isSome then r.raises else w.env.pending, io := { w.env.io with reads := rest, array := (r.data ++ w.env.io.array.drop r.data.length).take w.env.io.array.length } } })

/-- The call `CallVoidMethod(stream->env, stream->stream, writeId, stream->byteArray, 0, size)`,
that is `OutputStream.write(byte[], int, int)`: the call is recorded with the content of
the array, and the next scripted outcome happens. -/
def OutputStream_write (off len : Int) : M Unit := fun w =>
  match w.env.io.writes with
  | [] => (.ret (), { w with env := { w.env with log := w.env.log ++ [.streamWrite off len w.env.io.array] } })
  | r :: rest =>
    (.ret (), { w with env := { w.env with log := w.env.log ++ [.streamWrite off len w.env.io.array], pending := if r.isSome then r else w.env.pending, io := { w.env.io with writes := rest } } })

/-- The C library's `memcpy(stream->bytes, data, size)`.  The buffer keeps its length; a
copy of more bytes than the buffer holds writes past its end, which is recorded. -/
def memcpy (data : List Nat) : M Unit :=
  modifyEnv fun env => { env with log := if data.length ≤ (bufferOf env.io).length then env.log else env.log ++ [.outOfBounds data.length], io := if env.io.elems.isSome then { env.io with elems := some ((data ++ (bufferOf env.io).drop data.length).take (bufferOf env.io).length) } else { env.io with array := (data ++ (bufferOf env.io).drop data.length).take (bufferOf env.io).length } }

/-- Return a new JNI byte array (whether it is non-`NULL`). -/
def newByteArray (length : Nat) : M Bool := do
  let array ← NewByteArray length
  check array .luaMemoryAllocationException "JNI error: NewByteArray() failed"
  pure array

/-- Returns the JNI UTF chars of a string; `none` is a `NULL` string. -/
def getStringUtfChars (string : Option String) : M String := do
  check string.isSome .nullPointerException "null"
  let utf ← GetStringUTFChars
  check utf .luaMemoryAllocationException "JNI error: getStringUTFChars() failed"
  pure (string.getD "")

/-- The block `if (!stream->bytes) { ... }` of both stream adapters: the buffer is pinned
unless it is already; `false` when the pin fails, an `IOException` is then raised. -/
def pinBuffer : M Bool := do
  let stream ← getStream
  if stream.bytes then pure true
  else do
    let r ← GetByteArrayElements
    match r with
    | some isCopy => do
      modifyStream fun s => { s with bytes := true, isCopy := isCopy }
      pure true
    | none => do
      ThrowNew .ioException "error accessing IO buffer"
      pure false

/-- Lua reader for Java input streams.  `none` is a `NULL` return; otherwise the value
stored into `*size` and the memory at the pointer returned. -/
def readInputStream : M (Option (Nat × List Nat)) := do
  let read ← InputStream_read
  let raised ← ExceptionCheck
  if raised then pure none
  else if read = -1 then pure none
  else do
    let stream ← getStream
    (if stream.bytes && stream.isCopy then do
      ReleaseByteArrayElements JNI_ABORT
      modifyStream fun s => { s with bytes := false }
    else pure ())
    let ok ← pinBuffer
    if !ok then pure none
    else do
      let env ← getEnv
      pure (some (toSize read, bufferOf env.io))

/-- Lua writer for Java output streams. -/
def writeOutputStream (data : List Nat) : M Int := do
  let ok ← pinBuffer
  if !ok then pure 1
  else do
    memcpy data
    let stream ← getStream
    (if stream.isCopy then ReleaseByteArrayElements JNI_COMMIT else pure ())
    OutputStream_write 0 data.length
    let raised ← ExceptionCheck
    if raised then pure 1 else pure 0

/-- The interpreter's side of `lua_load`: whether, after the bytes it has seen, it asks
the reader for another block, and what the chunk of a given name compiles to in a given
mode (`none`: a function; otherwise the error message). -/
structure Loader where
  more : List Nat → Bool
  compile : String → String → List Nat → Option String

/-- The interpreter reading a chunk through the reader: it stops asking at the first
`NULL` or empty block.  Each call of the reader consumes one outcome of the stream, and a
stream at its end makes the reader return `NULL`, so `reads.length + 1` calls suffice. -/
def fill (ld : Loader) : Nat → List Nat → M (List Nat)
  | 0, acc => pure acc
  | fuel + 1, acc =>
    if !ld.more acc then pure acc
    else do
      let r ← readInputStream
      match r with
      | none => pure acc
      | some (size, bytes) =>
        if size = 0 then pure acc else fill ld fuel (acc ++ bytes.take size)

/-- The interpreter's `lua_load(L, readInputStream, &stream, chunkname, mode)`: the chunk
is read and compiled; a function or an error message is pushed. -/
def lua_load (ld : Loader) (chunkname mode : String) : M Int := do
  let env ← getEnv
  let chunk ← fill ld (env.io.reads.length + 1) []
  match ld.compile chunkname mode chunk with
  | none => do
    modifyL fun L => push (.lclosure L.nextAddr) { L with nextAddr := L.nextAddr + 1 }
    pure LUA_OK
  | some msg => do
    modifyL (push (.string msg))
    pure LUA_ERRSYNTAX

/-- The statements of `lua_load()` between `JNLUA_TRY` and `JNLUA_END`. -/
def loadBody (ld : Loader) (chunkname mode : Option String) (addr : Nat) : M Unit := do
  let chunknameUtf ← getStringUtfChars chunkname
  let modeUtf ← getStringUtfChars mode
  let array ← newByteArray 1024
  modifyStream fun s => { s with byteArray := array }
  let status ← lua_load ld chunknameUtf modeUtf
  if status ≠ LUA_OK then JNLUA_THROW addr status else pure ()

/-- The statement `if (stream.bytes) ReleaseByteArrayElements(..., JNI_ABORT)` after
`JNLUA_END`.  (The releases of the local reference and of the UTF chars that follow it
touch nothing that is modelled.) -/
def releaseStream : M Unit := do
  let stream ← getStream
  if stream.bytes then ReleaseByteArrayElements JNI_ABORT else pure ()

/-- The operation `lua_load()` of the Java class. -/
def lua_1load (ld : Loader) (env : Nat) (chunkname mode : Option String) : M Unit := do
  modifyStream fun s => { s with byteArray := false, bytes := false }
  let _ ← guarded env (loadBody ld chunkname mode)
  releaseStream

/-- The interpreter's `lua_dump(L, writeOutputStream, &stream)`: the blocks of the dump are
handed to the writer one by one, up to the first one for which it returns nonzero. -/
def lua_dump : List (List Nat) → M Int
  | [] => pure 0
  | c :: cs => do
    let status ← writeOutputStream c
    if status ≠ 0 then pure status else lua_dump cs

/-- The statements of `lua_dump()` between `JNLUA_TRY` and `JNLUA_END`; `chunks` are the
blocks the interpreter produces for the function on top of the stack. -/
def dumpBody (chunks : List (List Nat)) : M Unit := do
  let array ← newByteArray 1024
  modifyStream fun s => { s with byteArray := array }
  checknelems 1
  let _ ← lua_dump chunks
  pure ()

/-- The operation `lua_dump()` of the Java class. -/
def lua_1dump (chunks : List (List Nat)) (env : Nat) : M Unit := do
  modifyStream fun s => { s with byteArray := false, bytes := false }
  let _ ← guarded env fun _ => dumpBody chunks
  releaseStream

/-- The effect of one event on the number of outstanding pins of the transfer buffer:
`none` when a pin is taken while one is outstanding, or a release happens while none is. -/
def pinStep (n : Nat) : Event → Option Nat
  | .GetByteArrayElements => if n = 0 then some 1 else none
  | .ReleaseByteArrayElements mode =>
    if n = 0 then none else if mode = JNI_COMMIT then some n else some (n - 1)
  | _ => some n

/-- The number of outstanding pins after the events, starting with `n`. -/
def pinTrace (n : Nat) (l : List Event) : Option Nat := l.foldlM pinStep n

/-- Pins taken minus pins given back (a release with `JNI_COMMIT` gives nothing back). -/
def outstanding : List Event → Int
  | [] => 0
  | .GetByteArrayElements :: l => outstanding l + 1
  | .ReleaseByteArrayElements mode :: l =>
    if mode = JNI_COMMIT then outstanding l else outstanding l - 1
  | _ :: l => outstanding l

/-- Whether `stream.bytes` is set, as a number of pins. -/
def pinned (w : World) : Nat := if w.env.io.stream.bytes then 1 else 0

/-- The log grew by events that take the pins from what `stream.bytes` says before to what
it says after. -/
def Tracks (w w1 : World) : Prop :=
  ∃ evs, w1.env.log = w.env.log ++ evs ∧ pinTrace (pinned w) evs = some (pinned w1)

/-- Inside the region whose buffer is at `addr`: the buffer stays installed, and a
`longjmp` goes to it. -/
def Lands {α : Type} (addr : Nat) (m : M α) : Prop :=
  ∀ w, w.L.errorJmp = some addr →
    (m w).2.L.errorJmp = some addr ∧ ∀ u, (m w).1 = .unwind u → u.target = some addr

/-- A load in progress: a 4-byte array for brevity, nothing pinned yet, and a stream whose
next read stores the bytes 5 and 6 and returns 2. -/
def demoRead : World :=
  { env := { io := { array := [0, 0, 0, 0], stream := { byteArray := true }, reads := [{ count := 2, data := [5, 6] }] } } }

/-- As `demoRead`, but the stream's next read returns -2 and stores nothing. -/
def demoReadNegative : World :=
  { env := { io := { array := [0, 0, 0, 0], stream := { byteArray := true }, reads := [{ count := -2 }] } } }

/-- As `demoRead`, but the next JNI call that can fail, fails. -/
def demoReadNoPin : World :=
  { env := { oracle := [false], io := { array := [0, 0, 0, 0], stream := { byteArray := true }, reads := [{ count := 2, data := [5, 6] }] } } }

/-- An interpreter that reads its input to the end; the empty chunk compiles, as it does
in Lua, and any other input here is a syntax error. -/
def demoLoader : Loader :=
  { more := fun _ => true, compile := fun _ _ bytes => if bytes = [] then none else some "unexpected symbol" }

/-- A session with an empty stack whose host holds an `IOException` (object 0); the input
stream raises it on its first read. -/
def demoLoadRaises : World :=
  { env := { heap := [{ cls := .ioException, message := some "disk" }], io := { reads := [{ count := 0, raises := some 0 }] } } }

/-- A session in which the metatable shared by all light userdata has been set to the
marker table (table 7), with a light userdata on the stack whose pointer, 64, designates
no userdata block; the memory at 64 holds a word that reads as the reference `.loc 5`. -/
def demoForged : World :=
  { L := { stack := [.lightuserdata 64], lightMeta := some 7, registry := [(JNLUA_MOBJECT, .table 7)], memory := [(64, .loc 5)] } }

/-- The function name of an activation record in the words of the specification: an empty
name counts as absent. -/
def specFunctionName (ar : lua_Debug) : Option String :=
  match ar.name with
  | some n => if n = "" then none else some n
  | none => none

/-- One leading `=` or `@` is stripped from a source name. -/
def stripLeadingMarker (s : String) : String :=
  match s.data with
  | '=' :: rest => String.mk rest
  | '@' :: rest => String.mk rest
  | _ => s

/-- The source name of an activation record in the words of the specification: the source
of a C function counts as absent; otherwise one leading marker is stripped. -/
def specSourceName (ar : lua_Debug) : Option String :=
  if ar.what = some "C" then none else ar.source.map stripLeadingMarker

/-- The stack trace in the words of the specification: one element, in order, for each
activation record that has a function name or a source name after normalisation, holding
these two names and the current line of the record; records with neither are omitted. -/
def specTrace (frames : List lua_Debug) : List TraceElement :=
  frames.filterMap fun ar =>
    if (specFunctionName ar).isSome || (specSourceName ar).isSome then
      some { functionName := specFunctionName ar, sourceName := specSourceName ar, line := ar.currentline }
    else none

/-! ## Properties -/

theorem returns_bind {α β : Type} {R : World → World → Prop} {m : M α} {f : α → M β}
    (htrans : ∀ a b c, R a b → R b c → R a c)
    (hm : Returns R m) (hf : ∀ a, Returns R (f a)) : Returns R (m >>= f) := by
  intro w
  obtain ⟨a, w1, h1, r1⟩ := hm w
  obtain ⟨b, w2, h2, r2⟩ := hf a w1
  refine ⟨b, w2, ?_, htrans _ _ _ r1 r2⟩
  show M.bind m f w = _
  simp [M.bind, h1, h2]

theorem returns_pure {α : Type} {R : World → World → Prop} (hrefl : ∀ a, R a a) (a : α) :
    Returns R (pure a : M α) := fun w => ⟨a, w, rfl, hrefl w⟩

theorem bind_def {α β : Type} (m : M α) (f : α → M β) (w : World) :
    (m >>= f) w = match m w with
      | (.ret a, w1) => f a w1
      | (.unwind u, w1) => (.unwind u, w1) := rfl

theorem pure_def {α : Type} (a : α) (w : World) : (pure a : M α) w = (.ret a, w) := rfl
theorem getL_def (w : World) : getL w = (.ret w.L, w) := rfl
theorem setL_def (L : lua_State) (w : World) : setL L w = (.ret (), { w with L := L }) := rfl
theorem modifyL_def (f : lua_State → lua_State) (w : World) :
    modifyL f w = (.ret (), { w with L := f w.L }) := rfl
theorem getEnv_def (w : World) : getEnv w = (.ret w.env, w) := rfl
theorem modifyEnv_def (f : JNIEnv → JNIEnv) (w : World) :
    modifyEnv f w = (.ret (), { w with env := f w.env }) := rfl

theorem lua_pop_push (L : lua_State) (v : Value) : lua_pop 1 (push v L) = L := by
  simp [lua_pop, push]

theorem lua_pop_push_push (L : lua_State) (a b : Value) : lua_pop 2 (push b (push a L)) = L := by
  cases L
  simp [lua_pop, push]


@[simp] theorem push_registry (L : lua_State) (v : Value) : (push v L).registry = L.registry := rfl

theorem index2value_top (L : lua_State) (v : Value) : index2value (push v L) (-1) = some v := by
  simp [index2value, push, lua_gettop, LUA_REGISTRYINDEX, LUAI_MAXSTACK]

theorem index2value_second (L : lua_State) (a b : Value) :
    index2value (push b (push a L)) (-2) = some a := by
  have h : ((L.stack.length : Int) + 1 + 1 + -2).toNat = L.stack.length := by omega
  simp [index2value, push, lua_gettop, LUA_REGISTRYINDEX, LUAI_MAXSTACK, h]
  rw [List.getElem_append_right (le_refl _)]
  simp

theorem getJavaObject_eq (idx : Int) (c : Option JClass) (w : World) :
    getJavaObject idx c w = (.ret (unwrap w.L w.env idx c), w) := by
  unfold getJavaObject unwrap
  simp only [bind_def, getL_def, setL_def, modifyL_def, getEnv_def, pure_def, lua_getmetatable,
    luaL_getmetatable]
  cases hud : lua_isuserdata w.L idx
  · simp [pure_def]
  · simp only [Bool.not_true, Bool.false_eq_true, if_false]
    cases hm : (index2value w.L idx).bind (metatableOf w.L) with
    | none => simp [pure_def, bind_def, setL_def]
    | some t =>
      simp only [Bool.not_true, Bool.false_eq_true, if_false, lua_pop_push_push, bind_def,
        setL_def, modifyL_def, getL_def, pure_def, lua_rawequal, index2value_top,
        index2value_second, luaL_getmetatable]
      simp only [push_registry]
      by_cases hreg : getfield JNLUA_MOBJECT w.L.registry = .table t
      · cases c with
        | none => simp [hreg, pure_def, bind_def, getL_def]
        | some c =>
          cases hi : IsInstanceOf w.env (derefObject w.L (lua_touserdata w.L idx)) c <;>
            simp [hreg, pure_def, bind_def, getL_def, getEnv_def, hi]
      · simp [hreg, pure_def]

theorem toString_eq (idx : Int) (w : World) :
    toString idx w = (.ret (tolstring ((index2value w.L idx).getD .nil)), w) := by
  simp [toString, luaL_tolstring, bind_def, modifyL_def, pure_def, lua_pop_push]

theorem throwCount_append (l1 l2 : List Event) :
    throwCount (l1 ++ l2) = throwCount l1 + throwCount l2 := by
  simp [throwCount, List.countP_append]


theorem takeOracle_log (env : JNIEnv) : (takeOracle env).2.log = env.log := by
  unfold takeOracle; split <;> rfl


theorem guardEvents_append (l1 l2 : List Event) :
    guardEvents (l1 ++ l2) = guardEvents l1 ++ guardEvents l2 := by
  simp [guardEvents]

theorem quietLog_refl (l : List Event) : QuietLog l l := ⟨rfl, rfl⟩

theorem quietLog_of_eq {l0 l1 : List Event} (h : l1 = l0) : QuietLog l0 l1 := by
  subst h; exact ⟨rfl, rfl⟩

theorem quietLog_trans {a b c : List Event} (h1 : QuietLog a b) (h2 : QuietLog b c) :
    QuietLog a c := ⟨h2.1.trans h1.1, h2.2.trans h1.2⟩

theorem quietLog_append {l0 l : List Event} (h1 : throwCount l = 0) (h2 : guardEvents l = []) :
    QuietLog l0 (l0 ++ l) := by
  constructor
  · rw [throwCount_append, h1]; rfl
  · rw [guardEvents_append, h2]; simp

theorem keeps_refl (w : World) : Keeps w w := ⟨rfl, rfl, rfl, quietLog_refl _⟩

theorem keeps_trans (a b c : World) (h1 : Keeps a b) (h2 : Keeps b c) : Keeps a c := by
  obtain ⟨h11, h12, h13, h14⟩ := h1
  obtain ⟨h21, h22, h23, h24⟩ := h2
  exact ⟨h21.trans h11, h22.trans h12, h23.trans h13, quietLog_trans h14 h24⟩

theorem keeps_bind {α β : Type} {m : M α} {f : α → M β}
    (hm : Returns Keeps m) (hf : ∀ a, Returns Keeps (f a)) : Returns Keeps (m >>= f) :=
  returns_bind keeps_trans hm hf

theorem keeps_pure {α : Type} (a : α) : Returns Keeps (pure a : M α) :=
  returns_pure keeps_refl a

theorem keeps_toString (idx : Int) : Returns Keeps (toString idx) := fun w =>
  ⟨_, _, toString_eq idx w, keeps_refl w⟩

theorem keeps_getJavaObject (idx : Int) (c : Option JClass) :
    Returns Keeps (getJavaObject idx c) := fun w =>
  ⟨_, _, getJavaObject_eq idx c w, keeps_refl w⟩

theorem keeps_modifyL (f : lua_State → lua_State)
    (hf : ∀ L, (f L).errorJmp = L.errorJmp ∧ (f L).nCcalls = L.nCcalls) :
    Returns Keeps (modifyL f) := fun w =>
  ⟨_, _, rfl, (hf w.L).1, (hf w.L).2, rfl, quietLog_refl _⟩

theorem keeps_lua_pop (n : Nat) : Returns Keeps (modifyL (lua_pop n)) :=
  keeps_modifyL _ fun _ => ⟨rfl, rfl⟩

theorem keeps_NewObject (obj : JavaObject) : Returns Keeps (NewObject obj) := by
  intro w
  unfold NewObject
  have hl := takeOracle_log w.env
  rcases h : takeOracle w.env with ⟨b, env⟩
  rw [h] at hl
  cases b
  · exact ⟨_, _, rfl, rfl, rfl, rfl, quietLog_of_eq hl⟩
  · exact ⟨_, _, rfl, rfl, rfl, rfl, quietLog_of_eq hl⟩

theorem keeps_Throw (r : jobject) : Returns Keeps (Throw r) := by
  intro w
  unfold Throw
  have hl := takeOracle_log w.env
  rcases h : takeOracle w.env with ⟨b, env⟩
  rw [h] at hl
  simp only at hl
  cases ht : r.target <;> cases b <;> refine ⟨_, _, rfl, rfl, rfl, rfl, ?_⟩
  · exact quietLog_of_eq hl
  · exact quietLog_of_eq hl
  · exact quietLog_of_eq hl
  · show QuietLog _ (env.log ++ _)
    rw [hl]
    exact quietLog_append rfl rfl

theorem keeps_modifyObject (r : jobject) (f : JavaObject → JavaObject) :
    Returns Keeps (modifyObject r f) := by
  intro w
  refine ⟨(), _, rfl, rfl, rfl, rfl, ?_⟩
  apply quietLog_of_eq
  simp only
  split
  · split <;> rfl
  · rfl

theorem keeps_throwException_body (status : Int) : Returns Keeps (do
    let throwableClass := throwableClassOf status
    let msg ← toString (-1)
    let throwable ← NewObject { cls := throwableClass, message := some msg }
    if throwable = .null then
      pure ()
    else
      let luaErrorObj ← getJavaObject (-1) (some .luaError)
      if luaErrorObj ≠ .null ∧ throwableClass = .luaRuntimeException then
        modifyObject throwable fun t => { t with luaError := luaErrorObj.target }
      let r ← Throw throwable
      if r < 0 then
        pure ()
      else
        modifyL (lua_pop 1)) := by
  refine keeps_bind (keeps_toString _) fun msg => keeps_bind (keeps_NewObject _) fun t => ?_
  split
  · exact keeps_pure _
  · refine keeps_bind (keeps_getJavaObject _ _) fun o => ?_
    split
    · refine keeps_bind (keeps_modifyObject _ _) fun _ => keeps_bind (keeps_Throw _) fun r => ?_
      split
      · exact keeps_pure _
      · exact keeps_lua_pop 1
    · refine keeps_bind (keeps_pure _) fun _ => keeps_bind (keeps_Throw _) fun r => ?_
      split
      · exact keeps_pure _
      · exact keeps_lua_pop 1

theorem throwException_spec (status : Int) (w : World) :
    ∃ w1, throwException status w = (.ret (), w1) ∧ w1.L.errorJmp = w.L.errorJmp ∧
      w1.L.nCcalls = w.L.nCcalls ∧ w1.csp = w.csp ∧
      throwCount w1.env.log = throwCount w.env.log + 1 ∧
      guardEvents w1.env.log = guardEvents w.env.log := by
  obtain ⟨a, w1, h, h1, h2, h3, h4, h5⟩ := keeps_throwException_body status
    { w with env := { w.env with log := w.env.log ++ [Event.throwException status] } }
  refine ⟨w1, ?_, h1, h2, h3, ?_, ?_⟩
  · unfold throwException
    rw [bind_def]
    simp only [logEvent, modifyEnv_def]
    exact h
  · rw [h4, throwCount_append]; rfl
  · rw [h5, guardEvents_append]; simp [guardEvents]

theorem JNLUA_END_spec (oldnCcalls addr : Nat) (lj : lua_longjmp) (w : World) :
    ∃ w1, JNLUA_END oldnCcalls addr lj w = (.ret (), w1) ∧ w1.L.errorJmp = lj.previous ∧
      w1.L.nCcalls = oldnCcalls ∧ w1.csp = w.csp ∧
      throwCount w1.env.log = throwCount w.env.log + (if lj.status ≠ LUA_OK then 1 else 0) ∧
      guardEvents w1.env.log
        = guardEvents w.env.log ++ [.closed addr w.L.errorJmp lj.previous] := by
  unfold JNLUA_END
  simp only [bind_def, getL_def, logEvent, modifyEnv_def, modifyL_def]
  by_cases hs : lj.status = LUA_OK
  · simp only [hs, ne_eq, not_true_eq_false, if_false, pure_def]
    refine ⟨_, rfl, rfl, rfl, rfl, ?_, ?_⟩
    · simp only [throwCount_append]; rfl
    · simp only [guardEvents_append]; rfl
  · simp only [ne_eq, hs, not_false_eq_true, if_true]
    obtain ⟨w1, h, h1, h2, h3, h4, h5⟩ := throwException_spec lj.status
      { L := { w.L with errorJmp := lj.previous, nCcalls := oldnCcalls },
        env := { w.env with log := w.env.log ++ [.closed addr w.L.errorJmp lj.previous] },
        csp := w.csp }
    refine ⟨w1, h, h1, h2, h3, ?_, ?_⟩
    · rw [h4]; simp only [throwCount_append]; rfl
    · rw [h5]; simp only [guardEvents_append]; rfl

/-- C1: a guard region that is left through its close (the body completed, a check failed, or
an interpreter error of any status landed in it) returns to its caller with `errorJmp` and
`nCcalls` as they were before the region was opened, and `throwException` was entered once
in the close when the recorded status is not `LUA_OK` and not at all when it is. -/
theorem guarded_close_restores {α : Type} (env : Nat) (body : Nat → M α) (w : World)
    (h : reachesClose w.csp (JNLUA_TRY env body w).1) :
    ∃ r w1, guarded env body w = (.ret r, w1) ∧
      w1.L.errorJmp = w.L.errorJmp ∧ w1.L.nCcalls = w.L.nCcalls ∧
      throwCount w1.env.log = throwCount (JNLUA_TRY env body w).2.env.log
        + (if recordedStatus (JNLUA_TRY env body w).1 ≠ LUA_OK then 1 else 0) := by
  unfold guarded
  rcases hb : JNLUA_TRY env body w with ⟨out, w2⟩
  rw [hb] at h
  cases out with
  | ret a =>
    obtain ⟨w3, h3, he, hn, _, hc, _⟩ := JNLUA_END_spec w.L.nCcalls w.csp
      { status := LUA_OK, previous := w.L.errorJmp } { w2 with csp := w.csp }
    simp only [h3]
    exact ⟨_, _, rfl, he, hn, by simpa [recordedStatus] using hc⟩
  | unwind u =>
    have ht : u.target = some w.csp := h
    obtain ⟨w3, h3, he, hn, _, hc, _⟩ := JNLUA_END_spec w.L.nCcalls w.csp
      { status := u.status.getD LUA_OK, previous := w.L.errorJmp }
      { w2 with csp := w.csp, env := { w2.env with log := w2.env.log ++ [.landed w.csp] } }
    simp only [ht, if_true, h3]
    refine ⟨_, _, rfl, he, hn, ?_⟩
    rw [hc]
    simp only [throwCount_append, recordedStatus]
    rfl

/-- Witness for C1: a failed argument check inside a region opened in the initial world. -/
theorem guarded_close_restores_witness :
    reachesClose (α := Unit) (0 : Nat)
        (JNLUA_TRY 1 (fun _ => checkarg false "illegal index") ({} : World)).1 ∧
      ∃ r w1, guarded 1 (fun _ => checkarg false "illegal index") ({} : World) = (.ret r, w1) ∧
        w1.L.errorJmp = none ∧ w1.L.nCcalls = 0 ∧
        throwCount w1.env.log
          = throwCount (JNLUA_TRY 1 (fun _ => checkarg false "illegal index") ({} : World)).2.env.log
            + (if recordedStatus (JNLUA_TRY 1 (fun _ => checkarg false "illegal index")
                ({} : World)).1 ≠ LUA_OK then 1 else 0) :=
  ⟨by decide, guarded_close_restores 1 (fun _ => checkarg false "illegal index") {} (by decide)⟩

theorem JNLUA_TRY_eq {α : Type} (env : Nat) (body : Nat → M α) (w : World)
    (hroom : lua_checkstack w.L LUA_MINSTACK = true) :
    JNLUA_TRY env body w = body w.csp (entered env w) := by
  have h : lua_checkstack { w.L with errorJmp := some w.csp } LUA_MINSTACK = true := hroom
  unfold JNLUA_TRY
  simp only [bind_def, checkstack, getL_def, h, Bool.not_true, Bool.false_eq_true, if_false,
    pure_def, setJniEnv, modifyL_def]
  rfl

theorem entered_stack (env : Nat) (w : World) : (entered env w).L.stack = w.L.stack := by
  simp [entered, setRegistryField, lua_pop, push]

theorem entered_room (env : Nat) (w : World) (hroom : lua_checkstack w.L LUA_MINSTACK = true) :
    lua_checkstack (entered env w).L LUA_MINSTACK = true := by
  have hs := entered_stack env w
  have hl : (entered env w).L.stackLimit = w.L.stackLimit := rfl
  unfold lua_checkstack lua_gettop at *
  rw [hs, hl]
  exact hroom

theorem lifoCloses_snoc (csp : Nat) (outer : Option Nat) (n : Nat) :
    lifoCloses (csp + 1) (some csp) n ++ [.closed csp (some csp) outer]
      = lifoCloses csp outer (n + 1) := by
  induction n with
  | zero => rfl
  | succ n ih =>
    have e : csp + 1 + (n + 1) = csp + (n + 1 + 1) := by omega
    have e2 : csp + 1 + n = csp + (n + 1) := by omega
    rw [lifoCloses, List.cons_append, ih, e, e2]
    rfl

/-- C2: for every nesting depth `n + 1` of guard regions, an interpreter error raised in
the innermost region lands in the buffer of that region (at `w.csp + n`) and nowhere
else, the regions then close innermost first, and each close finds its own buffer
installed and restores the target that was installed when its region opened; the outermost
close leaves `errorJmp` as it was before the first region opened. -/
theorem nested_error_lands_innermost (env : Nat) (status : Int) (n : Nat) (w : World)
    (hroom : lua_checkstack w.L LUA_MINSTACK = true) :
    ∃ r w1, nestedRegions env (fun _ => luaD_throw status) n w = (.ret r, w1) ∧
      guardEvents w1.env.log
        = guardEvents w.env.log ++ .landed (w.csp + n) :: lifoCloses w.csp w.L.errorJmp n ∧
      w1.L.errorJmp = w.L.errorJmp := by
  induction n generalizing w with
  | zero =>
    unfold nestedRegions guarded
    rw [JNLUA_TRY_eq env _ w hroom]
    have ht : (entered env w).L.errorJmp = some w.csp := rfl
    simp only [luaD_throw, ht, if_true]
    obtain ⟨w3, h3, he, _, _, _, hg⟩ := JNLUA_END_spec w.L.nCcalls w.csp
      { status := (some status).getD LUA_OK, previous := w.L.errorJmp }
      { L := (entered env w).L,
        env := { (entered env w).env with log := (entered env w).env.log ++ [.landed w.csp] },
        csp := w.csp }
    simp only [h3]
    refine ⟨_, _, rfl, ?_, he⟩
    rw [hg]
    simp only [guardEvents_append, ht]
    simp [guardEvents, entered, lifoCloses]
  | succ n ih =>
    unfold nestedRegions guarded
    rw [JNLUA_TRY_eq env _ w hroom]
    obtain ⟨r, w2, h2, hg2, he2⟩ := ih (entered env w) (entered_room env w hroom)
    simp only [bind_def, h2, pure_def]
    obtain ⟨w3, h3, he, _, _, _, hg⟩ := JNLUA_END_spec w.L.nCcalls w.csp
      { status := LUA_OK, previous := w.L.errorJmp } { w2 with csp := w.csp }
    simp only [h3]
    refine ⟨_, _, rfl, ?_, he⟩
    rw [hg]
    simp only [hg2, he2]
    have ht : (entered env w).L.errorJmp = some w.csp := rfl
    have hc : (entered env w).csp = w.csp + 1 := rfl
    have hl : (entered env w).env.log = w.env.log := rfl
    rw [ht, hc, hl, List.append_assoc, List.cons_append, lifoCloses_snoc]
    have e : w.csp + 1 + n = w.csp + (n + 1) := by omega
    rw [e]

/-- Witness for C2: three regions nested in the initial world, the innermost raising
`LUA_ERRRUN`. -/
theorem nested_error_lands_innermost_witness :
    lua_checkstack ({} : World).L LUA_MINSTACK = true ∧
      ∃ r w1, nestedRegions 1 (fun _ => luaD_throw LUA_ERRRUN) 2 ({} : World) = (.ret r, w1) ∧
        guardEvents w1.env.log
          = guardEvents ({} : World).env.log
            ++ .landed (({} : World).csp + 2)
              :: lifoCloses ({} : World).csp ({} : World).L.errorJmp 2 ∧
        w1.L.errorJmp = ({} : World).L.errorJmp :=
  ⟨by decide, nested_error_lands_innermost 1 LUA_ERRRUN 2 {} (by decide)⟩

theorem takeOracle_eq (env : JNIEnv) : ∃ b r, takeOracle env = (b, { env with oracle := r }) := by
  unfold takeOracle
  split
  · rename_i h
    exact ⟨true, [], by cases env; simp_all⟩
  · exact ⟨_, _, rfl⟩

theorem takeOracle_head (e : JNIEnv) :
    takeOracle e = (e.oracle.headD true, { e with oracle := e.oracle.tail }) := by
  rcases e with ⟨h, p, g, n, o, l, t, y, s, i⟩
  cases o <;> rfl

theorem kindOfClass_throwableClassOf (status : Int) :
    kindOfClass (throwableClassOf status) = some (specKind status) := by
  unfold throwableClassOf specKind LUA_ERRSYNTAX LUA_ERRMEM LUA_ERRERR LUA_ERRGCMM
  split_ifs <;> rfl

theorem throwableClassOf_ne_luaError (status : Int) : throwableClassOf status ≠ .luaError := by
  unfold throwableClassOf
  split_ifs <;> simp

theorem IsInstanceOf_append (env env1 : JNIEnv) (x : JavaObject)
    (r : jobject) (hx : x.cls ≠ .luaError) (hh : env1.heap = env.heap ++ [x]) :
    IsInstanceOf env1 r .luaError = IsInstanceOf env r .luaError := by
  unfold IsInstanceOf
  rw [hh]
  cases r.target with
  | none => rfl
  | some o =>
    simp only
    rcases Nat.lt_trichotomy o env.heap.length with h | h | h
    · rw [List.get?_eq_getElem?, List.get?_eq_getElem?, List.getElem?_append_left h]
    · subst h
      simp [hx]
    · have h1 : env.heap.get? o = none := List.get?_eq_none.mpr (by omega)
      have h2 : (env.heap ++ [x]).get? o = none :=
        List.get?_eq_none.mpr (by simp; omega)
      rw [h1, h2]

theorem unwrap_append (L : lua_State) (env env1 : JNIEnv) (x : JavaObject)
    (idx : Int) (hx : x.cls ≠ .luaError) (hh : env1.heap = env.heap ++ [x]) :
    unwrap L env1 idx (some .luaError) = unwrap L env idx (some .luaError) := by
  unfold unwrap
  simp only [IsInstanceOf_append env env1 x _ hx hh]

theorem takeOracle_fields {e e1 : JNIEnv} {b : Bool} (h : takeOracle e = (b, e1)) :
    e1.heap = e.heap ∧ e1.pending = e.pending ∧ e1.log = e.log ∧ e1.globals = e.globals := by
  obtain ⟨b2, r, h2⟩ := takeOracle_eq e
  rw [h2] at h
  cases h
  exact ⟨rfl, rfl, rfl, rfl⟩

theorem throw_tail (o : Nat) (W : World) :
    ∃ W1, (Throw (.loc o) >>= fun r => if r < 0 then pure () else modifyL (lua_pop 1)) W
        = (.ret (), W1) ∧ W1.env.heap = W.env.heap ∧
      ((W1.env.log = W.env.log ∧ W1.L = W.L) ∨
        (W1.env.log = W.env.log ++ [.Throw o] ∧ W1.env.pending = some o ∧
          W1.L = lua_pop 1 W.L)) := by
  obtain ⟨b, r, h⟩ := takeOracle_eq W.env
  rw [bind_def]
  simp only [Throw, jobject.target, h]
  cases b
  · exact ⟨_, rfl, rfl, Or.inl ⟨rfl, rfl⟩⟩
  · exact ⟨_, rfl, rfl, Or.inr ⟨rfl, rfl, rfl⟩⟩

theorem exists_ret_imp {m : M Unit} {W : World} {P Q : World → Prop}
    (h : ∃ W1, m W = (.ret (), W1) ∧ Q W1) (himp : ∀ W1, Q W1 → P W1) :
    ∃ w1, m W = (.ret (), w1) ∧ P w1 := by
  obtain ⟨W1, h1, h2⟩ := h
  exact ⟨W1, h1, himp W1 h2⟩

/-- Everything `throwException` does: nothing is thrown and the stack is kept when the
exception cannot be created or thrown; otherwise one exception of the class of the status is
thrown, carrying the unwrapped `LuaError` for a runtime error, and the error value is popped. -/
theorem throwException_outcome (status : Int) (w : World) :
    ∃ w1, throwException status w = (.ret (), w1) ∧
      ((w1.env.log = w.env.log ++ [.throwException status] ∧ w1.L = w.L) ∨
        ∃ o obj, w1.env.log = w.env.log ++ [.throwException status, .Throw o] ∧
          w1.env.pending = some o ∧ w1.L = lua_pop 1 w.L ∧
          w1.env.heap.get? o = some obj ∧
          kindOfClass obj.cls = some (specKind status) ∧
          obj.luaError = (if specKind status = .runtime
            then (unwrap w.L w.env (-1) (some .luaError)).target else none)) := by
  unfold throwException
  simp only [bind_def, logEvent, modifyEnv_def, toString_eq, NewObject]
  obtain ⟨b1, r1, h1⟩ := takeOracle_eq { w.env with log := w.env.log ++ [Event.throwException status] }
  rw [h1]
  cases b1 with
  | false => exact ⟨_, rfl, Or.inl ⟨rfl, rfl⟩⟩
  | true =>
    simp only [if_false, reduceCtorEq]
    rw [bind_def]
    simp only [getJavaObject_eq]
    obtain ⟨x, hx⟩ : ∃ x : JavaObject, x = { cls := throwableClassOf status, message := some (tolstring ((index2value w.L (-1)).getD Value.nil)) } := ⟨_, rfl⟩
    have hxc : x.cls = throwableClassOf status := by rw [hx]
    have hxl : x.luaError = none := by rw [hx]
    simp only [← hx]
    have hu : ∀ e : JNIEnv, e.heap = w.env.heap ++ [x] →
        unwrap w.L e (-1) (some .luaError) = unwrap w.L w.env (-1) (some .luaError) :=
      fun e he => unwrap_append w.L w.env e _ (-1)
        (by rw [hxc]; exact throwableClassOf_ne_luaError status) he
    rw [hu _ rfl]
    have hk := kindOfClass_throwableClassOf status
    have hget : (w.env.heap ++ [x]).get? w.env.heap.length = some x := by simp
    by_cases hc : unwrap w.L w.env (-1) (some .luaError) ≠ .null
        ∧ throwableClassOf status = .luaRuntimeException
    · have hr : specKind status = .runtime := by
        rw [hc.2] at hk; exact (Option.some.inj hk).symm
      simp only [hc, ne_eq, not_false_eq_true, and_self, if_true]
      rw [bind_def]
      simp only [modifyObject, modifyEnv_def, jobject.target, hget]
      refine exists_ret_imp (throw_tail _ _) ?_
      rintro W1 ⟨hh, hl⟩
      rcases hl with ⟨hl, hL⟩ | ⟨hl, hp, hL⟩
      · exact Or.inl ⟨hl, hL⟩
      · refine Or.inr ⟨w.env.heap.length,
          { x with luaError := (unwrap w.L w.env (-1) (some .luaError)).target },
          by simpa using hl, hp, hL, ?_, ?_, ?_⟩
        · rw [hh]
          simp [jobject.target]
        · simp [hxc, hk]
        · simp only [hr, if_true]
          cases unwrap w.L w.env (-1) (some JClass.luaError) <;> rfl
    · simp only [hc, if_false]
      rw [bind_def, pure_def]
      refine exists_ret_imp (throw_tail _ _) ?_
      rintro W1 ⟨hh, hl⟩
      rcases hl with ⟨hl, hL⟩ | ⟨hl, hp, hL⟩
      · exact Or.inl ⟨hl, hL⟩
      · refine Or.inr ⟨w.env.heap.length, x, by simpa using hl, hp, hL, ?_, ?_, ?_⟩
        · rw [hh]
          exact hget
        · simp [hxc, hk]
        · rw [hxl]
          split
          · rename_i hrt
            have hcl : throwableClassOf status = .luaRuntimeException := by
              have := kindOfClass_throwableClassOf status
              rw [hrt] at this
              revert this
              unfold throwableClassOf
              split_ifs <;> simp [kindOfClass]
            have hn : unwrap w.L w.env (-1) (some .luaError) = .null := by
              by_contra hne
              exact hc ⟨hne, hcl⟩
            rw [hn]
            rfl
          · rfl

/-- `throwException` when the two JNI calls that can fail, `NewObject` and `Throw`,
succeed: one exception of the class of the status is thrown, carrying the unwrapped
`LuaError` for a runtime error; the error value is popped. -/
theorem throwException_succeeds (status : Int) (w : World)
    (h1 : w.env.oracle.headD true = true) (h2 : w.env.oracle.tail.headD true = true) :
    ∃ w1 obj, throwException status w = (.ret (), w1) ∧
      w1.env.log = w.env.log ++ [.throwException status, .Throw w.env.heap.length] ∧
      w1.env.pending = some w.env.heap.length ∧ w1.L = lua_pop 1 w.L ∧
      w1.env.heap.get? w.env.heap.length = some obj ∧
      obj.cls = throwableClassOf status ∧
      obj.luaError = (if throwableClassOf status = .luaRuntimeException
        then (unwrap w.L w.env (-1) (some .luaError)).target else none) ∧
      (∀ i, i < w.env.heap.length → w1.env.heap.get? i = w.env.heap.get? i) := by
  obtain ⟨x, hx⟩ : ∃ x : JavaObject, x = { cls := throwableClassOf status, message := some (tolstring ((index2value w.L (-1)).getD Value.nil)) } := ⟨_, rfl⟩
  have hxc : x.cls = throwableClassOf status := by rw [hx]
  have hxl : x.luaError = none := by rw [hx]
  have hu : ∀ e : JNIEnv, e.heap = w.env.heap ++ [x] →
      unwrap w.L e (-1) (some .luaError) = unwrap w.L w.env (-1) (some .luaError) :=
    fun e he => unwrap_append w.L w.env e _ (-1)
      (by rw [hxc]; exact throwableClassOf_ne_luaError status) he
  have hget : (w.env.heap ++ [x]).get? w.env.heap.length = some x := by simp
  unfold throwException
  simp only [bind_def, logEvent, modifyEnv_def, toString_eq, NewObject, takeOracle_head, h1,
    reduceCtorEq, if_false, getJavaObject_eq, ← hx]
  rw [hu _ rfl]
  by_cases hc : unwrap w.L w.env (-1) (some .luaError) ≠ .null
      ∧ throwableClassOf status = .luaRuntimeException
  · simp only [hc, ne_eq, not_false_eq_true, and_self, if_true, bind_def, modifyObject,
      modifyEnv_def, jobject.target, hget, Throw, takeOracle_head, h2, Int.lt_irrefl, if_false,
      modifyL_def]
    refine ⟨_, { x with luaError := (unwrap w.L w.env (-1) (some .luaError)).target },
      rfl, by simp, rfl, rfl, by simp [jobject.target], hxc.trans hc.2, ?_, ?_⟩
    · simp only [if_true]
      cases unwrap w.L w.env (-1) (some JClass.luaError) <;> rfl
    · intro i hi
      simp only
      rw [List.get?_eq_getElem?, List.get?_eq_getElem?, List.getElem?_set_ne (by omega),
        List.getElem?_append_left hi]
  · simp only [hc, if_false, bind_def, pure_def, Throw, jobject.target, takeOracle_head, h2,
      Int.lt_irrefl, modifyL_def]
    refine ⟨_, x, rfl, by simp, rfl, rfl, hget, hxc, ?_, ?_⟩
    · rw [hxl]
      split
      · rename_i hrt
        have hn : unwrap w.L w.env (-1) (some .luaError) = .null := by
          by_contra hne
          exact hc ⟨hne, hrt⟩
        rw [hn]
      · rfl
    · intro i hi
      simp only
      rw [List.get?_eq_getElem?, List.get?_eq_getElem?, List.getElem?_append_left hi]

/-- `throwException` when `NewObject` or `Throw` fails: it returns early, nothing is thrown
and the error value stays on the stack. -/
theorem throwException_fails (status : Int) (w : World)
    (h : ¬ (w.env.oracle.headD true = true ∧ w.env.oracle.tail.headD true = true)) :
    ∃ w1, throwException status w = (.ret (), w1) ∧
      w1.env.log = w.env.log ++ [.throwException status] ∧
      w1.env.pending = w.env.pending ∧ w1.L = w.L := by
  unfold throwException
  simp only [bind_def, logEvent, modifyEnv_def, toString_eq, NewObject, takeOracle_head]
  by_cases h1 : w.env.oracle.headD true = true
  · have h2 : w.env.oracle.tail.headD true = false := by
      cases hb : w.env.oracle.tail.headD true
      · rfl
      · exact (h ⟨h1, hb⟩).elim
    simp only [h1, reduceCtorEq, if_false, bind_def, getJavaObject_eq]
    have hmod : ∀ (f : JavaObject → JavaObject) (W : World),
        (modifyObject (jobject.loc w.env.heap.length) f W).2.env.oracle = W.env.oracle ∧
        (modifyObject (jobject.loc w.env.heap.length) f W).2.env.log = W.env.log ∧
        (modifyObject (jobject.loc w.env.heap.length) f W).2.env.pending = W.env.pending ∧
        (modifyObject (jobject.loc w.env.heap.length) f W).2.L = W.L ∧
        (modifyObject (jobject.loc w.env.heap.length) f W).1 = .ret () := by
      intro f W
      unfold modifyObject
      simp only [modifyEnv_def, jobject.target]
      split <;> (refine ⟨?_, ?_, ?_, ?_, ?_⟩ <;> first | rfl | trivial)
    have hthrow : ∀ W : World, W.env.oracle = w.env.oracle.tail →
        ∃ W1, (Throw (jobject.loc w.env.heap.length) >>= fun r =>
          if r < 0 then pure () else modifyL (lua_pop 1)) W = (.ret (), W1) ∧
          W1.env.log = W.env.log ∧ W1.env.pending = W.env.pending ∧ W1.L = W.L := by
      intro W hW
      simp only [bind_def, Throw, jobject.target, takeOracle_head, hW, h2]
      exact ⟨_, rfl, rfl, rfl, rfl⟩
    split
    · rw [bind_def]
      obtain ⟨ho, hl, hp, hL, hr⟩ := hmod (fun t => { t with luaError := (unwrap w.L { w.env with heap := w.env.heap ++ [{ cls := throwableClassOf status, message := some (tolstring ((index2value w.L (-1)).getD Value.nil)) }], oracle := w.env.oracle.tail, log := w.env.log ++ [Event.throwException status] } (-1) (some JClass.luaError)).target }) { L := w.L, env := { w.env with heap := w.env.heap ++ [{ cls := throwableClassOf status, message := some (tolstring ((index2value w.L (-1)).getD Value.nil)) }], oracle := w.env.oracle.tail, log := w.env.log ++ [Event.throwException status] }, csp := w.csp }
      rcases hm : modifyObject (jobject.loc w.env.heap.length) (fun t => { t with luaError := (unwrap w.L { w.env with heap := w.env.heap ++ [{ cls := throwableClassOf status, message := some (tolstring ((index2value w.L (-1)).getD Value.nil)) }], oracle := w.env.oracle.tail, log := w.env.log ++ [Event.throwException status] } (-1) (some JClass.luaError)).target }) { L := w.L, env := { w.env with heap := w.env.heap ++ [{ cls := throwableClassOf status, message := some (tolstring ((index2value w.L (-1)).getD Value.nil)) }], oracle := w.env.oracle.tail, log := w.env.log ++ [Event.throwException status] }, csp := w.csp } with ⟨o, W⟩
      rw [hm] at ho hl hp hL hr
      simp only at hr
      subst hr
      simp only []
      obtain ⟨W1, hW1, hl1, hp1, hL1⟩ := hthrow W ho
      exact ⟨W1, hW1, by rw [hl1, hl], by rw [hp1, hp], by rw [hL1, hL]⟩
    · rw [bind_def, pure_def]
      simp only []
      exact hthrow _ (by rfl)
  · have h1f : w.env.oracle.headD true = false := by simpa using h1
    simp only [h1f, if_true, pure_def]
    exact ⟨_, rfl, rfl, rfl, rfl⟩

/-- C3: `throwException` returns for every status and world.  When the two JNI calls it
depends on succeed, it throws exactly one exception object, whose class is decided by the
status alone: `LUA_ERRSYNTAX` gives the syntax class, `LUA_ERRMEM` the memory class,
`LUA_ERRERR` the message-handler class, `LUA_ERRGCMM` the finalizer class and every other
status the runtime class, which is the kind the taxonomy gives the status; the `LuaError`
record attached to it is the one the error value on top of the stack unwraps to when the
kind is runtime, and none otherwise.  When one of the JNI calls fails, nothing is thrown
and the stack is left as it was. -/
theorem throwException_classifies (status : Int) (w : World) :
    ∃ w1, throwException status w = (.ret (), w1) ∧
      (w.env.oracle.headD true = true ∧ w.env.oracle.tail.headD true = true →
        ∃ obj, w1.env.log = w.env.log ++ [.throwException status, .Throw w.env.heap.length] ∧
          w1.env.pending = some w.env.heap.length ∧
          w1.env.heap.get? w.env.heap.length = some obj ∧
          kindOfClass obj.cls = some (specKind status) ∧
          (status = LUA_ERRSYNTAX → obj.cls = .luaSyntaxException) ∧
          (status = LUA_ERRMEM → obj.cls = .luaMemoryAllocationException) ∧
          (status = LUA_ERRERR → obj.cls = .luaMessageHandlerException) ∧
          (status = LUA_ERRGCMM → obj.cls = .luaGcMetamethodException) ∧
          (status ≠ LUA_ERRSYNTAX → status ≠ LUA_ERRMEM → status ≠ LUA_ERRERR →
            status ≠ LUA_ERRGCMM → obj.cls = .luaRuntimeException) ∧
          obj.luaError = (if specKind status = .runtime
            then (unwrap w.L w.env (-1) (some .luaError)).target else none) ∧
          (obj.luaError ≠ none →
            specKind status = .runtime ∧ unwrap w.L w.env (-1) (some .luaError) ≠ .null)) ∧
      (¬ (w.env.oracle.headD true = true ∧ w.env.oracle.tail.headD true = true) →
        w1.env.log = w.env.log ++ [.throwException status] ∧
          w1.env.pending = w.env.pending ∧ w1.L = w.L) := by
  by_cases hj : w.env.oracle.headD true = true ∧ w.env.oracle.tail.headD true = true
  · obtain ⟨w1, obj, h, hlog, hpend, -, hget, hcls, herr, -⟩ :=
      throwException_succeeds status w hj.1 hj.2
    have hk := kindOfClass_throwableClassOf status
    have hrt : (throwableClassOf status = .luaRuntimeException) ↔ specKind status = .runtime := by
      unfold throwableClassOf specKind LUA_ERRSYNTAX LUA_ERRMEM LUA_ERRERR LUA_ERRGCMM
      split_ifs <;> simp
    have herr2 : obj.luaError = (if specKind status = .runtime
        then (unwrap w.L w.env (-1) (some .luaError)).target else none) := by
      rw [herr]
      by_cases hr : specKind status = .runtime
      · rw [if_pos hr, if_pos (hrt.2 hr)]
      · rw [if_neg hr, if_neg (fun h => hr (hrt.1 h))]
    refine ⟨w1, h, fun _ => ⟨obj, hlog, hpend, hget, by rw [hcls]; exact hk, ?_, ?_, ?_, ?_, ?_,
      herr2, ?_⟩, fun hn => (hn hj).elim⟩
    · intro hs
      rw [hcls, hs]
      rfl
    · intro hs
      rw [hcls, hs]
      rfl
    · intro hs
      rw [hcls, hs]
      rfl
    · intro hs
      rw [hcls, hs]
      rfl
    · intro h1 h2 h3 h4
      rw [hcls]
      unfold throwableClassOf
      rw [if_neg h1, if_neg h2, if_neg h3, if_neg h4]
    · intro hne
      rw [herr2] at hne
      by_cases hr : specKind status = .runtime
      · rw [if_pos hr] at hne
        refine ⟨hr, fun hnull => hne ?_⟩
        rw [hnull]
        rfl
      · rw [if_neg hr] at hne
        exact (hne rfl).elim
  · obtain ⟨w1, h, hlog, hpend, hL⟩ := throwException_fails status w hj
    exact ⟨w1, h, fun hy => (hj hy).elim, fun _ => ⟨hlog, hpend, hL⟩⟩

/-- Witness for C3: a syntax status with the message on top of the stack and JNI at hand
throws one `LuaSyntaxException`, without a `LuaError` record. -/
theorem throwException_classifies_witness :
    ∃ obj, (throwException LUA_ERRSYNTAX { L := { stack := [.string "unexpected symbol"] } }).2.env.heap.get? 0
        = some obj ∧ obj.cls = .luaSyntaxException ∧ obj.luaError = none ∧
      (throwException LUA_ERRSYNTAX { L := { stack := [.string "unexpected symbol"] } }).2.env.pending
        = some 0 := by
  obtain ⟨w1, h, hy, -⟩ := throwException_classifies LUA_ERRSYNTAX
    { L := { stack := [.string "unexpected symbol"] } }
  obtain ⟨obj, -, hpend, hget, -, hcls, -, -, -, -, herr, -⟩ := hy ⟨rfl, rfl⟩
  rw [h]
  exact ⟨obj, hget, hcls rfl, herr, hpend⟩

/-- C4 (defect): with `nargs = INT_MAX` the sum `nargs + 1` wraps to `INT_MIN`, the stack
underflow check passes although the stack holds a single value, no exception is raised and
the interpreter's protected call is entered. -/
theorem lua_1pcall_underflow_check_wraps :
    (lua_1pcall runNothing 1 2147483647 0 { L := { stack := [.lclosure 1] } }).2.env.log
      = [.lua_pcall 2147483647 0, .closed 0 (some 0) none] := by
  decide

theorem wrap32_id (x : Int) (h1 : INT_MIN ≤ x) (h2 : x ≤ INT_MAX) : wrap32 x = x := by
  unfold wrap32
  unfold INT_MIN at h1
  unfold INT_MAX at h2
  omega

theorem checkarg_true (msg : String) : checkarg true msg = pure () := rfl

theorem checknelems_ok (n : Int) (w : World) (h : n ≤ lua_gettop w.L) :
    checknelems n w = (.ret (), w) := by
  have h1 : ¬ lua_gettop w.L < n := by omega
  simp [checknelems, bind_def, getL_def, checkstate, check, h1, pure_def]

theorem checkstack_ok (space : Int) (msg : Option String) (w : World)
    (h : lua_checkstack w.L space = true) : checkstack space msg w = (.ret (), w) := by
  simp [checkstack, bind_def, getL_def, h, pure_def]

theorem lua_insert_push (L : lua_State) (v : Value) (idx : Int) :
    lua_insert (push v L) idx
      = { L with stack := L.stack.take (idx - 1).toNat ++ v :: L.stack.drop (idx - 1).toNat } := by
  simp [lua_insert, push]

theorem stack_after_call (s : List Value) (n : Nat) (hn : n ≤ s.length) (h : Value)
    (res : List Value) :
    ((s.take (s.length - n) ++ h :: s.drop (s.length - n)).take
        ((s.take (s.length - n) ++ h :: s.drop (s.length - n)).length - n) ++ res).eraseIdx
          (s.length - n) = s.take (s.length - n) ++ res := by
  have hd : (s.drop (s.length - n)).length = n := by simp; omega
  have h1 : (s.take (s.length - n)).length = s.length - n := by simp
  generalize s.drop (s.length - n) = d at *
  generalize s.take (s.length - n) = t at *
  rw [← h1]
  have h2 : (t ++ h :: d).length - n = t.length + 1 := by simp; omega
  rw [h2, List.take_append, List.take_succ_cons, List.take_zero, List.append_assoc,
    List.eraseIdx_append_of_length_le (le_refl _)]
  simp

theorem entered_env (env : Nat) (w : World) : (entered env w).env = w.env := rfl
theorem entered_csp (env : Nat) (w : World) : (entered env w).csp = w.csp + 1 := rfl

/-- The body of `lua_1pcall` once its checks have passed. -/
theorem lua_1pcall_body (run : Run) (env : Nat) (a k : Int) (w : World)
    (ha : 0 ≤ a) (hk : 0 ≤ k) (hk2 : k ≤ INT_MAX)
    (htop : a + 1 ≤ lua_gettop w.L) (hmax : lua_gettop w.L ≤ LUAI_MAXSTACK)
    (hres : lua_checkstack w.L (k - (a + 1)) = true) :
    (do
      checkarg (decide (a ≥ 0)) "illegal argument count"
      checkarg (decide (k ≥ 0 ∨ k = LUA_MULTRET)) "illegal return count"
      checknelems (addInt a 1)
      if k ≠ LUA_MULTRET then
        checkstack (subInt k (addInt a 1)) (some "call results")
      let L ← getL
      let index := subInt (lua_gettop L) a
      modifyL (push (.cfunction .handleError))
      modifyL fun L => lua_insert L index
      let status ← lua_pcall run a k index
      modifyL fun L => lua_remove L index
      if status ≠ LUA_OK then
        JNLUA_THROW w.csp status
      else pure ()) (entered env w)
    = (if (run (callWorld env a k w) a).status = LUA_OK then
        (.ret (), { (run (callWorld env a k w) a).world with
          L := { (run (callWorld env a k w) a).world.L with
            stack := belowCall w.L a ++ adjustResults (run (callWorld env a k w) a).values k.toNat } })
      else
        (.unwind { target := some w.csp, status := some (run (callWorld env a k w) a).status },
          { (run (callWorld env a k w) a).world with
          L := { (run (callWorld env a k w) a).world.L with
            stack := belowCall w.L a ++ [(run (callWorld env a k w) a).values.headD .nil] } })) := by
  have ha1 : addInt a 1 = a + 1 := by
    unfold lua_gettop LUAI_MAXSTACK at *
    exact wrap32_id _ (by unfold INT_MIN; omega) (by unfold INT_MAX; omega)
  have hsub : subInt k (a + 1) = k - (a + 1) := by
    unfold lua_gettop LUAI_MAXSTACK INT_MAX at *
    exact wrap32_id _ (by unfold INT_MIN; omega) (by unfold INT_MAX; omega)
  have hidx : subInt (lua_gettop w.L) a = lua_gettop w.L - a := by
    unfold lua_gettop LUAI_MAXSTACK at *
    exact wrap32_id _ (by unfold INT_MIN; omega) (by unfold INT_MAX; omega)
  have hkne : ¬ k = LUA_MULTRET := by unfold LUA_MULTRET; omega
  have hes := entered_stack env w
  have hel : (entered env w).L.stackLimit = w.L.stackLimit := rfl
  have htopE : lua_gettop (entered env w).L = lua_gettop w.L := by
    unfold lua_gettop; rw [hes]
  have hresE : lua_checkstack (entered env w).L (k - (a + 1)) = true := by
    unfold lua_checkstack at *; rw [htopE, hel]; exact hres
  have e1 : checknelems (a + 1) (entered env w) = (.ret (), entered env w) :=
    checknelems_ok _ _ (by rw [htopE]; exact htop)
  have e2 : checkstack (k - (a + 1)) (some "call results") (entered env w)
      = (.ret (), entered env w) := checkstack_ok _ _ _ hresE
  have hn : (lua_gettop w.L - a - 1).toNat = w.L.stack.length - (a + 1).toNat := by
    unfold lua_gettop at *; omega
  simp only [ha, hk, hkne, decide_True, true_or, checkarg_true, ha1, hsub, ne_eq,
    not_false_eq_true, if_true, bind_def, pure_def, e1, e2, getL_def, modifyL_def, htopE, hidx,
    lua_insert_push, hn, hes]
  have hlen : (a + 1).toNat ≤ w.L.stack.length := by unfold lua_gettop at htop; omega
  simp only [lua_pcall, callWorld, belowCall, entered_env, entered_csp, lua_remove, hn]
  by_cases hst : (run (callWorld env a k w) a).status = LUA_OK
  · simp only [callWorld, belowCall, entered_env, entered_csp] at hst
    simp only [hst, if_true, hkne, if_false, not_true_eq_false, pure_def,
      stack_after_call _ _ hlen]
  · simp only [callWorld, belowCall, entered_env, entered_csp] at hst
    simp only [hst, if_false, not_false_eq_true, if_true, JNLUA_THROW,
      stack_after_call _ _ hlen]

/-- The world just after the bookkeeping of `JNLUA_END`, before any exception is raised. -/
theorem JNLUA_END_eq (oldnCcalls addr : Nat) (lj : lua_longjmp) (w : World) :
    JNLUA_END oldnCcalls addr lj w
      = (if lj.status ≠ LUA_OK then throwException lj.status else pure ())
          { w with L := { w.L with errorJmp := lj.previous, nCcalls := oldnCcalls },
                   env := { w.env with log := w.env.log ++ [.closed addr w.L.errorJmp lj.previous] } } := by
  unfold JNLUA_END
  simp only [bind_def, getL_def, logEvent, modifyEnv_def, modifyL_def]

theorem lookup_update {β : Type} (k : Nat) (v : β) (l : List (Nat × β)) :
    lookup k (update k v l) = some v := by
  induction l with
  | nil => simp [update, lookup]
  | cons p r ih =>
    obtain ⟨k1, v1⟩ := p
    by_cases h : k1 = k
    · simp [update, lookup, h]
    · simp [update, lookup, h, ih]

theorem update_update {β : Type} (k : Nat) (v v1 : β) (l : List (Nat × β)) :
    update k v (update k v1 l) = update k v l := by
  induction l with
  | nil => simp [update]
  | cons p r ih =>
    obtain ⟨k1, v2⟩ := p
    by_cases h : k1 = k
    · simp [update, h]
    · simp [update, h, ih]

theorem getElem_append_pair (s : List Value) (a b : Value)
    (h : s.length < (s ++ [a, b]).length) : (s ++ [a, b])[s.length] = a := by
  rw [List.getElem_append_right (le_refl _)]
  simp

theorem take_append_pair (s : List Value) (a b : Value) :
    (s ++ [a, b]).take (s.length + 1) = s ++ [a] := by
  rw [List.take_append]
  rfl

/-- The world `pushJavaObject` leaves when the global reference is acquired. -/
theorem pushJavaObject_ok (object : jobject) (o t : Nat) (w : World)
    (hv : getfield JNLUA_MOBJECT w.L.registry = .table t)
    (ho : object.target = some o) (hjni : (takeOracle w.env).1 = true) :
    pushJavaObject object w = (.ret (),
      { w with
        L := { w.L with
          stack := w.L.stack ++ [.userdata w.L.nextAddr],
          udata := update w.L.nextAddr
            { payload := .glob w.env.nextRef o, metatable := some t } w.L.udata,
          nextAddr := w.L.nextAddr + 1 },
        env := { (takeOracle w.env).2 with
          globals := w.env.nextRef :: w.env.globals,
          nextRef := w.env.nextRef + 1,
          log := w.env.log ++ [.NewGlobalRef w.env.nextRef o] } }) := by
  obtain ⟨b, r, hto⟩ := takeOracle_eq w.env
  rw [hto] at hjni
  simp only at hjni
  subst hjni
  have hne : object ≠ .null := by
    intro h; rw [h] at ho; cases ho
  unfold pushJavaObject
  simp only [bind_def, getL_def, lua_newuserdata, setL_def, modifyL_def, newGlobalRef,
    checknotnull, check, hne, ne_eq, not_false_eq_true, decide_True, Bool.not_true,
    Bool.false_eq_true, if_false, pure_def, JNLUA_HARDREF, if_true, NewGlobalRef, ho, hto,
    reduceCtorEq, luaL_getmetatable, push_registry, hv]
  have hidx : ((w.L.stack.length : Int) + 1 + 1 + -2).toNat = w.L.stack.length := by omega
  simp [storeObject, push, lookup_update, update_update, lua_setmetatable, lua_pop, index2value,
    lua_gettop, LUA_REGISTRYINDEX, LUAI_MAXSTACK, hidx, getElem_append_pair, take_append_pair]

theorem guarded_ok {α : Type} (env : Nat) (body : Nat → M α) (w w2 : World) (a : α)
    (hroom : lua_checkstack w.L LUA_MINSTACK = true)
    (hb : body w.csp (entered env w) = (.ret a, w2)) :
    guarded env body w = (.ret (some a), closedWorld w w2) := by
  unfold guarded
  rw [JNLUA_TRY_eq env body w hroom, hb]
  simp only [JNLUA_END_eq, ne_eq, not_true_eq_false, if_false, pure_def]
  rfl

theorem getfield_setfield_ne (k k1 : String) (v : Value) (l : List (String × Value))
    (h : k1 ≠ k) : getfield k (setfield k1 v l) = getfield k l := by
  induction l with
  | nil => simp [setfield, getfield, h]
  | cons p r ih =>
    obtain ⟨k2, v2⟩ := p
    by_cases h2 : k2 = k1
    · subst h2
      simp [setfield, getfield, h]
    · by_cases h3 : k2 = k
      · subst h3
        simp [setfield, getfield, h2]
      · simp [setfield, getfield, h2, h3, ih]

theorem entered_marker (env : Nat) (w : World) :
    getfield JNLUA_MOBJECT (entered env w).L.registry = getfield JNLUA_MOBJECT w.L.registry := by
  simp only [entered, setRegistryField, lua_pop, push]
  exact getfield_setfield_ne _ _ _ _ (by decide)

theorem unwrap_pushed (L : lua_State) (env : JNIEnv) (a t : Nat) (u : UData)
    (c : Option JClass) (hu : lookup a L.udata = some u)
    (hm : u.metatable = some t) (hv : getfield JNLUA_MOBJECT L.registry = .table t) :
    unwrap (push (.userdata a) L) env (-1) c
      = match c with
        | some c => if IsInstanceOf env u.payload c then u.payload else .null
        | none => u.payload := by
  have hud : (push (Value.userdata a) L).udata = L.udata := rfl
  unfold unwrap
  simp only [lua_isuserdata, index2value_top, if_true, Option.bind, metatableOf, hud, hu,
    hm, push_registry, hv, derefObject, lua_touserdata]

theorem validindex_top (L : lua_State) (h1 : 1 ≤ lua_gettop L) (h2 : lua_gettop L ≤ LUAI_MAXSTACK) :
    validindex L (-1) = true := by
  unfold lua_gettop LUAI_MAXSTACK at *
  have e1 : addInt (L.stack.length : Int) (-1) = L.stack.length - 1 :=
    wrap32_id _ (by unfold INT_MIN; omega) (by unfold INT_MAX; omega)
  have e2 : addInt ((L.stack.length : Int) - 1) 1 = L.stack.length := by
    have := wrap32_id ((L.stack.length : Int) - 1 + 1) (by unfold INT_MIN; omega)
      (by unfold INT_MAX; omega)
    unfold addInt
    rw [this]
    omega
  simp [validindex, lua_gettop, LUA_REGISTRYINDEX, LUAI_MAXSTACK, e1, e2]
  omega

theorem index2value_last (L : lua_State) (s : List Value) (v : Value) (hs : L.stack = s ++ [v]) :
    index2value L (-1) = some v := by
  have : L = push v { L with stack := s } := by
    cases L
    simp only [push] at hs ⊢
    simp [hs]
  rw [this]
  exact index2value_top _ _

theorem unwrap_top (L : lua_State) (env : JNIEnv) (s : List Value) (a t : Nat) (u : UData)
    (c : Option JClass) (hs : L.stack = s ++ [.userdata a]) (hu : lookup a L.udata = some u)
    (hm : u.metatable = some t) (hv : getfield JNLUA_MOBJECT L.registry = .table t) :
    unwrap L env (-1) c
      = match c with
        | some c => if IsInstanceOf env u.payload c then u.payload else .null
        | none => u.payload := by
  unfold unwrap
  simp only [lua_isuserdata, index2value_last L s _ hs, if_true, Option.bind, metatableOf, hu,
    hm, hv, derefObject, lua_touserdata]

/-- What `pushJavaObject` establishes when the global reference is acquired. -/
theorem pushJavaObject_props (object : jobject) (o t : Nat) (w : World)
    (hv : getfield JNLUA_MOBJECT w.L.registry = .table t)
    (ho : object.target = some o) (hjni : (takeOracle w.env).1 = true) :
    ∃ w1, pushJavaObject object w = (.ret (), w1) ∧
      w1.L.stack = w.L.stack ++ [.userdata w.L.nextAddr] ∧
      lookup w.L.nextAddr w1.L.udata
        = some { payload := .glob w.env.nextRef o, metatable := some t } ∧
      w1.L.registry = w.L.registry ∧ w1.L.closures = w.L.closures ∧
      w1.L.nextAddr = w.L.nextAddr + 1 ∧ w1.L.stackLimit = w.L.stackLimit ∧
      w1.L.errorJmp = w.L.errorJmp ∧ w1.L.nCcalls = w.L.nCcalls ∧
      w1.env.heap = w.env.heap ∧ w1.csp = w.csp ∧
      w1.env.globals = w.env.nextRef :: w.env.globals ∧
      w1.env.log = w.env.log ++ [.NewGlobalRef w.env.nextRef o] := by
  refine ⟨_, pushJavaObject_ok object o t w hv ho hjni, rfl, lookup_update _ _ _, rfl, rfl, rfl,
    rfl, rfl, rfl, ?_, rfl, rfl, rfl⟩
  obtain ⟨b, r, h⟩ := takeOracle_eq w.env
  rw [h]

theorem pushcclosure1_props (f : CFunction) (L : lua_State) (s : List Value) (v : Value)
    (hs : L.stack = s ++ [v]) :
    (lua_pushcclosure1 f L).stack = s ++ [.cclosure f L.nextAddr] ∧
      lookup L.nextAddr (lua_pushcclosure1 f L).closures = some [v] ∧
      (lua_pushcclosure1 f L).udata = L.udata ∧
      (lua_pushcclosure1 f L).registry = L.registry ∧
      (lua_pushcclosure1 f L).stackLimit = L.stackLimit := by
  unfold lua_pushcclosure1
  simp [push, lua_pop, hs, lookup_update]

/-- C8 (defect): a light userdata, once the metatable shared by all light userdata is the
marker table, passes the tests of `getJavaObject`, although no wrapper was ever built (there
is no userdata block at all): `lua_isuserdata` holds for it, its metatable is raw-equal to
the marker, and the code reads a `jobject` through the light pointer.  `getJavaObject` and
`lua_tojavaobject()` return the word found at that address as a host object instead of
`NULL`. -/
theorem getJavaObject_reads_light_userdata :
    demoForged.L.udata = [] ∧ lua_type demoForged.L 1 = LUA_TLIGHTUSERDATA ∧
      (getJavaObject 1 none demoForged).1 = .ret (.loc 5) ∧
      (lua_1tojavaobject 1 1 demoForged).1 = .ret (.loc 5) ∧
      (getJavaObject 1 none { demoForged with L := { demoForged.L with lightMeta := none } }).1
        = .ret .null := by
  decide

/-- The tests of `getJavaObject` as a whole: it returns from every world without raising and
leaves the world exactly as it was; it returns what it reads through the pointer of the
value when `lua_isuserdata` holds for the value, its metatable is the marker table and the
object read satisfies the expected class (if one is given), and `NULL` for every other
value. -/
theorem getJavaObject_characterised (index : Int) (clazz : Option JClass) (w : World) :
    ∃ r, getJavaObject index clazz w = (.ret r, w) ∧
      (IsWrapper w.L index ∧ SatisfiesClass w.env (storedObject w.L index) clazz →
        r = storedObject w.L index) ∧
      (¬ (IsWrapper w.L index ∧ SatisfiesClass w.env (storedObject w.L index) clazz) →
        r = .null) := by
  refine ⟨_, getJavaObject_eq index clazz w, ?_, ?_⟩
  · rintro ⟨⟨hud, t, hmt, hreg⟩, hcls⟩
    unfold unwrap
    simp only [hud, if_true, hmt, hreg]
    cases clazz with
    | none => rfl
    | some c =>
      have : IsInstanceOf w.env (derefObject w.L (lua_touserdata w.L index)) c = true := hcls
      simp only [this, if_true]
      rfl
  · intro hn
    unfold unwrap
    by_cases hud : lua_isuserdata w.L index = true
    · simp only [hud, if_true]
      cases hmt : (index2value w.L index).bind (metatableOf w.L) with
      | none => rfl
      | some t =>
        simp only []
        by_cases hreg : getfield JNLUA_MOBJECT w.L.registry = .table t
        · simp only [hreg, if_true]
          cases clazz with
          | none => exact (hn ⟨⟨hud, t, hmt, hreg⟩, trivial⟩).elim
          | some c =>
            by_cases hi : IsInstanceOf w.env (derefObject w.L (lua_touserdata w.L index)) c = true
            · exact (hn ⟨⟨hud, t, hmt, hreg⟩, hi⟩).elim
            · simp only [hi, if_false]
              rfl
        · simp only [hreg, if_false]
    · simp only [hud, if_false]
      rfl

theorem getfield_setfield_same (k : String) (v : Value) (l : List (String × Value)) :
    getfield k (setfield k v l) = v := by
  induction l with
  | nil => simp [setfield, getfield]
  | cons p r ih =>
    obtain ⟨k2, v2⟩ := p
    by_cases h2 : k2 = k
    · simp [setfield, getfield, h2]
    · simp [setfield, getfield, h2, ih]

theorem getJniEnv_eq (w : World) :
    getJniEnv w = (.ret (match getfield JNLUA_RENV w.L.registry with
      | .userdata a => a
      | .lightuserdata p => p
      | _ => 0), w) := by
  unfold getJniEnv
  simp only [bind_def, modifyL_def, getL_def, pure_def, luaL_getmetatable, lua_pop_push,
    lua_touserdata, index2value_top]
  cases getfield JNLUA_RENV w.L.registry <;> rfl

/-- C9: after `pushJavaObject` wrapped a host object, the finalizer run on that wrapper with
a bound execution context deletes exactly the global reference that was acquired for the
wrapper, so the outstanding references are again those before the embed; run without an
execution context it returns 0 and changes nothing. -/
theorem gcJavaObject_releases_once (object : jobject) (o : Nat) (env : Nat) (w : World)
    (hv : ValidSession w.L) (hjni : (takeOracle w.env).1 = true)
    (ho : object.target = some o) :
    ∃ w1, pushJavaObject object w = (.ret (), w1) ∧
      w1.env.globals = w.env.nextRef :: w.env.globals ∧
      w1.env.log = w.env.log ++ [.NewGlobalRef w.env.nextRef o] ∧
      (env ≠ 0 →
        ∃ w2, gcJavaObject (finalizerFrame w1 w.L.nextAddr env) = (.ret 0, w2) ∧
          w2.env.log = w1.env.log ++ [.DeleteGlobalRef (.glob w.env.nextRef o)] ∧
          w2.env.globals = w.env.globals ∧ w2.env.pending = w1.env.pending ∧
          w2.L = (finalizerFrame w1 w.L.nextAddr env).L) ∧
      gcJavaObject (finalizerFrame w1 w.L.nextAddr 0)
        = (.ret 0, finalizerFrame w1 w.L.nextAddr 0) := by
  obtain ⟨t, ht⟩ := hv
  obtain ⟨w1, hw1, hst1, hud1, hreg1, hcl1, hna1, hsl1, hej1, hnc1, hhp1, hcsp1, hgl1, hlog1⟩ :=
    pushJavaObject_props object o t w ht ho hjni
  refine ⟨w1, hw1, hgl1, hlog1, ?_, ?_⟩
  · intro henv
    have hidx : index2value (finalizerFrame w1 w.L.nextAddr env).L 1
        = some (.userdata w.L.nextAddr) := by
      simp [index2value, finalizerFrame]
    have hlk : lookup w.L.nextAddr (finalizerFrame w1 w.L.nextAddr env).L.udata
        = some { payload := .glob w.env.nextRef o, metatable := some t } := hud1
    unfold gcJavaObject
    simp only [bind_def, getJniEnv_eq, finalizerFrame, getfield_setfield_same, henv, if_false,
      getL_def, DeleteGlobalRef, modifyEnv_def, pure_def]
    simp only [finalizerFrame] at hidx hlk
    simp only [derefObject, lua_touserdata, hidx, hlk, jobject.refId, hgl1, List.erase_cons_head]
    exact ⟨_, rfl, rfl, rfl, rfl, rfl⟩
  · unfold gcJavaObject
    simp only [bind_def, getJniEnv_eq, finalizerFrame, getfield_setfield_same, if_true, pure_def]

/-- Witness for C9: the host object of the demo session, embedded and then finalized. -/
theorem gcJavaObject_releases_once_witness :
    ValidSession demoSession.L ∧ (takeOracle demoSession.env).1 = true ∧
    ∃ w1, pushJavaObject (.loc 0) demoSession = (.ret (), w1) ∧
      w1.env.globals = demoSession.env.nextRef :: demoSession.env.globals ∧
      w1.env.log = demoSession.env.log ++ [.NewGlobalRef demoSession.env.nextRef 0] ∧
      ((1 : Nat) ≠ 0 →
        ∃ w2, gcJavaObject (finalizerFrame w1 demoSession.L.nextAddr 1) = (.ret 0, w2) ∧
          w2.env.log = w1.env.log ++ [.DeleteGlobalRef (.glob demoSession.env.nextRef 0)] ∧
          w2.env.globals = demoSession.env.globals ∧ w2.env.pending = w1.env.pending ∧
          w2.L = (finalizerFrame w1 demoSession.L.nextAddr 1).L) ∧
      gcJavaObject (finalizerFrame w1 demoSession.L.nextAddr 0)
        = (.ret 0, finalizerFrame w1 demoSession.L.nextAddr 0) :=
  ⟨⟨7, rfl⟩, by decide,
    gcJavaObject_releases_once (.loc 0) 0 1 demoSession ⟨7, rfl⟩ (by decide) rfl⟩

theorem index2value_entered (env : Nat) (w : World) (idx : Int) :
    index2value (entered env w).L idx = index2value w.L idx := by
  have hs := entered_stack env w
  have hu : (entered env w).L.upvalues = w.L.upvalues := rfl
  unfold index2value lua_gettop
  rw [hs, hu]

theorem validindex_entered (env : Nat) (w : World) (idx : Int) :
    validindex (entered env w).L idx = validindex w.L idx := by
  have hs := entered_stack env w
  unfold validindex lua_gettop
  rw [hs]

theorem checktype_ok (index type : Int) (w : World) (v : Value)
    (hvi : validindex w.L index = true) (hv : index2value w.L index = some v)
    (hne : index ≠ LUA_REGISTRYINDEX) (ht : typeOf v = type) :
    checktype index type w = (.ret (), w) := by
  simp [checktype, checkindex, bind_def, getL_def, hvi, checkarg_true, pure_def, lua_type, hv,
    hne, ht]

/-- The body of `lua_1resume` when its checks pass and the thread returns or yields. -/
theorem resumeBody_ok (run : ResumeRun) (env : Nat) (index k : Int) (tid : Nat) (w : World)
    (hvi : validindex w.L index = true) (hty : index2value w.L index = some (.thread tid))
    (hne : index ≠ LUA_REGISTRYINDEX)
    (hself : tid ≠ w.L.self) (hk : 0 ≤ k) (htop : k + 1 ≤ lua_gettop w.L)
    (hmax : lua_gettop w.L ≤ LUAI_MAXSTACK)
    (hthroom : ((threadStack w.L tid).length : Int) + k ≤ w.L.stackLimit)
    (hst : (run (resumeWorld env tid k w) tid k).status = LUA_OK ∨
      (run (resumeWorld env tid k w) tid k).status = LUA_YIELD)
    (hback : (lua_gettop w.L - k) + (run (resumeWorld env tid k w) tid k).threadStack.length
      ≤ (run (resumeWorld env tid k w) tid k).world.L.stackLimit) :
    ∃ w2, resumeBody run index k w.csp (entered env w)
        = (.ret ((run (resumeWorld env tid k w) tid k).threadStack.length : Int), w2) ∧
      w2.L.stack = w.L.stack.take (w.L.stack.length - k.toNat)
        ++ (run (resumeWorld env tid k w) tid k).threadStack ∧
      threadStack w2.L tid = [] := by
  have ha1 : addInt k 1 = k + 1 := by
    unfold lua_gettop LUAI_MAXSTACK at *
    exact wrap32_id _ (by unfold INT_MIN; omega) (by unfold INT_MAX; omega)
  have hes := entered_stack env w
  have htopE : lua_gettop (entered env w).L = lua_gettop w.L := by
    unfold lua_gettop; rw [hes]
  have e0 : checktype index LUA_TTHREAD (entered env w) = (.ret (), entered env w) :=
    checktype_ok _ _ _ (.thread tid) ((validindex_entered env w index).trans hvi)
      ((index2value_entered env w index).trans hty) hne rfl
  have e1 : checknelems (k + 1) (entered env w) = (.ret (), entered env w) :=
    checknelems_ok _ _ (by rw [htopE]; exact htop)
  have htt : lua_tothread (entered env w).L index = some tid := by
    unfold lua_tothread
    rw [index2value_entered, hty]
  have hselfE : (entered env w).L.self = w.L.self := rfl
  have hts : threadStack (entered env w).L tid = threadStack w.L tid := by
    unfold threadStack
    rw [hselfE]
    simp only [hself, if_false]
    rfl
  have hsl : (entered env w).L.stackLimit = w.L.stackLimit := rfl
  unfold resumeBody
  simp only [bind_def, e0, hk, decide_True, checkarg_true, pure_def, ha1, e1, getL_def, htt,
    Option.getD_some, checkstackThread, hts, hsl, hthroom, Bool.not_true, Bool.false_eq_true,
    if_false, modifyL_def, ge_iff_le]
  have hrw : (⟨xmoveToThread tid k (entered env w).L, (entered env w).env,
      (entered env w).csp⟩ : World) = resumeWorld env tid k w := rfl
  rw [hrw]
  have hRs : (resumeWorld env tid k w).L.stack = w.L.stack.take (w.L.stack.length - k.toNat) := by
    simp only [resumeWorld, xmoveToThread, hselfE, hself, if_false, hes]
  have hRself : (resumeWorld env tid k w).L.self = w.L.self := by
    simp only [resumeWorld, xmoveToThread, hselfE, hself, if_false]
  simp only [lua_resume, hRs, hRself]
  generalize run (resumeWorld env tid k w) tid k = out at *
  have hlen : ((w.L.stack.take (w.L.stack.length - k.toNat)).length : Int) = lua_gettop w.L - k := by
    unfold lua_gettop at *
    simp
    omega
  obtain ⟨L1, hL1⟩ : ∃ L1 : lua_State, L1 = { out.world.L with stack := w.L.stack.take (w.L.stack.length - k.toNat), self := w.L.self, threads := update tid out.threadStack out.world.L.threads } := ⟨_, rfl⟩
  simp only [← hL1]
  have hL1s : L1.stack = w.L.stack.take (w.L.stack.length - k.toNat) := by rw [hL1]
  have hL1self : L1.self = w.L.self := by rw [hL1]
  have hL1t : lookup tid L1.threads = some out.threadStack := by
    rw [hL1]; exact lookup_update _ _ _
  have hL1lim : L1.stackLimit = out.world.L.stackLimit := by rw [hL1]
  have hTS : threadStack L1 tid = out.threadStack := by
    unfold threadStack
    rw [hL1self]
    simp only [hself, if_false, hL1t, Option.getD_some]
  have hcs : lua_checkstack L1 (out.threadStack.length : Int) = true := by
    unfold lua_checkstack lua_gettop
    simp only [decide_eq_true_eq]
    rw [hL1s, hlen, hL1lim]
    exact hback
  simp only [hst, if_true, bind_def, getL_def, hTS]
  rw [checkstack_ok _ _ _ hcs]
  simp only [modifyL_def, pure_def]
  refine ⟨_, rfl, ?_, ?_⟩
  · simp [xmoveFromThread, hL1self, hself, hTS, hL1s]
  · simp [xmoveFromThread, hL1self, hself, hTS, threadStack, lookup_update, hL1t]

/-- C10: a resume that passes its checks with `k` arguments hands the interpreter a thread
whose stack is its old stack followed by exactly the top `k` values of the caller, in
order; when the thread returns or yields leaving `m` values, and the caller has room for
them, resume returns `m`, the caller's stack is what remained followed by exactly those `m`
values in order, the thread's stack is empty, and the caller's height is its height
before minus `k` plus `m`. -/
theorem lua_1resume_transfers (run : ResumeRun) (env : Nat) (index k : Int) (tid : Nat)
    (w : World)
    (hvi : validindex w.L index = true) (hty : index2value w.L index = some (.thread tid))
    (hne : index ≠ LUA_REGISTRYINDEX)
    (hself : tid ≠ w.L.self) (hk : 0 ≤ k) (htop : k + 1 ≤ lua_gettop w.L)
    (hmax : lua_gettop w.L ≤ LUAI_MAXSTACK)
    (hroom : lua_checkstack w.L LUA_MINSTACK = true)
    (hthroom : ((threadStack w.L tid).length : Int) + k ≤ w.L.stackLimit)
    (hst : (run (resumeWorld env tid k w) tid k).status = LUA_OK ∨
      (run (resumeWorld env tid k w) tid k).status = LUA_YIELD)
    (hback : (lua_gettop w.L - k) + (run (resumeWorld env tid k w) tid k).threadStack.length
      ≤ (run (resumeWorld env tid k w) tid k).world.L.stackLimit) :
    threadStack (resumeWorld env tid k w).L tid
      = threadStack w.L tid ++ w.L.stack.drop (w.L.stack.length - k.toNat) ∧
    ∃ w1, lua_1resume run env index k w
        = (.ret ((run (resumeWorld env tid k w) tid k).threadStack.length : Int), w1) ∧
      w1.L.stack = w.L.stack.take (w.L.stack.length - k.toNat)
        ++ (run (resumeWorld env tid k w) tid k).threadStack ∧
      threadStack w1.L tid = [] ∧
      lua_gettop w1.L
        = lua_gettop w.L - k + (run (resumeWorld env tid k w) tid k).threadStack.length := by
  have hselfE : (entered env w).L.self = w.L.self := rfl
  have hes := entered_stack env w
  constructor
  · have hts : threadStack (entered env w).L tid = threadStack w.L tid := by
      unfold threadStack
      rw [hselfE]
      simp only [hself, if_false]
      rfl
    simp only [resumeWorld, xmoveToThread, hselfE, hself, if_false]
    unfold threadStack
    simp only [hselfE, hself, if_false, lookup_update, Option.getD_some]
    have hts2 : (lookup tid (entered env w).L.threads).getD [] = (lookup tid w.L.threads).getD [] :=
      rfl
    rw [hts2, hes]
  · obtain ⟨w2, hb, hs2, ht2⟩ := resumeBody_ok run env index k tid w hvi hty hne hself hk htop
      hmax hthroom hst hback
    have hg := guarded_ok env (resumeBody run index k) w w2 _ hroom hb
    refine ⟨closedWorld w w2, ?_, hs2, ht2, ?_⟩
    · show (guarded env (resumeBody run index k) >>= fun r => pure (r.getD 0)) w = _
      rw [bind_def, hg]
      rfl
    · show lua_gettop w2.L = _
      unfold lua_gettop at *
      rw [hs2]
      simp
      omega

/-- Witness for C10: a new thread holding its function is resumed with the two numbers on
top of the caller's stack and yields them back. -/
theorem lua_1resume_transfers_witness :
    validindex demoCaller.L 1 = true ∧
      index2value demoCaller.L 1 = some (.thread 5) ∧
      (lua_1resume runYieldsArgs 1 1 2 demoCaller).1 = .ret 2 ∧
      (lua_1resume runYieldsArgs 1 1 2 demoCaller).2.L.stack
        = [.thread 5, .number 10, .number 20] := by
  refine ⟨by decide, by decide, ?_⟩
  obtain ⟨-, w1, h, hs, -⟩ := lua_1resume_transfers runYieldsArgs 1 1 2 5 demoCaller
    (by decide) (by decide) (by decide) (by decide) (by decide) (by decide) (by decide)
    (by decide) (by decide) (by decide) (by decide)
  rw [h]
  exact ⟨rfl, hs⟩

theorem takeOracle_nil (env : JNIEnv) (h : env.oracle = []) : takeOracle env = (true, env) := by
  unfold takeOracle
  rw [h]

/-- The exception block of `callJavaFunction` when JNI does not fail. -/
theorem raiseJavaException_ok (e t : Nat) (W : World)
    (ho : W.env.oracle = []) (hm : getfield JNLUA_MOBJECT W.L.registry = .table t) :
    ∃ W2, raiseJavaException e W
        = (.unwind { target := W.L.errorJmp, status := some LUA_ERRRUN }, W2) ∧
      W2.L.stack = [.userdata W.L.nextAddr] ∧
      lookup W.L.nextAddr W2.L.udata
        = some { payload := .glob W.env.nextRef W.env.heap.length, metatable := some t } ∧
      W2.env.heap = W.env.heap
        ++ [{ cls := .luaError, message := some (luaL_where1 { W.L with stack := [] }),
              cause := some e }] ∧
      W2.env.pending = none ∧ W2.env.oracle = [] ∧
      W2.L.registry = W.L.registry ∧ W2.L.callStack = W.L.callStack ∧
      W2.L.stackLimit = W.L.stackLimit ∧ W2.csp = W.csp ∧
      (∃ l, W2.env.log = W.env.log ++ l ∧ Event.ExceptionClear ∈ l ∧ throwCount l = 0 ∧
        guardEvents l = []) := by
  obtain ⟨x, hx⟩ : ∃ x : JavaObject, x = { cls := .luaError, message := some (luaL_where1 { W.L with stack := [] }), cause := some e } := ⟨_, rfl⟩
  obtain ⟨Wn, hWn⟩ : ∃ Wn : World, Wn = { L := lua_settop0 W.L, env := { W.env with heap := W.env.heap ++ [x] }, csp := W.csp } := ⟨_, rfl⟩
  have h1 : raiseJavaException e W
      = (pushJavaObject (.loc W.env.heap.length) >>= fun _ =>
          ExceptionClear >>= fun _ => lua_error) Wn := by
    unfold raiseJavaException
    simp only [bind_def, modifyL_def, toString_eq, lua_pop_push, NewObject, takeOracle_nil _ ho,
      index2value_top, Option.getD_some, tolstring]
    rw [hWn, hx]
    rfl
  have hWo : Wn.env.oracle = [] := by rw [hWn]; exact ho
  obtain ⟨W1, hW1, hst1, hud1, hreg1, hcl1, hna1, hsl1, hej1, hnc1, hhp1, hcsp1, hgl1, hlog1⟩ :=
    pushJavaObject_props (.loc W.env.heap.length) W.env.heap.length t Wn
      (by rw [hWn]; exact hm) rfl (by rw [takeOracle_nil _ hWo])
  have hor1 : W1.env.oracle = [] := by
    have := pushJavaObject_ok (.loc W.env.heap.length) W.env.heap.length t Wn
      (by rw [hWn]; exact hm) rfl (by rw [takeOracle_nil _ hWo])
    rw [hW1] at this
    have h2 := congrArg (fun p => p.2.env.oracle) this
    simp only [takeOracle_nil _ hWo] at h2
    rw [h2]
    exact hWo
  have hpe1 : W1.env.pending = Wn.env.pending ∧ W1.L.callStack = Wn.L.callStack := by
    have := pushJavaObject_ok (.loc W.env.heap.length) W.env.heap.length t Wn
      (by rw [hWn]; exact hm) rfl (by rw [takeOracle_nil _ hWo])
    rw [hW1] at this
    have h2 := congrArg (fun p => p.2.env.pending) this
    have h3 := congrArg (fun p => p.2.L.callStack) this
    simp only [takeOracle_nil _ hWo] at h2 h3
    exact ⟨h2, h3⟩
  rw [h1, bind_def, hW1]
  simp only [bind_def, ExceptionClear, modifyEnv_def, lua_error, luaD_throw]
  have hej : W1.L.errorJmp = W.L.errorJmp := by rw [hej1, hWn]; rfl
  refine ⟨{ W1 with env := { W1.env with pending := none, log := W1.env.log ++ [.ExceptionClear] } },
    by rw [hej], ?_, ?_, ?_, rfl, hor1, ?_, ?_, ?_, ?_, ?_⟩
  · show W1.L.stack = _
    rw [hst1, hWn]; rfl
  · have : Wn.L.nextAddr = W.L.nextAddr ∧ Wn.env.nextRef = W.env.nextRef := by
      rw [hWn]; exact ⟨rfl, rfl⟩
    rw [← this.1, ← this.2]
    exact hud1
  · show W1.env.heap = _
    rw [hhp1, hWn, hx]
  · show W1.L.registry = _
    rw [hreg1, hWn]; rfl
  · show W1.L.callStack = _
    rw [hpe1.2, hWn]; rfl
  · show W1.L.stackLimit = _
    rw [hsl1, hWn]; rfl
  · show W1.csp = _
    rw [hcsp1, hWn]
  · refine ⟨[.NewGlobalRef Wn.env.nextRef W.env.heap.length, .ExceptionClear], ?_, by simp, rfl, rfl⟩
    show W1.env.log ++ [Event.ExceptionClear] = _
    rw [hlog1, hWn]
    simp

theorem getJavaState_eq (w : World) :
    getJavaState w = (.ret (match getfield JNLUA_RJAVASTATE w.L.registry with
      | .userdata a => a
      | .lightuserdata p => p
      | _ => 0), w) := by
  unfold getJavaState
  simp only [bind_def, modifyL_def, getL_def, pure_def, luaL_getmetatable, lua_pop_push,
    lua_touserdata, index2value_top]
  cases getfield JNLUA_RJAVASTATE w.L.registry <;> rfl

/-- A host callable that raises `e` makes `callJavaFunction` raise a runtime error whose
value wraps a new `LuaError` with cause `e`; the pending exception is cleared first. -/
theorem callJavaFunction_raises (invoke : HostCall) (F : World) (p u t f e : Nat) (ud : UData)
    (hjs : getfield JNLUA_RJAVASTATE F.L.registry = .lightuserdata p) (hp : p ≠ 0)
    (hup : index2value F.L (lua_upvalueindex 1) = some (.userdata u))
    (hud : lookup u F.L.udata = some ud) (hmt : ud.metatable = some t)
    (hm : getfield JNLUA_MOBJECT F.L.registry = .table t)
    (hinst : IsInstanceOf F.env ud.payload .javaFunction = true)
    (hf : ud.payload.target = some f)
    (ho : F.env.oracle = [])
    (hhost : ∀ W, (invoke W f).2.env.pending = some e ∧ (invoke W f).2.env.oracle = W.env.oracle ∧
      getfield JNLUA_MOBJECT (invoke W f).2.L.registry = getfield JNLUA_MOBJECT W.L.registry ∧
      (invoke W f).2.L.callStack = W.L.callStack) :
    ∃ tgt W2 a n le msg, msg = luaL_where1 F.L ∧ callJavaFunction invoke F
        = (.unwind { target := tgt, status := some LUA_ERRRUN }, W2) ∧
      W2.L.stack = [.userdata a] ∧
      lookup a W2.L.udata = some { payload := .glob n le, metatable := some t } ∧
      W2.env.heap.get? le = some { cls := .luaError, message := some msg, cause := some e } ∧
      W2.env.pending = none ∧ W2.env.oracle = [] ∧
      getfield JNLUA_MOBJECT W2.L.registry = .table t ∧
      Event.ExceptionClear ∈ W2.env.log := by
  have hnn : ud.payload ≠ .null := by
    intro h; rw [h] at hf; cases hf
  have hrest : ∀ W1 : World, W1.env.pending = some e → W1.env.oracle = [] →
      getfield JNLUA_MOBJECT W1.L.registry = .table t → W1.L.callStack = F.L.callStack →
      ∃ tgt W2 a n le msg, msg = luaL_where1 F.L ∧ raiseJavaException e W1
        = (.unwind { target := tgt, status := some LUA_ERRRUN }, W2) ∧
      W2.L.stack = [.userdata a] ∧
      lookup a W2.L.udata = some { payload := .glob n le, metatable := some t } ∧
      W2.env.heap.get? le = some { cls := .luaError, message := some msg, cause := some e } ∧
      W2.env.pending = none ∧ W2.env.oracle = [] ∧
      getfield JNLUA_MOBJECT W2.L.registry = .table t ∧
      Event.ExceptionClear ∈ W2.env.log := by
    intro W1 _ ho1 hm1 hcs1
    obtain ⟨W2, h, hs, hu, hh, hpn, hor, hreg, -, -, -, l, hl, hcl, -, -⟩ :=
      raiseJavaException_ok e t W1 ho1 hm1
    have hmsg : luaL_where1 { W1.L with stack := [] } = luaL_where1 F.L := by
      unfold luaL_where1
      simp only [hcs1]
    refine ⟨_, W2, _, _, W1.env.heap.length, luaL_where1 F.L,
      rfl, h, hs, hu, ?_, hpn, hor, ?_, ?_⟩
    · rw [hh, hmsg]; simp
    · rw [hreg]; exact hm1
    · rw [hl]; exact List.mem_append_right _ hcl
  unfold callJavaFunction
  simp only [bind_def, getJniEnv_eq, getJavaState_eq, hjs, hp, if_false, modifyL_def, hup,
    Option.getD_some, getJavaObject_eq, unwrap_pushed F.L F.env u t ud _ hud hmt hm, hinst, if_true,
    lua_pop_push, hnn, setYield, modifyEnv_def, getLuaThread, getL_def]
  split
  · simp only [bind_def, CallIntMethod, hf, Option.getD_some, ExceptionOccurred]
    obtain ⟨h1, h2, h3, h4⟩ := hhost { L := F.L, env := { F.env with javaYield := false }, csp := F.csp }
    simp only [h1]
    exact hrest _ h1 (h2.trans ho) (h3.trans hm) h4
  · simp only [bind_def, CallIntMethod, hf, Option.getD_some, ExceptionOccurred, setLuaThread,
      modifyEnv_def, pure_def]
    obtain ⟨h1, h2, h3, h4⟩ := hhost { L := F.L, env := { F.env with javaYield := false, javaLuaThread := F.L.self }, csp := F.csp }
    simp only [h1]
    exact hrest _ rfl (h2.trans ho) (h3.trans hm) h4

theorem fillTrace_ok (frames : List lua_Debug) (count : Nat) (array : List (Option TraceElement))
    (W : World) (ho : W.env.oracle = []) (hp : W.env.pending = none) :
    ∃ array1, fillTrace frames count array W = (.ret (some array1), W) := by
  induction frames generalizing count array with
  | nil => exact ⟨array, rfl⟩
  | cons ar rest ih =>
    unfold fillTrace
    split
    · simp only [bind_def, NewTraceElement, takeOracle_nil _ ho, getEnv_def, hp,
        Option.isSome_none, Bool.false_eq_true, if_false]
      exact ih _ _
    · exact ih _ _

/-- The world `pushJavaObject` leaves when the oracle is used up. -/
theorem pushJavaObject_ok_nil (object : jobject) (o t : Nat) (w : World)
    (hv : getfield JNLUA_MOBJECT w.L.registry = .table t)
    (ho : object.target = some o) (hor : w.env.oracle = []) :
    pushJavaObject object w = (.ret (),
      { L := { w.L with stack := w.L.stack ++ [.userdata w.L.nextAddr], udata := update w.L.nextAddr { payload := .glob w.env.nextRef o, metatable := some t } w.L.udata, nextAddr := w.L.nextAddr + 1 },
        env := { w.env with globals := w.env.nextRef :: w.env.globals, nextRef := w.env.nextRef + 1, log := w.env.log ++ [.NewGlobalRef w.env.nextRef o] },
        csp := w.csp }) := by
  rw [pushJavaObject_ok object o t w hv ho (by rw [takeOracle_nil _ hor])]
  simp only [takeOracle_nil _ hor]

/-- The message handler on an error value that already wraps a `LuaError`, when JNI does
not fail: the same record gets the stack trace and is wrapped again; no record is created. -/
theorem handleError_keeps_record (H : World) (a n le t : Nat) (record : JavaObject)
    (hs : H.L.stack = [.userdata a])
    (hud : lookup a H.L.udata = some { payload := .glob n le, metatable := some t })
    (hrec : H.env.heap.get? le = some record) (hcls : record.cls = .luaError)
    (ho : H.env.oracle = []) (hp : H.env.pending = none)
    (hm : getfield JNLUA_MOBJECT H.L.registry = .table t) :
    ∃ H2 trace, handleError H = (.ret 1, H2) ∧
      H2.L.stack = [.userdata a, .userdata H.L.nextAddr] ∧
      lookup H.L.nextAddr H2.L.udata
        = some { payload := .glob H.env.nextRef le, metatable := some t } ∧
      H2.env.heap = H.env.heap.set le { record with luaStackTrace := some trace } ∧
      H2.env.oracle = [] ∧ H2.env.pending = none ∧
      getfield JNLUA_MOBJECT H2.L.registry = .table t ∧
      H2.env.log = H.env.log ++ [.NewGlobalRef H.env.nextRef le] := by
  have hinst : IsInstanceOf H.env (.glob n le) .luaError = true := by
    unfold IsInstanceOf
    simp only [jobject.target, hrec, hcls, decide_True]
  have hun : unwrap H.L H.env (-1) (some .luaError) = .glob n le := by
    rw [unwrap_top H.L H.env [] a t _ (some .luaError) hs hud rfl hm]
    simp only [hinst, if_true]
  obtain ⟨array, harr⟩ := fillTrace_ok (H.L.callStack.drop 1) 0
    (List.replicate ((H.L.callStack.drop 1).filter fun ar => (processActivationRecord ar).1).length none)
    H ho hp
  unfold handleError
  simp only [bind_def, getJniEnv_eq, getL_def, NewObjectArray, takeOracle_nil _ ho, harr,
    getJavaObject_eq, hun, reduceCtorEq, if_false, pure_def, modifyObject, modifyEnv_def,
    jobject.target, hrec]
  have hpush := pushJavaObject_ok_nil (.glob n le) le t
    { L := H.L, env := { H.env with heap := H.env.heap.set le { record with luaStackTrace := some array } }, csp := H.csp }
    hm rfl ho
  rw [hpush]
  refine ⟨_, array, rfl, ?_, lookup_update _ _ _, rfl, ho, hp, hm, rfl⟩
  simp only [hs]
  rfl


/-- The interpreter's protected call of a bridge closure whose host callable raises `e`: the
call fails with `LUA_ERRRUN`, and the error value wraps the `LuaError` made by the
closure, with cause `e`, the where-string as message and a stack trace. -/
theorem runCallable_raises (invoke : HostCall) (Wc : World) (below args : List Value)
    (h0 : Value) (c p u t f e : Nat) (ud : UData) (a : Int)
    (hstack : Wc.L.stack = below ++ h0 :: .cclosure .callJavaFunction c :: args)
    (ha : a = args.length)
    (hc : lookup c Wc.L.closures = some [.userdata u])
    (hjs : getfield JNLUA_RJAVASTATE Wc.L.registry = .lightuserdata p) (hp : p ≠ 0)
    (hud : lookup u Wc.L.udata = some ud) (hmt : ud.metatable = some t)
    (hm : getfield JNLUA_MOBJECT Wc.L.registry = .table t)
    (hinst : IsInstanceOf Wc.env ud.payload .javaFunction = true)
    (hf : ud.payload.target = some f)
    (ho : Wc.env.oracle = [])
    (hhost : ∀ W, (invoke W f).2.env.pending = some e ∧ (invoke W f).2.env.oracle = W.env.oracle ∧
      getfield JNLUA_MOBJECT (invoke W f).2.L.registry = getfield JNLUA_MOBJECT W.L.registry ∧
      (invoke W f).2.L.callStack = W.L.callStack) :
    ∃ a2 n2 le record,
      (runCallable invoke Wc a).status = LUA_ERRRUN ∧
      (runCallable invoke Wc a).values = [.userdata a2] ∧
      lookup a2 (runCallable invoke Wc a).world.L.udata
        = some { payload := .glob n2 le, metatable := some t } ∧
      (runCallable invoke Wc a).world.env.heap.get? le = some record ∧
      record.cls = .luaError ∧ record.cause = some e ∧
      record.message = some (luaL_where1 Wc.L) ∧ record.luaStackTrace.isSome = true ∧
      (runCallable invoke Wc a).world.env.oracle = [] ∧
      (runCallable invoke Wc a).world.env.pending = none ∧
      getfield JNLUA_MOBJECT (runCallable invoke Wc a).world.L.registry = .table t ∧
      Event.ExceptionClear ∈ (runCallable invoke Wc a).world.env.log := by
  have hst2 : Wc.L.stack = (below ++ [h0]) ++ (.cclosure .callJavaFunction c :: args) := by
    rw [hstack]; simp
  have hl2 : (below ++ [h0]).length = below.length + 1 := by simp
  have hn : Wc.L.stack.length - a.toNat = below.length + 2 := by
    rw [hstack, ha]; simp; omega
  have hget : Wc.L.stack.get? (below.length + 2 - 1) = some (.cclosure .callJavaFunction c) := by
    rw [hst2, List.get?_eq_getElem?, List.getElem?_append_right (by rw [hl2]; omega), hl2]
    simp
  have hdrop : Wc.L.stack.drop (below.length + 2) = args := by
    rw [hst2, List.drop_append_eq_append_drop, hl2]
    simp
  obtain ⟨F, hF⟩ : ∃ F : World, F = { Wc with L := { Wc.L with stack := args, upvalues := [.userdata u] } } := ⟨_, rfl⟩
  have hup : index2value F.L (lua_upvalueindex 1) = some (.userdata u) := by
    rw [hF]
    simp [index2value, lua_upvalueindex, LUA_REGISTRYINDEX, LUAI_MAXSTACK]
  obtain ⟨tgt, W2, a1, n1, le, msg, hmsg, hcall, hs2, hu2, hh2, hp2, ho2, hm2, hcl2⟩ :=
    callJavaFunction_raises invoke F p u t f e ud (by rw [hF]; exact hjs) hp hup
      (by rw [hF]; exact hud) hmt (by rw [hF]; exact hm) (by rw [hF]; exact hinst) hf
      (by rw [hF]; exact ho) hhost
  rw [hF] at hcall
  obtain ⟨H2, trace, hH, hHs, hHu, hHh, hHo, hHp, hHm, hHl⟩ :=
    handleError_keeps_record { W2 with L := { W2.L with stack := [.userdata a1], upvalues := [] } }
      a1 n1 le t _ rfl hu2 hh2 rfl ho2 hp2 hm2
  have hval : ∀ (x : Option Value), x = some (.userdata a1) → x.getD .nil = .userdata a1 := by
    intro x hx; rw [hx]; rfl
  have hstatus : runCallable invoke Wc a = { status := LUA_ERRRUN, values := [H2.L.stack.getLast?.getD .nil], world := { H2 with L := { H2.L with upvalues := Wc.L.upvalues } } } := by
    unfold runCallable
    simp only [hn, hget, hdrop, hc, Option.getD_some, hcall, hs2, List.getLast?_singleton, hH]
  rw [hstatus]
  refine ⟨W2.L.nextAddr, W2.env.nextRef, le,
    { cls := .luaError, message := some msg, cause := some e, luaStackTrace := some trace },
    rfl, ?_, hHu, ?_, rfl, rfl, ?_, rfl, hHo, hHp, hHm, ?_⟩
  · simp [hHs]
  · show H2.env.heap.get? le = _
    rw [hHh]
    have hlt : le < W2.env.heap.length := by
      by_contra hge
      have := List.get?_eq_none.mpr (not_lt.mp hge)
      rw [this] at hh2
      cases hh2
    simp [List.getElem?_set_eq, hlt]
  · show some msg = _
    rw [hmsg, hF]
    rfl
  · show Event.ExceptionClear ∈ H2.env.log
    rw [hHl]
    exact List.mem_append_left _ hcl2

/-- With the oracle used up `throwException` throws: one exception of the class of the
status, carrying the unwrapped `LuaError` for a runtime error; the error value is popped. -/
theorem throwException_thrown (status : Int) (w : World) (ho : w.env.oracle = []) :
    ∃ w1 obj, throwException status w = (.ret (), w1) ∧
      w1.env.log = w.env.log ++ [.throwException status, .Throw w.env.heap.length] ∧
      w1.env.pending = some w.env.heap.length ∧ w1.L = lua_pop 1 w.L ∧
      w1.env.heap.get? w.env.heap.length = some obj ∧
      obj.cls = throwableClassOf status ∧
      obj.luaError = (if throwableClassOf status = .luaRuntimeException
        then (unwrap w.L w.env (-1) (some .luaError)).target else none) ∧
      (∀ i, i < w.env.heap.length → w1.env.heap.get? i = w.env.heap.get? i) := by
  obtain ⟨x, hx⟩ : ∃ x : JavaObject, x = { cls := throwableClassOf status, message := some (tolstring ((index2value w.L (-1)).getD Value.nil)) } := ⟨_, rfl⟩
  have hxc : x.cls = throwableClassOf status := by rw [hx]
  have hxl : x.luaError = none := by rw [hx]
  have hu : ∀ e : JNIEnv, e.heap = w.env.heap ++ [x] →
      unwrap w.L e (-1) (some .luaError) = unwrap w.L w.env (-1) (some .luaError) :=
    fun e he => unwrap_append w.L w.env e _ (-1)
      (by rw [hxc]; exact throwableClassOf_ne_luaError status) he
  have hget : (w.env.heap ++ [x]).get? w.env.heap.length = some x := by simp
  unfold throwException
  simp only [bind_def, logEvent, modifyEnv_def, toString_eq, NewObject, takeOracle, ho,
    reduceCtorEq, if_false, getJavaObject_eq, ← hx]
  rw [hu _ rfl]
  by_cases hc : unwrap w.L w.env (-1) (some .luaError) ≠ .null
      ∧ throwableClassOf status = .luaRuntimeException
  · simp only [hc, ne_eq, not_false_eq_true, and_self, if_true, bind_def, modifyObject,
      modifyEnv_def, jobject.target, hget, Throw, takeOracle, ho, Int.lt_irrefl, if_false,
      modifyL_def]
    refine ⟨_, { x with luaError := (unwrap w.L w.env (-1) (some .luaError)).target },
      rfl, by simp, rfl, rfl, by simp [jobject.target], hxc.trans hc.2, ?_, ?_⟩
    · simp only [if_true]
      cases unwrap w.L w.env (-1) (some JClass.luaError) <;> rfl
    · intro i hi
      simp only
      rw [List.get?_eq_getElem?, List.get?_eq_getElem?, List.getElem?_set_ne (by omega),
        List.getElem?_append_left hi]
  · simp only [hc, if_false, bind_def, pure_def, Throw, jobject.target, takeOracle, ho,
      Int.lt_irrefl, modifyL_def]
    refine ⟨_, x, rfl, by simp, rfl, rfl, hget, hxc, ?_, ?_⟩
    · rw [hxl]
      split
      · rename_i hrt
        have hn : unwrap w.L w.env (-1) (some .luaError) = .null := by
          by_contra hne
          exact hc ⟨hne, hrt⟩
        rw [hn]
      · rfl
    · intro i hi
      simp only
      rw [List.get?_eq_getElem?, List.get?_eq_getElem?, List.getElem?_append_left hi]

/-- A failed `lua_1pcall`: the region lands, closes and translates the error. -/
theorem lua_1pcall_error_eq (run : Run) (env : Nat) (a k : Int) (w : World)
    (ha : 0 ≤ a) (hk : 0 ≤ k) (hk2 : k ≤ INT_MAX)
    (htop : a + 1 ≤ lua_gettop w.L) (hmax : lua_gettop w.L ≤ LUAI_MAXSTACK)
    (hroom : lua_checkstack w.L LUA_MINSTACK = true)
    (hres : lua_checkstack w.L (k - (a + 1)) = true)
    (hst : (run (callWorld env a k w) a).status ≠ LUA_OK) :
    lua_1pcall run env a k w
      = (match throwException (run (callWorld env a k w) a).status (failedCallWorld run env a k w) with
        | (.ret _, w3) => (.ret none, w3)
        | (.unwind u1, w3) => (.unwind u1, w3)) := by
  unfold lua_1pcall guarded
  rw [JNLUA_TRY_eq env _ w hroom]
  simp only []
  rw [lua_1pcall_body run env a k w ha hk hk2 htop hmax hres]
  simp only [hst, if_false, if_true, JNLUA_END_eq, ne_eq, not_false_eq_true, Option.getD_some]
  unfold failedCallWorld
  simp

theorem entered_javaState (env : Nat) (w : World) :
    getfield JNLUA_RJAVASTATE (entered env w).L.registry
      = getfield JNLUA_RJAVASTATE w.L.registry := by
  simp only [entered, setRegistryField, lua_pop, push]
  exact getfield_setfield_ne _ _ _ _ (by decide)

/-- C6 (as amended): when a host callable that raises the host exception `e` is called
from guest code under `lua_1pcall`, and the JNI calls that build the error succeed, the
call fails with exactly one thrown exception, of the runtime class, whose error record has
`e` as its cause, the where-prefix of the calling frame as its message and the stack
trace added by the message handler; the pending exception `e` was cleared during the call. -/
theorem host_exception_becomes_runtime_error (invoke : HostCall) (env : Nat) (a k : Int)
    (w : World) (below args : List Value) (c p u t f e : Nat) (ud : UData)
    (hstack : w.L.stack = below ++ .cclosure .callJavaFunction c :: args)
    (ha : a = args.length) (hk : 0 ≤ k) (hk2 : k ≤ INT_MAX)
    (hmax : lua_gettop w.L ≤ LUAI_MAXSTACK)
    (hroom : lua_checkstack w.L LUA_MINSTACK = true)
    (hres : lua_checkstack w.L (k - (a + 1)) = true)
    (hc : lookup c w.L.closures = some [.userdata u])
    (hjs : getfield JNLUA_RJAVASTATE w.L.registry = .lightuserdata p) (hp : p ≠ 0)
    (hud : lookup u w.L.udata = some ud) (hmt : ud.metatable = some t)
    (hm : getfield JNLUA_MOBJECT w.L.registry = .table t)
    (hinst : IsInstanceOf w.env ud.payload .javaFunction = true)
    (hf : ud.payload.target = some f)
    (ho : w.env.oracle = [])
    (hhost : ∀ W, (invoke W f).2.env.pending = some e ∧ (invoke W f).2.env.oracle = W.env.oracle ∧
      getfield JNLUA_MOBJECT (invoke W f).2.L.registry = getfield JNLUA_MOBJECT W.L.registry ∧
      (invoke W f).2.L.callStack = W.L.callStack) :
    ∃ w1 o exc le record,
      lua_1pcall (runCallable invoke) env a k w = (.ret none, w1) ∧
      w1.env.pending = some o ∧
      w1.env.log = (runCallable invoke (callWorld env a k w) a).world.env.log
        ++ [.landed w.csp, .closed w.csp (runCallable invoke (callWorld env a k w) a).world.L.errorJmp w.L.errorJmp, .throwException LUA_ERRRUN, .Throw o] ∧
      Event.ExceptionClear ∈ (runCallable invoke (callWorld env a k w) a).world.env.log ∧
      w1.env.heap.get? o = some exc ∧
      kindOfClass exc.cls = some .runtime ∧ exc.luaError = some le ∧
      w1.env.heap.get? le = some record ∧
      record.cls = .luaError ∧ record.cause = some e ∧
      record.message = some (luaL_where1 w.L) ∧ record.luaStackTrace.isSome = true ∧
      w1.L.stack = below := by
  have hlen : w.L.stack.length - (a + 1).toNat = below.length := by
    rw [hstack, ha]; simp
  have hbelow : belowCall w.L a = below := by
    unfold belowCall
    rw [hlen, hstack]; simp
  have hdrop : w.L.stack.drop (w.L.stack.length - (a + 1).toNat) = .cclosure .callJavaFunction c :: args := by
    rw [hlen, hstack]; simp
  have hcs : (callWorld env a k w).L.stack = below ++ .cfunction .handleError :: .cclosure .callJavaFunction c :: args := by
    unfold callWorld
    simp only [hbelow, hdrop]
  have htop : a + 1 ≤ lua_gettop w.L := by
    unfold lua_gettop
    rw [hstack, ha]; simp
  obtain ⟨a2, n2, le, record, hst, hvals, hu2, hh2, hcls, hcause, hmsg, htr, ho2, hp2, hm2, hcl⟩ :=
    runCallable_raises invoke (callWorld env a k w) below args (.cfunction .handleError) c p u t f e ud a
      hcs ha hc ((entered_javaState env w).trans hjs) hp hud hmt ((entered_marker env w).trans hm)
      hinst hf ho hhost
  have hne : (runCallable invoke (callWorld env a k w) a).status ≠ LUA_OK := by
    rw [hst]; decide
  rw [lua_1pcall_error_eq (runCallable invoke) env a k w (by rw [ha]; omega) hk hk2 htop hmax hroom hres hne]
  obtain ⟨X, hX⟩ : ∃ X, X = failedCallWorld (runCallable invoke) env a k w := ⟨_, rfl⟩
  have hXs : X.L.stack = below ++ [.userdata a2] := by
    rw [hX]; unfold failedCallWorld
    simp only [hbelow, hvals, List.headD_cons]
  have hXu : lookup a2 X.L.udata = some { payload := .glob n2 le, metatable := some t } := by
    rw [hX]; exact hu2
  have hXm : getfield JNLUA_MOBJECT X.L.registry = .table t := by
    rw [hX]; exact hm2
  have hXh : X.env.heap = (runCallable invoke (callWorld env a k w) a).world.env.heap := by
    rw [hX]; rfl
  have hXo : X.env.oracle = [] := by
    rw [hX]; exact ho2
  have hXl : X.env.log = (runCallable invoke (callWorld env a k w) a).world.env.log
      ++ [.landed w.csp, .closed w.csp (runCallable invoke (callWorld env a k w) a).world.L.errorJmp w.L.errorJmp] := by
    rw [hX]; rfl
  have hlt : le < X.env.heap.length := by
    by_contra hge
    have := List.get?_eq_none.mpr (not_lt.mp hge)
    rw [hXh] at this
    rw [this] at hh2
    cases hh2
  have hunw : unwrap X.L X.env (-1) (some .luaError) = .glob n2 le := by
    rw [unwrap_top X.L X.env below a2 t _ _ hXs hXu rfl hXm]
    have : IsInstanceOf X.env (.glob n2 le) .luaError = true := by
      unfold IsInstanceOf
      simp only [jobject.target, hXh, hh2, hcls, decide_True]
    simp only [this, if_true]
  obtain ⟨w1, obj, hthrow, hlog, hpend, hL, hobj, hocls, holua, hkeep⟩ :=
    throwException_thrown (runCallable invoke (callWorld env a k w) a).status X hXo
  rw [← hX, hthrow]
  refine ⟨w1, X.env.heap.length, obj, le, record, rfl, hpend, ?_, hcl, hobj, ?_, ?_, ?_,
    hcls, hcause, hmsg, htr, ?_⟩
  · rw [hlog, hXl, hst]; simp
  · rw [hocls, hst]; rfl
  · rw [holua, hst, hunw]; rfl
  · rw [hkeep le hlt, hXh]; exact hh2
  · rw [hL, lua_pop, hXs]; simp

/-- Witness for C6: in `demoCall` the callable raises the host exception 1; the call under
`lua_1pcall` fails with one runtime exception whose record has cause 1 and the message
`chunk:3: `. -/
theorem host_exception_becomes_runtime_error_witness :
    demoCall.env.oracle = [] ∧
      ∃ w1 o exc le record,
        lua_1pcall (runCallable (hostRaises 1)) 4 0 0 demoCall = (.ret none, w1) ∧
        w1.env.pending = some o ∧ w1.env.heap.get? o = some exc ∧
        kindOfClass exc.cls = some .runtime ∧ exc.luaError = some le ∧
        w1.env.heap.get? le = some record ∧ record.cause = some 1 ∧
        record.message = some "chunk:3: " := by
  refine ⟨rfl, ?_⟩
  obtain ⟨w1, o, exc, le, record, h, hp, -, -, ho, hk, hl, hr, -, hc, hm, -, -⟩ :=
    host_exception_becomes_runtime_error (hostRaises 1) 4 0 0 demoCall [] [] 2 9 1 7 0 1
      { payload := .glob 0 0, metatable := some 7 } rfl rfl (by decide) (by decide) (by decide)
      (by decide) (by decide) (by decide) (by decide) (by decide) (by decide) rfl (by decide)
      (by decide) rfl rfl (fun _ => ⟨rfl, rfl, rfl, rfl⟩)
  exact ⟨w1, o, exc, le, record, h, hp, ho, hk, hl, hr, hc, hm.trans (by decide)⟩

/-- Counterexample to C6 as stated: when the JNI cannot create the error record, the call
of the raising callable ends with a pending `NullPointerException`; no failure of the
runtime kind is raised and no record has the host exception as its cause. -/
theorem host_exception_lost_without_record :
    (lua_1pcall (runCallable (hostRaises 1)) 4 0 0 demoCallNoMemory).1 = .ret (some ()) ∧
      (lua_1pcall (runCallable (hostRaises 1)) 4 0 0 demoCallNoMemory).2.env.pending = some 2 ∧
      ((lua_1pcall (runCallable (hostRaises 1)) 4 0 0 demoCallNoMemory).2.env.heap.map
        fun o => (o.cls, o.cause))
        = [(.javaFunction, none), (.other 1, none), (.nullPointerException, none)] := by
  decide


theorem sameSession_refl (w : World) : SameSession w w := ⟨rfl, rfl, rfl, rfl⟩

theorem sameSession_trans (a b c : World) (h1 : SameSession a b) (h2 : SameSession b c) :
    SameSession a c :=
  ⟨h2.1.trans h1.1, h2.2.1.trans h1.2.1, h2.2.2.1.trans h1.2.2.1, h2.2.2.2.trans h1.2.2.2⟩

theorem always_bind {α β : Type} {R : World → World → Prop} {m : M α} {f : α → M β}
    (htrans : ∀ a b c, R a b → R b c → R a c)
    (hm : Always R m) (hf : ∀ a, Always R (f a)) : Always R (m >>= f) := by
  intro w
  have h1 := hm w
  rw [bind_def]
  rcases h : m w with ⟨o, w1⟩
  rw [h] at h1
  cases o with
  | ret a => exact htrans _ _ _ h1 (hf a w1)
  | unwind u => exact h1

theorem always_pure {α : Type} {R : World → World → Prop} (hrefl : ∀ a, R a a) (a : α) :
    Always R (pure a : M α) := fun w => hrefl w

theorem session_bind {α β : Type} {m : M α} {f : α → M β}
    (hm : Always SameSession m) (hf : ∀ a, Always SameSession (f a)) :
    Always SameSession (m >>= f) :=
  always_bind sameSession_trans hm hf

theorem session_modifyL (f : lua_State → lua_State) (hf : ∀ L, (f L).registry = L.registry) :
    Always SameSession (modifyL f) := fun w => ⟨rfl, rfl, rfl, hf w.L⟩

theorem session_modifyEnv (f : JNIEnv → JNIEnv)
    (hf : ∀ e, (f e).javaLuaThread = e.javaLuaThread ∧ (f e).javaYield = e.javaYield ∧
      (f e).javaLuaState = e.javaLuaState) :
    Always SameSession (modifyEnv f) := fun w =>
  ⟨(hf w.env).1, (hf w.env).2.1, (hf w.env).2.2, rfl⟩

theorem takeOracle_session (e : JNIEnv) :
    (takeOracle e).2.javaLuaThread = e.javaLuaThread ∧ (takeOracle e).2.javaYield = e.javaYield ∧
      (takeOracle e).2.javaLuaState = e.javaLuaState := by
  obtain ⟨b, r, h⟩ := takeOracle_eq e
  rw [h]
  exact ⟨rfl, rfl, rfl⟩

theorem session_luaD_throw {α : Type} (status : Int) :
    Always SameSession (luaD_throw status : M α) := fun w => sameSession_refl w

theorem session_toString (idx : Int) : Always SameSession (toString idx) := fun w => by
  rw [toString_eq]
  exact sameSession_refl w

theorem session_getJavaObject (idx : Int) (c : Option JClass) :
    Always SameSession (getJavaObject idx c) := fun w => by
  rw [getJavaObject_eq]
  exact sameSession_refl w

theorem session_NewObject (obj : JavaObject) : Always SameSession (NewObject obj) := by
  intro w
  unfold NewObject
  have h := takeOracle_session w.env
  rcases ht : takeOracle w.env with ⟨b, e⟩
  rw [ht] at h
  cases b <;> exact ⟨h.1, h.2.1, h.2.2, rfl⟩

theorem session_throw {α : Type} (cls : JClass) (msg : String) :
    Always SameSession (throw cls msg : M α) := fun w => ⟨rfl, rfl, rfl, rfl⟩

theorem session_check (cond : Bool) (cls : JClass) (msg : String) :
    Always SameSession (check cond cls msg) := by
  unfold check
  cases cond
  · exact session_throw cls msg
  · exact always_pure sameSession_refl ()

theorem session_NewGlobalRef (obj : jobject) : Always SameSession (NewGlobalRef obj) := by
  intro w
  unfold NewGlobalRef
  cases obj.target with
  | none => exact sameSession_refl w
  | some o =>
    have h := takeOracle_session w.env
    rcases ht : takeOracle w.env with ⟨b, e⟩
    rw [ht] at h
    cases b <;> exact ⟨h.1, h.2.1, h.2.2, rfl⟩

theorem session_NewWeakGlobalRef (obj : jobject) :
    Always SameSession (NewWeakGlobalRef obj) := by
  intro w
  unfold NewWeakGlobalRef
  cases obj.target with
  | none => exact sameSession_refl w
  | some o =>
    have h := takeOracle_session w.env
    rcases ht : takeOracle w.env with ⟨b, e⟩
    rw [ht] at h
    cases b <;> exact ⟨h.1, h.2.1, h.2.2, rfl⟩

theorem session_newGlobalRef (obj : jobject) (type : Int) :
    Always SameSession (newGlobalRef obj type) := by
  unfold newGlobalRef checknotnull
  refine session_bind (session_check _ _ _) fun _ => ?_
  split
  · exact session_bind (session_NewGlobalRef obj) fun _ =>
      session_bind (session_check _ _ _) fun _ => always_pure sameSession_refl _
  · exact session_bind (session_NewWeakGlobalRef obj) fun _ =>
      session_bind (session_check _ _ _) fun _ => always_pure sameSession_refl _

theorem session_pushJavaObject (object : jobject) :
    Always SameSession (pushJavaObject object) := by
  intro w
  have h := session_bind (session_newGlobalRef object JNLUA_HARDREF) (fun ref =>
    session_bind (session_modifyL (storeObject w.L.nextAddr ref) (fun L => by
      unfold storeObject; split <;> rfl))
      (fun _ => session_modifyL (fun L => lua_setmetatable L (-2)) (fun L => by
        unfold lua_setmetatable lua_pop
        simp only
        split <;> [split; skip; skip] <;> rfl)))
    (luaL_getmetatable JNLUA_MOBJECT (lua_newuserdata w.L).2 |> fun L1 => { w with L := L1 })
  exact h

theorem session_raiseJavaException (e : Nat) : Always SameSession (raiseJavaException e) := by
  unfold raiseJavaException
  refine session_bind (session_modifyL _ fun _ => rfl) fun _ => ?_
  refine session_bind (session_modifyL _ fun _ => rfl) fun _ => ?_
  refine session_bind (session_toString _) fun _ => ?_
  refine session_bind (session_modifyL _ fun _ => rfl) fun _ => ?_
  refine session_bind (session_NewObject _) fun _ => ?_
  refine session_bind (session_pushJavaObject _) fun _ => ?_
  refine session_bind (session_modifyEnv _ fun _ => ⟨rfl, rfl, rfl⟩) fun _ => ?_
  exact session_luaD_throw _

theorem session_lua_error {α : Type} : Always SameSession (lua_error : M α) :=
  session_luaD_throw _

theorem session_lua_yield {α : Type} (n : Int) : Always SameSession (lua_yield n : M α) :=
  session_bind (session_modifyEnv _ fun _ => ⟨rfl, rfl, rfl⟩) fun _ => session_luaD_throw _

theorem session_finishCall (result : Int) : Always SameSession (finishCall result) := by
  intro w
  unfold finishCall
  simp only [bind_def, ExceptionOccurred, getYield, getL_def]
  cases w.env.pending with
  | some e => exact session_raiseJavaException e w
  | none =>
    simp only [bind_def, getYield, getL_def]
    cases w.env.javaYield with
    | false => exact sameSession_refl w
    | true =>
      show SameSession w ((if result < 0 ∨ result > lua_gettop w.L then
        (modifyL (push (.string "illegal return count")) >>= fun _ => (lua_error : M Int))
        else lua_yield result) w).2
      split
      · have h : Always SameSession (modifyL (push (.string "illegal return count")) >>=
            fun _ => (lua_error : M Int)) :=
          session_bind (session_modifyL _ fun _ => rfl) (fun _ => session_lua_error)
        exact h w
      · exact session_lua_yield result w

/-- When the Java state is bound and the upvalue unwraps to a host callable `f`,
`callJavaFunction` calls `f` in `invocationWorld F` and goes on in `returnWorld F`. -/
theorem callJavaFunction_invokes (invoke : HostCall) (F : World) (p u t f : Nat) (ud : UData)
    (hjs : getfield JNLUA_RJAVASTATE F.L.registry = .lightuserdata p) (hp : p ≠ 0)
    (hup : index2value F.L (lua_upvalueindex 1) = some (.userdata u))
    (hud : lookup u F.L.udata = some ud) (hmt : ud.metatable = some t)
    (hm : getfield JNLUA_MOBJECT F.L.registry = .table t)
    (hinst : IsInstanceOf F.env ud.payload .javaFunction = true)
    (hf : ud.payload.target = some f) :
    callJavaFunction invoke F
      = finishCall (invoke (invocationWorld F) f).1
          (returnWorld F (invoke (invocationWorld F) f).2) := by
  have hnn : ud.payload ≠ .null := by
    intro h; rw [h] at hf; cases hf
  unfold callJavaFunction
  simp only [bind_def, getJniEnv_eq, getJavaState_eq, hjs, hp, if_false, modifyL_def, hup,
    Option.getD_some, getJavaObject_eq, unwrap_pushed F.L F.env u t ud _ hud hmt hm, hinst, if_true,
    lua_pop_push, hnn, setYield, modifyEnv_def, getLuaThread, getL_def]
  by_cases hst : F.env.javaLuaThread = F.L.self
  · have hw : invocationWorld F = { L := F.L, env := { F.env with javaYield := false }, csp := F.csp } := by
      unfold invocationWorld
      rw [← hst]
    simp only [hst, if_true, bind_def, CallIntMethod, hf, Option.getD_some, returnWorld, hw]
    rfl
  · simp only [hst, if_false, bind_def, CallIntMethod, hf, Option.getD_some, returnWorld,
      setLuaThread, modifyEnv_def, pure_def, invocationWorld]
    rfl

theorem flagBlind_bind {α β : Type} {m : M α} {f : α → M β}
    (hm : FlagBlind m) (hf : ∀ a, FlagBlind (f a)) : FlagBlind (m >>= f) := by
  intro b w
  rw [bind_def, bind_def, hm b w]
  rcases m w with ⟨o, w1⟩
  cases o with
  | ret a => exact hf a b w1
  | unwind u => rfl

theorem flagBlind_pure {α : Type} (a : α) : FlagBlind (pure a : M α) := fun _ _ => rfl

theorem flagBlind_getL : FlagBlind getL := fun _ _ => rfl

theorem flagBlind_setL (L : lua_State) : FlagBlind (setL L) := fun _ _ => rfl

theorem flagBlind_modifyL (f : lua_State → lua_State) : FlagBlind (modifyL f) := fun _ _ => rfl

theorem flagBlind_modifyEnv (f : JNIEnv → JNIEnv)
    (hf : ∀ b e, f { e with javaYield := b } = { f e with javaYield := b }) :
    FlagBlind (modifyEnv f) := by
  intro b w
  exact congrArg (fun e => (Outcome.ret (), ({ L := w.L, env := e, csp := w.csp } : World)))
    (hf b w.env)

theorem flagBlind_luaD_throw {α : Type} (status : Int) : FlagBlind (luaD_throw status : M α) :=
  fun _ _ => rfl

theorem takeOracle_withYield (b : Bool) (e : JNIEnv) :
    takeOracle { e with javaYield := b }
      = ((takeOracle e).1, { (takeOracle e).2 with javaYield := b }) := by
  rcases e with ⟨_, _, _, _, o, _, _, _, _, _⟩
  cases o <;> rfl

theorem flagBlind_toString (idx : Int) : FlagBlind (toString idx) := by
  intro b w
  rw [toString_eq, toString_eq]
  rfl

theorem flagBlind_NewObject (obj : JavaObject) : FlagBlind (NewObject obj) := by
  intro b w
  unfold NewObject
  simp only [withYield, takeOracle_withYield]
  rcases takeOracle w.env with ⟨c, e⟩
  cases c <;> rfl

theorem flagBlind_NewGlobalRef (obj : jobject) : FlagBlind (NewGlobalRef obj) := by
  intro b w
  unfold NewGlobalRef
  cases obj.target with
  | none => rfl
  | some o =>
    simp only [withYield, takeOracle_withYield]
    rcases takeOracle w.env with ⟨c, e⟩
    cases c <;> rfl

theorem flagBlind_check (cond : Bool) (cls : JClass) (msg : String) :
    FlagBlind (check cond cls msg) := by
  unfold check
  cases cond
  · exact flagBlind_bind (flagBlind_modifyEnv _ fun _ _ => rfl) fun _ => fun _ _ => rfl
  · exact flagBlind_pure ()

theorem flagBlind_pushJavaObject (object : jobject) : FlagBlind (pushJavaObject object) := by
  unfold pushJavaObject newGlobalRef checknotnull
  refine flagBlind_bind flagBlind_getL fun L => ?_
  refine flagBlind_bind (flagBlind_setL _) fun _ => ?_
  refine flagBlind_bind (flagBlind_modifyL _) fun _ => ?_
  refine flagBlind_bind ?_ fun _ => flagBlind_bind (flagBlind_modifyL _) fun _ => flagBlind_modifyL _
  refine flagBlind_bind (flagBlind_check _ _ _) fun _ => ?_
  simp only [JNLUA_HARDREF, if_true]
  exact flagBlind_bind (flagBlind_NewGlobalRef _) fun _ =>
    flagBlind_bind (flagBlind_check _ _ _) fun _ => flagBlind_pure _

theorem flagBlind_raiseJavaException (e : Nat) : FlagBlind (raiseJavaException e) := by
  unfold raiseJavaException
  refine flagBlind_bind (flagBlind_modifyL _) fun _ => ?_
  refine flagBlind_bind (flagBlind_modifyL _) fun _ => ?_
  refine flagBlind_bind (flagBlind_toString _) fun _ => ?_
  refine flagBlind_bind (flagBlind_modifyL _) fun _ => ?_
  refine flagBlind_bind (flagBlind_NewObject _) fun _ => ?_
  refine flagBlind_bind (flagBlind_pushJavaObject _) fun _ => ?_
  refine flagBlind_bind (flagBlind_modifyEnv _ fun _ _ => rfl) fun _ => ?_
  exact flagBlind_luaD_throw _

theorem returnWorld_withYield (F H : World) (b : Bool) :
    returnWorld F (withYield b H) = withYield b (returnWorld F H) := by
  unfold returnWorld
  split <;> rfl

theorem returnWorld_fields (F H : World) :
    (returnWorld F H).env.pending = H.env.pending ∧
      (returnWorld F H).env.javaYield = H.env.javaYield ∧ (returnWorld F H).L = H.L := by
  unfold returnWorld
  split <;> exact ⟨rfl, rfl, rfl⟩

/-- C11 (as amended): when `callJavaFunction` runs on thread `T` (`F.L.self`) while the
`luaThread` field of the Java state is `S`, the host callable is called in a world whose
field is `T`.  When `S ≠ T` the field is `S` again in the world in which
`callJavaFunction` goes on after the call and in the world it finally leaves, whatever the
callable did and whether it raised an exception or not.  When `S = T` the field is written
neither before nor after the call: `callJavaFunction` goes on in the world the callable
left, and the field it finally leaves is the one the callable left. -/
theorem callJavaFunction_switches_thread (invoke : HostCall) (F : World) (p u t f : Nat)
    (ud : UData)
    (hjs : getfield JNLUA_RJAVASTATE F.L.registry = .lightuserdata p) (hp : p ≠ 0)
    (hup : index2value F.L (lua_upvalueindex 1) = some (.userdata u))
    (hud : lookup u F.L.udata = some ud) (hmt : ud.metatable = some t)
    (hm : getfield JNLUA_MOBJECT F.L.registry = .table t)
    (hinst : IsInstanceOf F.env ud.payload .javaFunction = true)
    (hf : ud.payload.target = some f) :
    (invocationWorld F).env.javaLuaThread = F.L.self ∧
      callJavaFunction invoke F
        = finishCall (invoke (invocationWorld F) f).1
            (returnWorld F (invoke (invocationWorld F) f).2) ∧
      (F.env.javaLuaThread ≠ F.L.self →
        (returnWorld F (invoke (invocationWorld F) f).2).env.javaLuaThread
          = F.env.javaLuaThread ∧
        (callJavaFunction invoke F).2.env.javaLuaThread = F.env.javaLuaThread) ∧
      (F.env.javaLuaThread = F.L.self →
        returnWorld F (invoke (invocationWorld F) f).2 = (invoke (invocationWorld F) f).2 ∧
        (callJavaFunction invoke F).2.env.javaLuaThread
          = (invoke (invocationWorld F) f).2.env.javaLuaThread) := by
  have heq := callJavaFunction_invokes invoke F p u t f ud hjs hp hup hud hmt hm hinst hf
  refine ⟨rfl, heq, fun hne => ?_, fun he => ?_⟩
  · have hret : (returnWorld F (invoke (invocationWorld F) f).2).env.javaLuaThread
        = F.env.javaLuaThread := by
      unfold returnWorld
      rw [if_neg hne]
    refine ⟨hret, ?_⟩
    rw [heq, (session_finishCall _ _).1, hret]
  · have hret : returnWorld F (invoke (invocationWorld F) f).2
        = (invoke (invocationWorld F) f).2 := by
      unfold returnWorld
      rw [if_pos he]
    refine ⟨hret, ?_⟩
    rw [heq, (session_finishCall _ _).1, hret]

/-- Witness for C11: thread 5 calls the callable while the field names thread 0, and the
callable raises an exception: the field is 0 again.  The main state 5 calls a callable that
returns while the field names it: the field stays 5. -/
theorem callJavaFunction_switches_thread_witness :
    demoThreadCall.env.javaLuaThread = 0 ∧ demoThreadCall.L.self = 5 ∧
      (invocationWorld demoThreadCall).env.javaLuaThread = 5 ∧
      (callJavaFunction (hostRaises 1) demoThreadCall).2.env.javaLuaThread = 0 ∧
      demoMainCall.env.javaLuaThread = 5 ∧ demoMainCall.L.self = 5 ∧
      (callJavaFunction (hostReturns 0) demoMainCall).2.env.javaLuaThread = 5 := by
  obtain ⟨h1, -, h3, -⟩ := callJavaFunction_switches_thread (hostRaises 1) demoThreadCall 9 1 7 0
    { payload := .glob 0 0, metatable := some 7 } rfl (by decide) (by decide) (by decide) rfl
    (by decide) (by decide) rfl
  obtain ⟨-, -, -, h4⟩ := callJavaFunction_switches_thread (hostReturns 0) demoMainCall 9 1 7 0
    { payload := .glob 0 0, metatable := some 7 } rfl (by decide) (by decide) (by decide) rfl
    (by decide) (by decide) rfl
  exact ⟨rfl, rfl, h1, (h3 (by decide)).2, rfl, rfl, (h4 rfl).2⟩

/-- C11 (counterexample): the main state 5 calls the callable while the field names it
(`S = T = 5`); the callable detaches the session, which clears the field.  The field is 0
in the world the callable leaves and still 0 when `callJavaFunction` has returned: it is
not `T` for the whole invocation and not `S` again afterwards. -/
theorem callJavaFunction_binding_not_restored :
    demoMainCall.env.javaLuaThread = 5 ∧ demoMainCall.L.self = 5 ∧
      (invocationWorld demoMainCall).env.javaLuaThread = 5 ∧
      (hostCloses (invocationWorld demoMainCall) 0).2.env.javaLuaThread = 0 ∧
      (callJavaFunction hostCloses demoMainCall).1 = .ret 0 ∧
      (callJavaFunction hostCloses demoMainCall).2.env.javaLuaThread = 0 := by
  decide

/-- C12: when the host callable is called, the value the yield flag had before the call does
not matter (the flag is cleared before the callable runs); when the callable returned
without exception, `callJavaFunction` returns the result count if the flag is then clear and
leaves by yield or error if it is set; when the callable raised an exception, the flag is
not read: another value of the flag at return changes nothing but the flag itself. -/
theorem yield_flag_read_after_call (invoke : HostCall) (F : World) (p u t f : Nat) (ud : UData)
    (hjs : getfield JNLUA_RJAVASTATE F.L.registry = .lightuserdata p) (hp : p ≠ 0)
    (hup : index2value F.L (lua_upvalueindex 1) = some (.userdata u))
    (hud : lookup u F.L.udata = some ud) (hmt : ud.metatable = some t)
    (hm : getfield JNLUA_MOBJECT F.L.registry = .table t)
    (hinst : IsInstanceOf F.env ud.payload .javaFunction = true)
    (hf : ud.payload.target = some f) :
    (∀ b, callJavaFunction invoke (withYield b F) = callJavaFunction invoke F) ∧
    (invocationWorld F).env.javaYield = false ∧
    ((invoke (invocationWorld F) f).2.env.pending = none →
      ((invoke (invocationWorld F) f).2.env.javaYield = false →
        callJavaFunction invoke F
          = (.ret (invoke (invocationWorld F) f).1,
              returnWorld F (invoke (invocationWorld F) f).2)) ∧
      ((invoke (invocationWorld F) f).2.env.javaYield = true →
        ∃ tgt st W, callJavaFunction invoke F = (.unwind { target := tgt, status := some st }, W) ∧
          (st = LUA_YIELD ∨ st = LUA_ERRRUN))) ∧
    (∀ e, (invoke (invocationWorld F) f).2.env.pending = some e →
      ∀ (invoke1 : HostCall) (b : Bool),
        invoke1 (invocationWorld F) f
          = ((invoke (invocationWorld F) f).1, withYield b (invoke (invocationWorld F) f).2) →
        callJavaFunction invoke1 F
          = ((callJavaFunction invoke F).1, withYield b (callJavaFunction invoke F).2)) := by
  have heq := fun inv => callJavaFunction_invokes inv F p u t f ud hjs hp hup hud hmt hm hinst hf
  obtain ⟨hrp, hry, hrL⟩ := returnWorld_fields F (invoke (invocationWorld F) f).2
  refine ⟨fun b => ?_, rfl, fun hpend => ⟨fun hy => ?_, fun hy => ?_⟩, fun e hpend invoke1 b h1 => ?_⟩
  · rw [callJavaFunction_invokes invoke (withYield b F) p u t f ud hjs hp hup hud hmt hm hinst hf,
      heq invoke]
    rfl
  · rw [heq invoke]
    unfold finishCall
    simp only [bind_def, ExceptionOccurred, getYield, hrp, hry, hpend, hy]
    rfl
  · rw [heq invoke]
    unfold finishCall
    simp only [bind_def, ExceptionOccurred, getYield, hrp, hry, hpend, hy, getL_def, if_true]
    split
    · exact ⟨_, _, _, rfl, Or.inr rfl⟩
    · exact ⟨_, _, _, rfl, Or.inl rfl⟩
  · rw [heq invoke1, heq invoke, h1, returnWorld_withYield]
    have hfin : ∀ W : World, W.env.pending = some e →
        finishCall (invoke (invocationWorld F) f).1 W = raiseJavaException e W := by
      intro W hW
      unfold finishCall
      simp only [bind_def, ExceptionOccurred, hW]
    rw [hfin _ (by exact hrp.trans hpend), hfin _ (hrp.trans hpend)]
    exact flagBlind_raiseJavaException e b _

/-- Witness for C12: the callable of `demoThreadCall` returns 0 without setting the flag; a
flag left set by an earlier call does not make the call yield. -/
theorem yield_flag_read_after_call_witness :
    callJavaFunction (hostReturns 0) (withYield true demoThreadCall)
        = callJavaFunction (hostReturns 0) demoThreadCall ∧
      (callJavaFunction (hostReturns 0) demoThreadCall).1 = .ret 0 := by
  obtain ⟨h1, -, h3, -⟩ := yield_flag_read_after_call (hostReturns 0) demoThreadCall 9 1 7 0
    { payload := .glob 0 0, metatable := some 7 } rfl (by decide) (by decide) (by decide) rfl
    (by decide) (by decide) rfl
  refine ⟨h1 true, ?_⟩
  rw [(h3 rfl).1 rfl]
  rfl

/-- C14: `callJavaFunction` entered when no Java state is stored in the interpreter state
raises the error value "no Java VM"; entered when the Java state is there but the upvalue
does not unwrap to an object of the callable interface it raises "no Java function".  The
two values differ.  In both cases the world it leaves is the world it was entered in with
the error value pushed, whatever the host callable is: the callable is not called and the
fields of the Java state are not written. -/
theorem callJavaFunction_unavailable (invoke : HostCall) (F : World) :
    ((getJavaState F).1 = .ret 0 →
      callJavaFunction invoke F
        = (.unwind { target := F.L.errorJmp, status := some LUA_ERRRUN },
            { F with L := push (.string "no Java VM") F.L })) ∧
    (∀ p, (getJavaState F).1 = .ret p → p ≠ 0 →
      unwrap (push ((index2value F.L (lua_upvalueindex 1)).getD .nil) F.L) F.env (-1)
        (some .javaFunction) = .null →
      callJavaFunction invoke F
        = (.unwind { target := F.L.errorJmp, status := some LUA_ERRRUN },
            { F with L := push (.string "no Java function") F.L })) ∧
    Value.string "no Java VM" ≠ Value.string "no Java function" := by
  obtain ⟨x, hx⟩ : ∃ x, getJavaState F = (.ret x, F) := ⟨_, getJavaState_eq F⟩
  refine ⟨fun h => ?_, fun p h hp hu => ?_, by decide⟩
  · rw [hx] at h
    cases h
    unfold callJavaFunction
    simp only [bind_def, getJniEnv_eq, hx, if_true, modifyL_def]
    rfl
  · rw [hx] at h
    cases h
    unfold callJavaFunction
    simp only [bind_def, getJniEnv_eq, hx, hp, if_false, modifyL_def, getJavaObject_eq, hu,
      if_true, lua_pop_push]
    rfl

/-- Witness for C14: a state without Java state, and a state whose upvalue is a number. -/
theorem callJavaFunction_unavailable_witness :
    (callJavaFunction (hostRaises 1) demoCaller).2.L.stack.getLast? = some (.string "no Java VM") ∧
      (callJavaFunction (hostRaises 1) demoStrayCall).2.L.stack.getLast?
        = some (.string "no Java function") ∧
      (callJavaFunction (hostRaises 1) demoStrayCall).2.env = demoStrayCall.env := by
  obtain ⟨h1, -, -⟩ := callJavaFunction_unavailable (hostRaises 1) demoCaller
  obtain ⟨-, h2, -⟩ := callJavaFunction_unavailable (hostRaises 1) demoStrayCall
  rw [h1 (by decide), h2 9 (by decide) (by decide) (by decide)]
  exact ⟨by decide, by decide, rfl⟩


theorem tocfunction_entered (env : Nat) (w : World) (idx : Int) :
    lua_tocfunction (entered env w).L idx = lua_tocfunction w.L idx := by
  unfold lua_tocfunction
  rw [index2value_entered]

theorem lua_1isjavafunction_eq (env : Nat) (index : Int) (w : World)
    (hroom : lua_checkstack w.L LUA_MINSTACK = true) :
    lua_1isjavafunction env index w
      = if validindex w.L index = true then
          (.ret (if lua_tocfunction w.L index = some .callJavaFunction then 1 else 0),
            closedWorld w (entered env w))
        else (.ret 0, w) := by
  unfold lua_1isjavafunction
  simp only [bind_def, getL_def]
  cases hv : validindex w.L index
  · rfl
  · simp only [Bool.not_true, Bool.false_eq_true, if_false, if_true, bind_def]
    rw [guarded_ok env _ w (entered env w) _ hroom rfl]
    simp only [getL_def, tocfunction_entered]
    rfl

theorem lua_1iscfunction_eq (env : Nat) (index : Int) (w : World)
    (hroom : lua_checkstack w.L LUA_MINSTACK = true) :
    lua_1iscfunction env index w
      = if validindex w.L index = true then
          (.ret (if lua_tocfunction w.L index ≠ none ∧
              lua_tocfunction w.L index ≠ some .callJavaFunction then 1 else 0),
            closedWorld w (entered env w))
        else (.ret 0, w) := by
  unfold lua_1iscfunction
  simp only [bind_def, getL_def]
  cases hv : validindex w.L index
  · rfl
  · simp only [Bool.not_true, Bool.false_eq_true, if_false, if_true, bind_def]
    rw [guarded_ok env _ w (entered env w) _ hroom rfl]
    simp only [getL_def, tocfunction_entered]
    rfl

/-- The operation `lua_pushjavafunction()` when the reference is acquired: the closure of
`callJavaFunction` is pushed. -/
theorem lua_1pushjavafunction_ok (env : Nat) (f : jobject) (g t : Nat) (w : World)
    (ht : getfield JNLUA_MOBJECT w.L.registry = .table t)
    (hjni : (takeOracle w.env).1 = true) (hf : f.target = some g)
    (hroom : lua_checkstack w.L LUA_MINSTACK = true) :
    ∃ w1 addr, lua_1pushjavafunction env f w = (.ret (some ()), w1) ∧
      w1.L.stack = w.L.stack ++ [.cclosure .callJavaFunction addr] ∧
      w1.L.stackLimit = w.L.stackLimit := by
  obtain ⟨w1, hw1, hst1, hud1, hreg1, hcl1, hna1, hsl1, -⟩ :=
    pushJavaObject_props f g t (entered env w) ((entered_marker env w).trans ht) hf hjni
  have hpush : pushjavafunctionBody f (entered env w)
      = (.ret (), { w1 with L := lua_pushcclosure1 .callJavaFunction w1.L }) := by
    unfold pushjavafunctionBody
    simp only [bind_def, hw1, modifyL_def]
  have h1 := guarded_ok env (fun _ => pushjavafunctionBody f) w _ () hroom hpush
  obtain ⟨hcs, -, -, -, hcl⟩ := pushcclosure1_props .callJavaFunction w1.L _ _ hst1
  rw [entered_stack] at hcs
  exact ⟨_, w1.L.nextAddr, h1, hcs, hcl.trans hsl1⟩

theorem tocfunction_last (L : lua_State) (s : List Value) (v : Value)
    (hs : L.stack = s ++ [v]) :
    lua_tocfunction L (-1) = match v with
      | .cfunction f => some f
      | .cclosure f _ => some f
      | _ => none := by
  unfold lua_tocfunction
  rw [index2value_last L s v hs]
  cases v <;> rfl

/-- C15: for every index, `lua_isjavafunction` answers 1 exactly when the index is valid and
the C function pointer of the value is `callJavaFunction`, and `lua_iscfunction` answers 1
exactly when the index is valid and the value is a C function other than
`callJavaFunction`; the answers are 0 or 1 and never both 1; for an invalid index both are
0 and the world is untouched; neither query changes the stack, the userdata or the host
heap; and on the value `lua_pushjavafunction` pushed `lua_isjavafunction` answers 1 and
`lua_iscfunction` answers 0. -/
theorem function_kind_by_pointer (env : Nat) (index : Int) (w : World)
    (hroom : lua_checkstack w.L LUA_MINSTACK = true) :
    (∃ j c wj wc, lua_1isjavafunction env index w = (.ret j, wj) ∧
      lua_1iscfunction env index w = (.ret c, wc) ∧
      (j = 1 ↔ validindex w.L index = true ∧
        lua_tocfunction w.L index = some .callJavaFunction) ∧
      (c = 1 ↔ validindex w.L index = true ∧
        ∃ f, lua_tocfunction w.L index = some f ∧ f ≠ .callJavaFunction) ∧
      (j = 0 ∨ j = 1) ∧ (c = 0 ∨ c = 1) ∧ ¬ (j = 1 ∧ c = 1) ∧
      (validindex w.L index = false → j = 0 ∧ c = 0 ∧ wj = w ∧ wc = w) ∧
      wj.L.stack = w.L.stack ∧ wc.L.stack = w.L.stack ∧
      wj.L.udata = w.L.udata ∧ wc.L.udata = w.L.udata ∧
      wj.env.heap = w.env.heap ∧ wc.env.heap = w.env.heap) ∧
    (∀ (f : jobject) (g t : Nat), getfield JNLUA_MOBJECT w.L.registry = .table t →
      (takeOracle w.env).1 = true → f.target = some g →
      lua_checkstack w.L (LUA_MINSTACK + 1) = true → lua_gettop w.L < LUAI_MAXSTACK →
      ∃ w1, lua_1pushjavafunction env f w = (.ret (some ()), w1) ∧
        (lua_1isjavafunction env (-1) w1).1 = .ret 1 ∧
        (lua_1iscfunction env (-1) w1).1 = .ret 0) := by
  constructor
  · rw [lua_1isjavafunction_eq env index w hroom, lua_1iscfunction_eq env index w hroom]
    cases hv : validindex w.L index
    · exact ⟨0, 0, w, w, by simp, by simp, by simp, by simp, Or.inl rfl, Or.inl rfl, by simp,
        fun _ => ⟨rfl, rfl, rfl, rfl⟩, rfl, rfl, rfl, rfl, rfl, rfl⟩
    · simp only [if_true]
      have hs : (closedWorld w (entered env w)).L.stack = w.L.stack := entered_stack env w
      refine ⟨_, _, _, _, rfl, rfl, ?_, ?_, ?_, ?_, ?_, (fun h => Bool.noConfusion h), hs, hs, rfl, rfl,
        rfl, rfl⟩
      · cases h : lua_tocfunction w.L index with
        | none => simp
        | some f => by_cases hf : f = .callJavaFunction <;> simp [hf]
      · cases h : lua_tocfunction w.L index with
        | none => simp
        | some f => by_cases hf : f = .callJavaFunction <;> simp [hf]
      · split <;> simp
      · split <;> simp
      · cases h : lua_tocfunction w.L index with
        | none => simp
        | some f => by_cases hf : f = .callJavaFunction <;> simp [hf]
  · intro f g t ht hjni hf hroom1 hmax
    obtain ⟨w1, addr, h1, hst, hsl⟩ := lua_1pushjavafunction_ok env f g t w ht hjni hf hroom
    have htop : lua_gettop w1.L = lua_gettop w.L + 1 := by
      unfold lua_gettop; rw [hst]; simp
    have hroomW : lua_checkstack w1.L LUA_MINSTACK = true := by
      unfold lua_checkstack at *
      rw [htop, hsl]
      simp only [decide_eq_true_eq] at *
      omega
    have hvi : validindex w1.L (-1) = true :=
      validindex_top w1.L (by rw [htop]; unfold lua_gettop; omega) (by rw [htop]; omega)
    have htc : lua_tocfunction w1.L (-1) = some .callJavaFunction := by
      rw [tocfunction_last w1.L _ _ hst]
    refine ⟨w1, h1, ?_, ?_⟩
    · rw [lua_1isjavafunction_eq env (-1) w1 hroomW]
      simp [hvi, htc]
    · rw [lua_1iscfunction_eq env (-1) w1 hroomW]
      simp [hvi, htc]

/-- Witness for C15: the value on the stack of `demoCall` is a closure of `callJavaFunction`. -/
theorem function_kind_by_pointer_witness :
    lua_checkstack demoCall.L LUA_MINSTACK = true ∧
      (lua_1isjavafunction 1 1 demoCall).1 = .ret 1 ∧
      (lua_1iscfunction 1 1 demoCall).1 = .ret 0 := by
  obtain ⟨⟨j, c, wj, wc, hj, hc, hji, hci, -, hc01, -⟩, -⟩ :=
    function_kind_by_pointer 1 1 demoCall (by decide)
  have h1 : j = 1 := hji.mpr ⟨by decide, by decide⟩
  have h0 : c = 0 := by
    rcases hc01 with h | h
    · exact h
    · obtain ⟨-, f, hf, hne⟩ := hci.mp h
      have : lua_tocfunction demoCall.L 1 = some .callJavaFunction := by decide
      rw [this] at hf
      cases hf
      exact absurd rfl hne
  rw [hj, hc, h1, h0]
  exact ⟨by decide, rfl, rfl⟩


theorem lua_1close_refused (w : World) (hopen : w.env.javaLuaState ≠ 0)
    (hbusy : w.env.javaLuaThread ≠ w.env.javaLuaState ∨
      (w.env.javaLuaState = w.L.self ∧ lua_getstack w.L 0 = true)) :
    lua_1close true w = (.ret .returned, w) := by
  unfold lua_1close
  simp only [bind_def, getLuaState, getL_def, getLuaThread, true_and]
  by_cases h1 : w.env.javaLuaState = w.env.javaLuaThread
  · rcases hbusy with h | ⟨h2, h3⟩
    · exact absurd h1.symm h
    · have hc1 : ¬ (w.env.javaLuaState ≠ w.env.javaLuaThread) := not_not.mpr h1
      have hd : decide (w.env.javaLuaState ≠ 0 ∧ w.env.javaLuaState = w.L.self) = true :=
        decide_eq_true ⟨hopen, h2⟩
      simp only [hc1, hd, h3, if_false, if_true, Bool.not_true, Bool.false_eq_true, pure_def]
  · have hc1 : w.env.javaLuaState ≠ w.env.javaLuaThread := h1
    simp only [hc1, not_false_eq_true, if_true, pure_def, ne_eq]

theorem releaseCount_append (l1 l2 : List Event) :
    releaseCount (l1 ++ l2) = releaseCount l1 + releaseCount l2 := by
  simp [releaseCount, List.countP_append]

/-- C16: a `close` with ownership of the native state, on an open session that has an
active call frame (the current thread is not the main state, or the main state has an
activation record), is refused: the native `lua_close` returns leaving the world as it was,
and `close` raises one State error (`IllegalStateException`); the `luaState` and
`luaThread` fields, the outstanding references (the weak reference to the Java state among
them) and the interpreter state are unchanged. -/
theorem close_refused_while_running (w : World) (hopen : w.env.javaLuaState ≠ 0)
    (hbusy : w.env.javaLuaThread ≠ w.env.javaLuaState ∨
      (w.env.javaLuaState = w.L.self ∧ lua_getstack w.L 0 = true)) :
    lua_1close true w = (.ret .returned, w) ∧
    ∃ w1, close true w = (.ret (), w1) ∧
      w1.L = w.L ∧ w1.env.javaLuaState = w.env.javaLuaState ∧
      w1.env.javaLuaThread = w.env.javaLuaThread ∧ w1.env.globals = w.env.globals ∧
      releaseCount w1.env.log = releaseCount w.env.log ∧
      w1.env.log = w.env.log ++ [.ThrowNew .illegalStateException "cannot close"] ∧
      w1.env.pending = some w.env.heap.length ∧
      w1.env.heap.get? w.env.heap.length
        = some { cls := .illegalStateException, message := some "cannot close" } := by
  have h := lua_1close_refused w hopen hbusy
  refine ⟨h, ?_⟩
  unfold close
  simp only [bind_def, getLuaState, hopen, if_false, h, ne_eq, not_false_eq_true, if_true,
    ThrowNew, modifyEnv_def]
  refine ⟨_, rfl, rfl, rfl, rfl, rfl, ?_, rfl, rfl, ?_⟩
  · simp [releaseCount_append, releaseCount]
  · simp

/-- Witness for C16: the session `demoBusy` has a host callable running. -/
theorem close_refused_while_running_witness :
    lua_getstack demoBusy.L 0 = true ∧ lua_1close true demoBusy = (.ret .returned, demoBusy) ∧
      (close true demoBusy).2.env.javaLuaState = 4 ∧
      (close true demoBusy).2.env.pending = some 1 := by
  obtain ⟨h1, w1, h2, -, h3, -, -, -, -, h4, -⟩ :=
    close_refused_while_running demoBusy (by decide) (Or.inr ⟨rfl, by decide⟩)
  rw [h2]
  exact ⟨by decide, h1, h3, h4⟩

theorem noRelease_gcJavaObject (W : World) : NoRelease W (gcJavaObject W).2 := by
  unfold gcJavaObject
  simp only [bind_def, getJniEnv_eq]
  split
  · exact ⟨rfl, rfl, rfl, rfl, rfl⟩
  · simp only [getL_def, bind_def, DeleteGlobalRef, modifyEnv_def, pure_def]
    refine ⟨rfl, rfl, rfl, rfl, ?_⟩
    simp [releaseCount_append, releaseCount]

theorem noRelease_finalizers (l : List Nat) (w : World) :
    NoRelease w (l.foldl
      (fun acc a => (gcJavaObject { acc with L := { acc.L with stack := [.userdata a] } }).2) w) := by
  induction l generalizing w with
  | nil => exact ⟨rfl, rfl, rfl, rfl, rfl⟩
  | cons a r ih =>
    rw [List.foldl_cons]
    obtain ⟨h1, h2, h3, h4, h5⟩ := ih (gcJavaObject { w with L := { w.L with stack := [.userdata a] } }).2
    obtain ⟨g1, g2, g3, g4, g5⟩ := noRelease_gcJavaObject { w with L := { w.L with stack := [.userdata a] } }
    exact ⟨h1.trans g1, h2.trans g2, h3.trans g3, h4.trans g4, h5.trans g5⟩

theorem close_closed (m : Bool) (w : World) (h : w.env.javaLuaState = 0) :
    close m w = (.ret (), w) := by
  unfold close
  simp only [bind_def, getLuaState, h, if_true, pure_def]

theorem closeAll_closed (modes : List Bool) (w : World) (h : w.env.javaLuaState = 0) :
    closeAll modes w = (.ret (), w) := by
  induction modes with
  | nil => rfl
  | cons m r ih =>
    unfold closeAll
    rw [bind_def, close_closed m w h]
    exact ih

theorem lua_close_def (w : World) :
    lua_close w = (.ret (), { ((wrappers w.L).foldl
      (fun acc a => (gcJavaObject { acc with L := { acc.L with stack := [.userdata a] } }).2) w)
        with L := {} }) := rfl

theorem getJavaState_ptr (w : World) : getJavaState w = (.ret (javaStateOf w.L), w) :=
  getJavaState_eq w

theorem releasedWorld_fields (w : World) :
    (releasedWorld w).env.javaLuaState = 0 ∧ (releasedWorld w).env.javaLuaThread = 0 ∧
      (releasedWorld w).env.pending = w.env.pending ∧ (releasedWorld w).env.heap = w.env.heap ∧
      releaseCount (releasedWorld w).env.log = releaseCount w.env.log + 1 ∧
      (releasedWorld w).L = w.L := by
  refine ⟨rfl, rfl, rfl, rfl, ?_, rfl⟩
  simp [releasedWorld, releaseCount_append, releaseCount]

/-- The native `lua_close` on an open session it does not refuse. -/
theorem lua_1close_accepted (m : Bool) (w : World) (hopen : OpenSession w)
    (hacc : refuses w m = false) :
    lua_1close m w = (.ret .returned,
      if m = true then (lua_close (releasedWorld w)).2
      else { releasedWorld w with L := setRegistryField JNLUA_RENV (push (.lightuserdata 0) (setRegistryField JNLUA_RJAVASTATE (push (.lightuserdata 0) w.L))) }) := by
  obtain ⟨h0, ht⟩ := hopen
  have hkn : decide (w.env.javaLuaState ≠ 0) = true := decide_eq_true h0
  cases m with
  | false =>
    unfold lua_1close
    simp only [bind_def, getLuaState, getL_def, getLuaThread, hkn, Bool.false_eq_true, false_and,
      if_false, setLuaState, setLuaThread, modifyEnv_def, Bool.not_true, getJavaState_ptr,
      modifyL_def, pure_def, DeleteWeakGlobalRef, setJavaState, setJniEnv]
    rfl
  | true =>
    have hacc2 : (decide (w.env.javaLuaState ≠ w.env.javaLuaThread) || lua_getstack w.L 0)
        = false := by
      simpa [refuses] using hacc
    rw [Bool.or_eq_false_iff] at hacc2
    have hst : w.env.javaLuaState = w.env.javaLuaThread := by
      have := hacc2.1
      simpa using this
    have hg : lua_getstack w.L 0 = false := hacc2.2
    have hc1 : ¬ (w.env.javaLuaState ≠ w.env.javaLuaThread) := not_not.mpr hst
    have hd : decide (w.env.javaLuaState ≠ 0 ∧ w.env.javaLuaState = w.L.self) = true :=
      decide_eq_true ⟨h0, hst.trans ht⟩
    unfold lua_1close
    simp only [bind_def, getLuaState, getL_def, getLuaThread, hd, hkn, hc1, hg, true_and,
      Bool.false_eq_true, if_false, setLuaState, setLuaThread, modifyEnv_def, Bool.not_true,
      getJavaState_ptr, modifyL_def, pure_def, DeleteWeakGlobalRef, if_true, lua_close_def]
    rfl

/-- A `close` that the native code does not refuse, on an open session. -/
theorem close_accepted (m : Bool) (w : World) (hopen : OpenSession w)
    (hacc : refuses w m = false) :
    ∃ w1, close m w = (.ret (), w1) ∧
      w1.env.javaLuaState = 0 ∧ w1.env.javaLuaThread = 0 ∧
      w1.env.pending = w.env.pending ∧ w1.env.heap = w.env.heap ∧
      releaseCount w1.env.log = releaseCount w.env.log + 1 := by
  have h := lua_1close_accepted m w hopen hacc
  obtain ⟨r1, r2, r3, r4, r5, -⟩ := releasedWorld_fields w
  obtain ⟨W1, hW1⟩ : ∃ W1 : World, W1 = (if m = true then (lua_close (releasedWorld w)).2
      else { releasedWorld w with L := setRegistryField JNLUA_RENV (push (.lightuserdata 0) (setRegistryField JNLUA_RJAVASTATE (push (.lightuserdata 0) w.L))) }) := ⟨_, rfl⟩
  rw [← hW1] at h
  have hN : NoRelease (releasedWorld w) W1 := by
    rw [hW1]
    cases m with
    | false => exact ⟨rfl, rfl, rfl, rfl, rfl⟩
    | true => exact noRelease_finalizers (wrappers (releasedWorld w).L) (releasedWorld w)
  obtain ⟨n1, n2, n3, n4, n5⟩ := hN
  have hz : W1.env.javaLuaState = 0 := n1.trans r1
  unfold close
  simp only [bind_def, getLuaState, hopen.1, if_false, h, hz, ne_eq, not_true_eq_false, pure_def]
  exact ⟨W1, rfl, hz, n2.trans r2, n3.trans r3, n4.trans r4, n5.trans r5⟩

theorem close_refused_open (w : World) (hopen : OpenSession w) (href : refuses w true = true) :
    ∃ w1, close true w = (.ret (), w1) ∧ OpenSession w1 ∧ w1.L = w.L ∧
      w1.env.javaLuaState = w.env.javaLuaState ∧ w1.env.javaLuaThread = w.env.javaLuaThread ∧
      releaseCount w1.env.log = releaseCount w.env.log := by
  have href2 : (decide (w.env.javaLuaState ≠ w.env.javaLuaThread) || lua_getstack w.L 0)
      = true := by
    simpa [refuses] using href
  have hbusy : w.env.javaLuaThread ≠ w.env.javaLuaState ∨
      (w.env.javaLuaState = w.L.self ∧ lua_getstack w.L 0 = true) := by
    by_cases hst : w.env.javaLuaState = w.env.javaLuaThread
    · refine Or.inr ⟨hst.trans hopen.2, ?_⟩
      rw [Bool.or_eq_true] at href2
      rcases href2 with h | h
      · exact absurd hst (by simpa using h)
      · exact h
    · exact Or.inl fun h => hst h.symm
  have h := lua_1close_refused w hopen.1 hbusy
  unfold close
  simp only [bind_def, getLuaState, hopen.1, if_false, h, ne_eq, not_false_eq_true, if_true,
    ThrowNew, modifyEnv_def]
  refine ⟨_, rfl, hopen, rfl, rfl, rfl, ?_⟩
  simp [releaseCount_append, releaseCount]

theorem closeAll_count (modes : List Bool) (w : World) (hopen : OpenSession w) :
    ∃ w1, closeAll modes w = (.ret (), w1) ∧
      releaseCount w1.env.log
        = releaseCount w.env.log + (if modes.all (refuses w) = true then 0 else 1) ∧
      (modes.all (refuses w) = false →
        w1.env.javaLuaState = 0 ∧ w1.env.javaLuaThread = 0) ∧
      (modes.all (refuses w) = true →
        w1.env.javaLuaState = w.env.javaLuaState ∧
        w1.env.javaLuaThread = w.env.javaLuaThread ∧ w1.L = w.L) := by
  induction modes generalizing w with
  | nil => exact ⟨w, rfl, by simp, by simp, fun _ => ⟨rfl, rfl, rfl⟩⟩
  | cons m r ih =>
    cases href : refuses w m with
    | true =>
      have hm : m = true := by
        cases m
        · simp [refuses] at href
        · rfl
      subst hm
      obtain ⟨w1, h1, ho1, hL, hs1, ht1, hc1⟩ := close_refused_open w hopen href
      have hr : refuses w1 = refuses w := by
        funext m2
        unfold refuses
        rw [hL, hs1, ht1]
      obtain ⟨w2, h2, hc2, ha2, hb2⟩ := ih w1 ho1
      rw [hr] at hc2 ha2 hb2
      refine ⟨w2, ?_, ?_, ?_, ?_⟩
      · unfold closeAll
        rw [bind_def, h1]
        exact h2
      · rw [hc2, hc1]
        simp [List.all_cons, href]
      · intro hall
        exact ha2 (by simpa [List.all_cons, href] using hall)
      · intro hall
        obtain ⟨x1, x2, x3⟩ := hb2 (by simpa [List.all_cons, href] using hall)
        exact ⟨x1.trans hs1, x2.trans ht1, x3.trans hL⟩
    | false =>
      obtain ⟨w1, h1, hs1, ht1, -, -, hc1⟩ := close_accepted m w hopen href
      refine ⟨w1, ?_, ?_, ?_, ?_⟩
      · unfold closeAll
        rw [bind_def, h1]
        exact closeAll_closed r w1 hs1
      · rw [hc1]
        simp [List.all_cons, href]
      · intro _
        exact ⟨hs1, ht1⟩
      · intro hall
        simp [List.all_cons, href] at hall

/-- C17: on an open session, whether its main state or one of its coroutines is the
current thread, whatever sequence of `close` calls is made and in whatever
ownership modes, the weak reference to the Java state is released exactly once if some
call is not refused (and not at all if every call is refused), and then the `luaState` and
`luaThread` fields are cleared; the first call that is not refused does both and raises
nothing, and every `close` on the closed session, in either mode, leaves the world exactly
as it was. -/
theorem close_releases_once (modes : List Bool) (w : World) (hopen : OpenSession w) :
    (∃ w1, closeAll modes w = (.ret (), w1) ∧
      releaseCount w1.env.log
        = releaseCount w.env.log + (if modes.all (refuses w) = true then 0 else 1) ∧
      (modes.all (refuses w) = false →
        w1.env.javaLuaState = 0 ∧ w1.env.javaLuaThread = 0) ∧
      (modes.all (refuses w) = true →
        w1.env.javaLuaState = w.env.javaLuaState ∧
        w1.env.javaLuaThread = w.env.javaLuaThread ∧ w1.L = w.L)) ∧
    (∀ m, refuses w m = false →
      ∃ w1, close m w = (.ret (), w1) ∧
        w1.env.javaLuaState = 0 ∧ w1.env.javaLuaThread = 0 ∧
        w1.env.pending = w.env.pending ∧
        releaseCount w1.env.log = releaseCount w.env.log + 1 ∧
        ∀ m2, close m2 w1 = (.ret (), w1)) := by
  refine ⟨closeAll_count modes w hopen, fun m hacc => ?_⟩
  obtain ⟨w1, h1, hs1, ht1, hp1, -, hc1⟩ := close_accepted m w hopen hacc
  exact ⟨w1, h1, hs1, ht1, hp1, hc1, fun m2 => close_closed m2 w1 hs1⟩

/-- Witness for C17: on `demoBusy` a close with ownership is refused, the close without
ownership that follows releases the weak reference, and a third close changes nothing; the
same happens on `demoInCoroutine`, where a coroutine is the current thread. -/
theorem close_releases_once_witness :
    OpenSession demoBusy ∧
      releaseCount (closeAll [true, false, true] demoBusy).2.env.log = 1 ∧
      (closeAll [true, false, true] demoBusy).2.env.javaLuaState = 0 ∧
      OpenSession demoInCoroutine ∧
      releaseCount (closeAll [true, false, true] demoInCoroutine).2.env.log = 1 ∧
      (closeAll [true, false, true] demoInCoroutine).2.env.javaLuaState = 0 := by
  have hopen : OpenSession demoBusy := ⟨by decide, rfl⟩
  have hopen2 : OpenSession demoInCoroutine := ⟨by decide, rfl⟩
  obtain ⟨⟨w1, h1, hc, hz, -⟩, -⟩ := close_releases_once [true, false, true] demoBusy hopen
  obtain ⟨⟨w2, h2, hc2, hz2, -⟩, -⟩ :=
    close_releases_once [true, false, true] demoInCoroutine hopen2
  rw [h1, h2]
  exact ⟨hopen, by rw [hc]; decide, (hz (by decide)).1, hopen2, by rw [hc2]; decide,
    (hz2 (by decide)).1⟩


/-- C18 (failing input): `lua_tojavafunction` on a valid index that holds a number returns
`NULL` by the `return` inside the region: no region is closed and `errorJmp` still points
to the buffer of the region, not to what it was on entry; on the path that returns a
callable the region is closed and `errorJmp` is restored. -/
theorem lua_1tojavafunction_leaves_region_open :
    validindex demoCaller.L 2 = true ∧
      (lua_1tojavafunction 1 2 demoCaller).1 = .ret .null ∧
      demoCaller.L.errorJmp = none ∧
      (lua_1tojavafunction 1 2 demoCaller).2.L.errorJmp = some demoCaller.csp ∧
      guardEvents (lua_1tojavafunction 1 2 demoCaller).2.env.log = [] ∧
      (lua_1tojavafunction 1 1 demoCall).1 = .ret (.glob 0 0) ∧
      (lua_1tojavafunction 1 1 demoCall).2.L.errorJmp = demoCall.L.errorJmp ∧
      guardEvents (lua_1tojavafunction 1 1 demoCall).2.env.log = [.closed 0 (some 0) none] := by
  decide

/-- With a null object `pushJavaObject` raises after it has pushed the new userdata and the
marker table. -/
theorem pushJavaObject_null (W : World) :
    pushJavaObject .null W
      = (.unwind { target := W.L.errorJmp, status := none },
          { L := luaL_getmetatable JNLUA_MOBJECT (lua_newuserdata W.L).2,
            env := { W.env with heap := W.env.heap ++ [{ cls := .nullPointerException, message := some "null" }], pending := some W.env.heap.length, log := W.env.log ++ [.ThrowNew .nullPointerException "null"] },
            csp := W.csp }) := by
  unfold pushJavaObject newGlobalRef checknotnull check throw
  simp only [bind_def, getL_def, setL_def, modifyL_def, ThrowNew, modifyEnv_def]
  rfl

/-- A region whose body raises a bridge exception (a `longjmp` without status to the
buffer of the region) lands, closes and returns with the exception pending. -/
theorem guarded_raised {α : Type} (env : Nat) (body : Nat → M α) (w w2 : World)
    (hroom : lua_checkstack w.L LUA_MINSTACK = true)
    (hb : body w.csp (entered env w) = (.unwind { target := some w.csp, status := none }, w2)) :
    guarded env body w = (.ret none,
      { L := { w2.L with errorJmp := w.L.errorJmp, nCcalls := w.L.nCcalls },
        env := { w2.env with log := w2.env.log ++ [.landed w.csp, .closed w.csp w2.L.errorJmp w.L.errorJmp] },
        csp := w.csp }) := by
  unfold guarded
  rw [JNLUA_TRY_eq env body w hroom, hb]
  simp only [if_true, JNLUA_END_eq, Option.getD_none, ne_eq, not_true_eq_false, if_false, pure_def,
    List.append_assoc, List.singleton_append]

/-- The null push in general: `lua_pushjavaobject` and `lua_pushjavafunction` called with a
null object raise exactly one failure, a `NullPointerException`, and close their region;
the values that were on the stack stay, but the two values pushed before the null check,
the new userdata and the marker table, remain on top of them. -/
theorem push_null_raises_once (env : Nat) (w : World)
    (hroom : lua_checkstack w.L LUA_MINSTACK = true) :
    ∃ w1, lua_1pushjavaobject env .null w = (.ret none, w1) ∧
      lua_1pushjavafunction env .null w = (.ret none, w1) ∧
      w1.L.stack
        = w.L.stack ++ [.userdata w.L.nextAddr, getfield JNLUA_MOBJECT w.L.registry] ∧
      w1.env.log = w.env.log
        ++ [.ThrowNew .nullPointerException "null", .landed w.csp, .closed w.csp (some w.csp) w.L.errorJmp] ∧
      w1.env.pending = some w.env.heap.length ∧
      w1.env.heap = w.env.heap ++ [{ cls := .nullPointerException, message := some "null" }] ∧
      w1.L.errorJmp = w.L.errorJmp ∧ w1.L.nCcalls = w.L.nCcalls := by
  have hb := pushJavaObject_null (entered env w)
  have hj : (entered env w).L.errorJmp = some w.csp := rfl
  rw [hj] at hb
  obtain ⟨X, hX⟩ : ∃ X : World, X = { L := luaL_getmetatable JNLUA_MOBJECT (lua_newuserdata (entered env w).L).2, env := { (entered env w).env with heap := (entered env w).env.heap ++ [{ cls := .nullPointerException, message := some "null" }], pending := some (entered env w).env.heap.length, log := (entered env w).env.log ++ [.ThrowNew .nullPointerException "null"] }, csp := (entered env w).csp } := ⟨_, rfl⟩
  rw [← hX] at hb
  have hb2 : pushjavafunctionBody .null (entered env w)
      = (.unwind { target := some w.csp, status := none }, X) := by
    unfold pushjavafunctionBody
    rw [bind_def, hb]
  rw [hX] at hb hb2
  refine ⟨_, guarded_raised env (fun _ => pushJavaObject .null) w _ hroom hb,
    guarded_raised env (fun _ => pushjavafunctionBody .null) w _ hroom hb2, ?_, ?_, rfl, rfl, rfl, rfl⟩
  · have hs := entered_stack env w
    have hm := entered_marker env w
    have hn : (entered env w).L.nextAddr = w.L.nextAddr := rfl
    simp only [luaL_getmetatable, lua_newuserdata, push, hs, hm, hn, List.append_assoc,
      List.singleton_append]
  · have he : (entered env w).env = w.env := rfl
    simp only [he, List.append_assoc, List.singleton_append]
    rfl

/-- C19 (defect): `lua_pushjavaobject` and `lua_pushjavafunction` called with the null
object on the empty stack of `demoSession`.  One `NullPointerException` is raised, but
`pushJavaObject` has pushed the new userdata and the marker table before `newGlobalRef`
checks the object: both are left on the stack, whose height is 2 and not 0 as before the
call. -/
theorem push_null_leaves_values :
    demoSession.L.stack = [] ∧
      (lua_1pushjavaobject 1 .null demoSession).1 = .ret none ∧
      (lua_1pushjavaobject 1 .null demoSession).2.env.pending = some 1 ∧
      (lua_1pushjavaobject 1 .null demoSession).2.env.heap.get? 1
        = some { cls := .nullPointerException, message := some "null" } ∧
      (lua_1pushjavaobject 1 .null demoSession).2.L.stack = [.userdata 1, .table 7] ∧
      (lua_1pushjavafunction 1 .null demoSession).2.L.stack = [.userdata 1, .table 7] := by
  decide

theorem session_Throw (r : jobject) : Always SameSession (Throw r) := by
  intro w
  unfold Throw
  have h := takeOracle_session w.env
  rcases ht : takeOracle w.env with ⟨b, e⟩
  rw [ht] at h
  cases r.target with
  | none => exact ⟨h.1, h.2.1, h.2.2, rfl⟩
  | some o => cases b <;> exact ⟨h.1, h.2.1, h.2.2, rfl⟩

theorem session_modifyObject (r : jobject) (f : JavaObject → JavaObject) :
    Always SameSession (modifyObject r f) := by
  refine session_modifyEnv _ fun e => ?_
  cases r.target with
  | none => exact ⟨rfl, rfl, rfl⟩
  | some o =>
    simp only
    cases e.heap.get? o <;> exact ⟨rfl, rfl, rfl⟩

theorem session_throwException (status : Int) : Always SameSession (throwException status) := by
  unfold throwException
  refine session_bind (session_modifyEnv _ fun _ => ⟨rfl, rfl, rfl⟩) fun _ => ?_
  refine session_bind (session_toString _) fun _ => ?_
  refine session_bind (session_NewObject _) fun throwable => ?_
  split
  · exact always_pure sameSession_refl _
  · refine session_bind (session_getJavaObject _ _) fun luaErrorObj => ?_
    have htail : Always SameSession (do
        let r ← Throw throwable
        if r < 0 then pure () else modifyL (lua_pop 1)) := by
      refine session_bind (session_Throw _) fun r => ?_
      split
      · exact always_pure sameSession_refl _
      · exact session_modifyL _ fun _ => rfl
    dsimp only
    split
    · exact session_bind (session_modifyObject _ _) fun _ => htail
    · exact session_bind (always_pure sameSession_refl _) fun _ => htail

theorem getJniEnv_entered (env : Nat) (w : World) :
    getJniEnv (entered env w) = (.ret env, entered env w) := by
  rw [getJniEnv_eq]
  have h : getfield JNLUA_RENV (entered env w).L.registry = .lightuserdata env := by
    simp only [entered, setRegistryField, lua_pop, push]
    rw [getfield_setfield_same]
    simp
  rw [h]

theorem region_exit_world {α : Type} (X : Outcome Unit × World) (r : Option α) :
    (match X with
      | (.ret _, w3) => ((.ret r : Outcome (Option α)), w3)
      | (.unwind u1, w3) => (.unwind u1, w3)).2 = X.2 := by
  rcases X with ⟨o, w⟩
  cases o <;> rfl

theorem JNLUA_END_registry (oldnCcalls addr : Nat) (lj : lua_longjmp) (w : World) :
    (JNLUA_END oldnCcalls addr lj w).2.L.registry = w.L.registry := by
  rw [JNLUA_END_eq]
  split
  · exact (session_throwException lj.status _).2.2.2
  · rfl

/-- The registry after a region is the registry the body started with, when the body leaves
the registry as it finds it. -/
theorem guarded_registry {α : Type} (env : Nat) (body : Nat → M α) (w : World)
    (hroom : lua_checkstack w.L LUA_MINSTACK = true)
    (hbody : ∀ W, (body w.csp W).2.L.registry = W.L.registry) :
    (guarded env body w).2.L.registry = (entered env w).L.registry := by
  unfold guarded
  rw [JNLUA_TRY_eq env body w hroom]
  have h2 := hbody (entered env w)
  rcases hb : body w.csp (entered env w) with ⟨o, w2⟩
  rw [hb] at h2
  cases o with
  | ret a =>
    simp only []
    rw [region_exit_world, JNLUA_END_registry]
    exact h2
  | unwind u =>
    simp only []
    split
    · rw [region_exit_world, JNLUA_END_registry]
      exact h2
    · exact h2

/-- The registry after a region is the registry its body left: `JNLUA_END` does not touch
it. -/
theorem guarded_registry_body {α : Type} (env : Nat) (body : Nat → M α) (w : World)
    (hroom : lua_checkstack w.L LUA_MINSTACK = true) :
    (guarded env body w).2.L.registry = (body w.csp (entered env w)).2.L.registry := by
  unfold guarded
  rw [JNLUA_TRY_eq env body w hroom]
  rcases hb : body w.csp (entered env w) with ⟨o, w2⟩
  cases o with
  | ret a =>
    simp only []
    rw [region_exit_world, JNLUA_END_registry]
  | unwind u =>
    simp only []
    split
    · rw [region_exit_world, JNLUA_END_registry]
    · rfl

/-- C20 (as amended): the execution context is bound when a guarded entry point opens its
region: the body starts in a world in which `getJniEnv` yields the context of the caller.
`JNLUA_END` does not unbind it: after the entry point returned, the registry is as the body
left it, so that `getJniEnv` still yields that context when the body left the registry as
it found it.  The region of the next guarded entry point binds the context of its own
caller before its body runs, whatever was bound before.  `lua_close()` opens no region and
binds nothing: with ownership it hands the state to the interpreter, whose finalizers run,
with the context entry as `lua_close()` found it. -/
theorem context_stays_bound {α : Type} (env : Nat) (body : Nat → M α) (w : World)
    (hroom : lua_checkstack w.L LUA_MINSTACK = true) :
    JNLUA_TRY env body w = body w.csp (entered env w) ∧
      getJniEnv (entered env w) = (.ret env, entered env w) ∧
      (guarded env body w).2.L.registry = (body w.csp (entered env w)).2.L.registry ∧
      ((body w.csp (entered env w)).2.L.registry = (entered env w).L.registry →
        (getJniEnv (guarded env body w).2).1 = .ret env) ∧
      (∀ env2, getJniEnv (entered env2 (guarded env body w).2)
        = (.ret env2, entered env2 (guarded env body w).2)) ∧
      (∀ W : World, OpenSession W → refuses W true = false →
        lua_1close true W = (.ret .returned, (lua_close (releasedWorld W)).2) ∧
        (releasedWorld W).L.registry = W.L.registry ∧
        (getJniEnv (releasedWorld W)).1 = (getJniEnv W).1) := by
  have hreg := guarded_registry_body env body w hroom
  refine ⟨JNLUA_TRY_eq env body w hroom, getJniEnv_entered env w, hreg, fun hbody => ?_,
    fun env2 => getJniEnv_entered env2 _, fun W hopen hacc => ?_⟩
  · have h := getJniEnv_entered env w
    rw [getJniEnv_eq] at h ⊢
    rw [hreg, hbody]
    exact congrArg Prod.fst h
  · have h := lua_1close_accepted true W hopen hacc
    rw [if_pos rfl] at h
    refine ⟨h, rfl, ?_⟩
    rw [getJniEnv_eq, getJniEnv_eq]
    rfl

/-- Witness for C20: after pushing a host object in `demoSession` with the context 1. -/
theorem context_stays_bound_witness :
    lua_checkstack demoSession.L LUA_MINSTACK = true ∧
      (getJniEnv (guarded 1 (fun _ => pushJavaObject (.loc 0)) demoSession).2).1 = .ret 1 := by
  obtain ⟨-, -, -, h, -⟩ := context_stays_bound 1 (fun _ => pushJavaObject (.loc 0)) demoSession
    (by decide)
  exact ⟨by decide, h ((session_pushJavaObject _ _).2.2.2)⟩

/-- Counterexample to C20 as stated: after `lua_pushjavaobject` returned, the execution
context stored in the state is still the context 1 of that call, not absent.  In the open
session `demoOpen`, where an earlier entry point left the context 1, `lua_close()` with
ownership runs the finalizer of the wrapper with that context: the wrapper's reference is
deleted through it. -/
theorem context_left_bound :
    (lua_1pushjavaobject 1 (.loc 0) demoSession).1 = .ret (some ()) ∧
      (getJniEnv (lua_1pushjavaobject 1 (.loc 0) demoSession).2).1 = .ret 1 ∧
      (getJniEnv demoSession).1 = .ret 0 ∧
      (getJniEnv demoOpen).1 = .ret 1 ∧
      (lua_1close true demoOpen).2.env.log
        = [.DeleteWeakGlobalRef 9, .DeleteGlobalRef (.glob 0 0)] := by
  decide


theorem validindex_iff (L : lua_State) (index : Int) (h32 : isInt32 index)
    (hmax : lua_gettop L ≤ LUAI_MAXSTACK) :
    validindex L index = true ↔
      (1 ≤ index ∧ index ≤ lua_gettop L) ∨ (-lua_gettop L ≤ index ∧ index ≤ -1) ∨
        index = LUA_REGISTRYINDEX := by
  have htop : 0 ≤ lua_gettop L := by unfold lua_gettop; omega
  obtain ⟨h1, h2⟩ := h32
  unfold INT_MIN at h1
  unfold INT_MAX at h2
  unfold LUAI_MAXSTACK at hmax
  unfold validindex
  simp only [LUA_REGISTRYINDEX, LUAI_MAXSTACK]
  by_cases hpos : index ≤ 0
  · simp only [hpos, if_true]
    by_cases hreg : index > -1000000 - 1000
    · have e1 : addInt (lua_gettop L) index = lua_gettop L + index :=
        wrap32_id _ (by unfold INT_MIN; omega) (by unfold INT_MAX; omega)
      have e2 : addInt (lua_gettop L + index) 1 = lua_gettop L + index + 1 :=
        wrap32_id _ (by unfold INT_MIN; omega) (by unfold INT_MAX; omega)
      simp only [hreg, if_true, e1, e2, decide_eq_true_eq]
      omega
    · simp only [hreg, if_false]
      by_cases heq : index = -1000000 - 1000
      · simp [heq]
      · simp only [heq, if_false]
        simp
        omega
  · simp only [hpos, if_false, decide_eq_true_eq]
    omega

theorem checkrealindex_iff (index : Int) (w : World) (h32 : isInt32 index)
    (hmax : lua_gettop w.L ≤ LUAI_MAXSTACK) :
    checkrealindex index w = (.ret (), w) ↔
      (1 ≤ index ∧ index ≤ lua_gettop w.L) ∨ (-lua_gettop w.L ≤ index ∧ index ≤ -1) := by
  have htop : 0 ≤ lua_gettop w.L := by unfold lua_gettop; omega
  obtain ⟨h1, h2⟩ := h32
  unfold INT_MIN at h1
  unfold INT_MAX at h2
  unfold LUAI_MAXSTACK at hmax
  unfold checkrealindex
  simp only [bind_def, getL_def]
  have key : ∀ c : Bool, (checkarg c "illegal index" w = (.ret (), w)) ↔ c = true := by
    intro c
    cases c
    · simp [checkarg, check, throw, bind_def, ThrowNew, modifyEnv_def]
    · simp [checkarg_true, pure_def]
  rw [key, decide_eq_true_eq]
  by_cases hpos : index ≤ 0
  · have e1 : addInt (lua_gettop w.L) index = lua_gettop w.L + index :=
      wrap32_id _ (by unfold INT_MIN; omega) (by unfold INT_MAX; omega)
    have e2 : addInt (lua_gettop w.L + index) 1 = lua_gettop w.L + index + 1 :=
      wrap32_id _ (by unfold INT_MIN; omega) (by unfold INT_MAX; omega)
    simp only [hpos, if_true, e1, e2]
    omega
  · simp only [hpos, if_false]
    omega

/-- C29: for a stack of height `top` (at most `LUAI_MAXSTACK`) and every 32-bit index,
`validindex` accepts the index exactly when `1 ≤ index ≤ top`, or `-top ≤ index ≤ -1`, or
the index is the registry pseudo-index; it rejects 0 and every upvalue pseudo-index; and
`checkrealindex` returns without raising exactly for the indexes `validindex` accepts other
than the registry pseudo-index. -/
theorem index_validity (w : World) (index : Int) (h32 : isInt32 index)
    (hmax : lua_gettop w.L ≤ LUAI_MAXSTACK) :
    (validindex w.L index = true ↔
      (1 ≤ index ∧ index ≤ lua_gettop w.L) ∨ (-lua_gettop w.L ≤ index ∧ index ≤ -1) ∨
        index = LUA_REGISTRYINDEX) ∧
    validindex w.L 0 = false ∧
    (∀ i : Int, 1 ≤ i → validindex w.L (lua_upvalueindex i) = false) ∧
    (checkrealindex index w = (.ret (), w) ↔
      validindex w.L index = true ∧ index ≠ LUA_REGISTRYINDEX) := by
  have htop : 0 ≤ lua_gettop w.L := by unfold lua_gettop; omega
  have hv := validindex_iff w.L index h32 hmax
  have h0 := validindex_iff w.L 0 (by decide) hmax
  refine ⟨hv, ?_, ?_, ?_⟩
  · cases h : validindex w.L 0
    · rfl
    · have := h0.mp h
      unfold LUA_REGISTRYINDEX LUAI_MAXSTACK at this
      omega
  · intro i hi
    unfold validindex lua_upvalueindex
    simp only [LUA_REGISTRYINDEX, LUAI_MAXSTACK]
    have h1 : -1000000 - 1000 - i ≤ 0 := by omega
    have h2 : ¬ (-1000000 - 1000 - i > -1000000 - 1000) := by omega
    have h3 : ¬ (-1000000 - 1000 - i = -1000000 - 1000) := by omega
    simp only [h1, h2, h3, if_true, if_false]
  · rw [checkrealindex_iff index w h32 hmax, hv]
    unfold LUA_REGISTRYINDEX LUAI_MAXSTACK at *
    constructor
    · intro h
      refine ⟨by omega, by omega⟩
    · rintro ⟨h, hne⟩
      omega

/-- Witness for C29: on the three-value stack of `demoCaller`, index -3 is accepted. -/
theorem index_validity_witness :
    isInt32 (-3) ∧ validindex demoCaller.L (-3) = true ∧
      checkrealindex (-3) demoCaller = (.ret (), demoCaller) := by
  obtain ⟨h1, -, -, h4⟩ := index_validity demoCaller (-3) (by decide) (by decide)
  have hv : validindex demoCaller.L (-3) = true := h1.mpr (Or.inr (Or.inl (by decide)))
  exact ⟨by decide, hv, h4.mpr ⟨hv, by decide⟩⟩


theorem xmoveToThread_fields (tid : Nat) (n : Int) (L : lua_State) :
    (xmoveToThread tid n L).errorJmp = L.errorJmp ∧
      (xmoveToThread tid n L).nCcalls = L.nCcalls := by
  unfold xmoveToThread
  split <;> exact ⟨rfl, rfl⟩

theorem lua_insert_fields (L : lua_State) (idx : Int) :
    (lua_insert L idx).errorJmp = L.errorJmp ∧ (lua_insert L idx).nCcalls = L.nCcalls ∧
      (lua_insert L idx).threads = L.threads ∧ (lua_insert L idx).self = L.self := by
  unfold lua_insert
  split <;> exact ⟨rfl, rfl, rfl, rfl⟩

theorem take_snoc_pair (s : List Value) (a b : Value) :
    (s ++ [a, b]).take (s.length + 1) = s ++ [a] := by
  have h : s ++ [a, b] = (s ++ [a]) ++ [b] := by simp
  rw [h, List.take_left' (by simp)]

theorem drop_snoc_pair (s : List Value) (a b : Value) :
    (s ++ [a, b]).drop (s.length + 1) = [b] := by
  have h : s ++ [a, b] = (s ++ [a]) ++ [b] := by simp
  rw [h, List.drop_left' (by simp)]

theorem newthreadBody_ok (W : World) (s : List Value) (f : Value)
    (hs : W.L.stack = s ++ [f]) (hf : typeOf f = LUA_TFUNCTION)
    (hmax : lua_gettop W.L ≤ LUAI_MAXSTACK) (hfresh : W.L.nextAddr ≠ W.L.self) :
    ∃ W1, newthreadBody W = (.ret (), W1) ∧ W1.L.stack = s ++ [.thread W.L.nextAddr] ∧
      threadStack W1.L W.L.nextAddr = [f] ∧ W1.env = W.env ∧ W1.csp = W.csp ∧
      W1.L.errorJmp = W.L.errorJmp ∧ W1.L.nCcalls = W.L.nCcalls := by
  have htop : lua_gettop W.L = s.length + 1 := by
    unfold lua_gettop; rw [hs]; simp
  have hvi : validindex W.L (-1) = true :=
    validindex_top W.L (by rw [htop]; omega) hmax
  have hct := checktype_ok (-1) LUA_TFUNCTION W f hvi (index2value_last W.L s f hs)
    (by decide) hf
  obtain ⟨L1, hL1⟩ : ∃ L1, L1 = push (.thread W.L.nextAddr) { W.L with threads := update W.L.nextAddr [] W.L.threads, nextAddr := W.L.nextAddr + 1 } := ⟨_, rfl⟩
  have habs : lua_absindex L1 (-2) = s.length + 1 := by
    rw [hL1]
    simp [lua_absindex, lua_gettop, push, hs]
  obtain ⟨L2, hL2⟩ : ∃ L2, L2 = lua_insert L1 (lua_absindex L1 (-2)) := ⟨_, rfl⟩
  have hL2s : L2.stack = s ++ [.thread W.L.nextAddr, f] := by
    rw [hL2, habs, hL1, lua_insert_push]
    simp [hs]
  have hL2t : L2.threads = update W.L.nextAddr [] W.L.threads := by
    rw [hL2, (lua_insert_fields _ _).2.2.1, hL1]
    rfl
  have hL2self : L2.self = W.L.self := by
    rw [hL2, (lua_insert_fields _ _).2.2.2, hL1]
    rfl
  have hne : ¬ (W.L.nextAddr = L2.self) := by rw [hL2self]; exact hfresh
  have hbody : newthreadBody W = (.ret (), { W with L := xmoveToThread W.L.nextAddr 1 L2 }) := by
    unfold newthreadBody
    simp only [bind_def, hct, getL_def, lua_newthread, setL_def, modifyL_def, hL2, hL1]
  have hts : threadStack L2 W.L.nextAddr = [] := by
    unfold threadStack
    simp only [hne, if_false, hL2t, lookup_update, Option.getD_some]
  refine ⟨_, hbody, ?_, ?_, rfl, rfl, ?_, ?_⟩
  · simp only [xmoveToThread, hne, if_false, hL2s]
    simpa using take_snoc_pair s (.thread W.L.nextAddr) f
  · have hself2 : (xmoveToThread W.L.nextAddr 1 L2).self = L2.self := by
      simp only [xmoveToThread, hne, if_false]
    unfold threadStack
    rw [hself2]
    simp only [hne, if_false]
    simp only [xmoveToThread, hne, if_false, lookup_update, Option.getD_some, hts, hL2s,
      List.nil_append]
    simp
  · rw [(xmoveToThread_fields _ _ _).1, hL2, (lua_insert_fields _ _).1, hL1]
    rfl
  · rw [(xmoveToThread_fields _ _ _).2, hL2, (lua_insert_fields _ _).2.1, hL1]
    rfl

theorem throw_bind {α β : Type} (cls : JClass) (msg : String) (f : α → M β) (W : World) :
    ((throw cls msg : M α) >>= f) W = (throw cls msg : M β) W := by
  simp only [throw, bind_def, ThrowNew, modifyEnv_def]

theorem checktype_bad_index {β : Type} (type : Int) (f : Unit → M β) (W : World)
    (hvi : validindex W.L (-1) = false) :
    (checktype (-1) type >>= f) W = (throw .illegalArgumentException "illegal index" : M β) W := by
  unfold checktype checkindex
  simp only [bind_def, getL_def, hvi, checkarg, check, Bool.not_false, if_true, throw, ThrowNew,
    modifyEnv_def]

theorem checktype_bad_type {β : Type} (type : Int) (f : Unit → M β) (W : World)
    (hvi : validindex W.L (-1) = true) (hty : lua_type W.L (-1) ≠ type) :
    (checktype (-1) type >>= f) W = (throw .illegalArgumentException "illegal type" : M β) W := by
  unfold checktype checkindex
  simp only [bind_def, getL_def, hvi, checkarg, check, Bool.not_true, Bool.false_eq_true, if_false,
    pure_def, hty, decide_False, Bool.not_false, if_true, throw, ThrowNew, modifyEnv_def]

/-- A failed argument check inside a region: one `IllegalArgumentException` is raised, the
region lands and closes, and the interpreter state is as the body found it. -/
theorem guarded_argument_error {α : Type} (env : Nat) (body : Nat → M α) (w : World)
    (msg : String) (hroom : lua_checkstack w.L LUA_MINSTACK = true)
    (hb : body w.csp (entered env w) = (throw .illegalArgumentException msg : M α) (entered env w)) :
    ∃ w1, guarded env body w = (.ret none, w1) ∧ w1.L.stack = w.L.stack ∧
      w1.L.threads = w.L.threads ∧ w1.L.nextAddr = w.L.nextAddr ∧
      w1.L.errorJmp = w.L.errorJmp ∧ w1.L.nCcalls = w.L.nCcalls ∧
      w1.env.log = w.env.log ++ [.ThrowNew .illegalArgumentException msg, .landed w.csp, .closed w.csp (some w.csp) w.L.errorJmp] ∧
      w1.env.pending = some w.env.heap.length ∧
      w1.env.heap = w.env.heap ++ [{ cls := .illegalArgumentException, message := some msg }] := by
  have hthrow : (throw .illegalArgumentException msg : M α) (entered env w)
      = (.unwind { target := some w.csp, status := none },
          { (entered env w) with env := { (entered env w).env with heap := (entered env w).env.heap ++ [{ cls := .illegalArgumentException, message := some msg }], pending := some (entered env w).env.heap.length, log := (entered env w).env.log ++ [.ThrowNew .illegalArgumentException msg] } }) := by
    simp only [throw, bind_def, ThrowNew, modifyEnv_def]
    rfl
  rw [hthrow] at hb
  refine ⟨_, guarded_raised env body w _ hroom hb, entered_stack env w, rfl, rfl, rfl, rfl, ?_,
    rfl, rfl⟩
  have he : (entered env w).env = w.env := rfl
  simp only [he, List.append_assoc, List.singleton_append]
  rfl

/-- C25: `lua_newthread` on a stack whose top value is a function leaves the stack with the
same height, the new thread in the place of the function and the values below unchanged,
and leaves the new thread holding exactly that function; when the stack is empty or its top
value is not a function it raises one `IllegalArgumentException`, creates no thread and
leaves the stack unchanged. -/
theorem lua_1newthread_captures (env : Nat) (w : World)
    (hroom : lua_checkstack w.L LUA_MINSTACK = true)
    (hmax : lua_gettop w.L ≤ LUAI_MAXSTACK) (hfresh : w.L.nextAddr ≠ w.L.self) :
    (∀ s f, w.L.stack = s ++ [f] → typeOf f = LUA_TFUNCTION →
      ∃ w1, lua_1newthread env w = (.ret (some ()), w1) ∧
        w1.L.stack = s ++ [.thread w.L.nextAddr] ∧
        w1.L.stack.length = w.L.stack.length ∧
        threadStack w1.L w.L.nextAddr = [f] ∧
        w1.env.pending = w.env.pending) ∧
    ((w.L.stack = [] ∨ ∃ s v, w.L.stack = s ++ [v] ∧ typeOf v ≠ LUA_TFUNCTION) →
      ∃ w1 msg, lua_1newthread env w = (.ret none, w1) ∧
        w1.L.stack = w.L.stack ∧ w1.L.threads = w.L.threads ∧
        w1.L.nextAddr = w.L.nextAddr ∧
        w1.env.log = w.env.log ++ [.ThrowNew .illegalArgumentException msg, .landed w.csp, .closed w.csp (some w.csp) w.L.errorJmp] ∧
        w1.env.pending = some w.env.heap.length ∧
        w1.env.heap = w.env.heap ++ [{ cls := .illegalArgumentException, message := some msg }]) := by
  have hes := entered_stack env w
  have hetop : lua_gettop (entered env w).L = lua_gettop w.L := by
    unfold lua_gettop; rw [hes]
  constructor
  · intro s f hs hf
    obtain ⟨W1, hb, hst, hts, henv, hcsp, -, -⟩ := newthreadBody_ok (entered env w) s f
      (hes.trans hs) hf (by rw [hetop]; exact hmax) hfresh
    refine ⟨_, guarded_ok env (fun _ => newthreadBody) w W1 () hroom hb, hst, ?_, hts, ?_⟩
    · show W1.L.stack.length = _
      rw [hst, hs]; simp
    · show W1.env.pending = _
      rw [henv]; rfl
  · intro hbad
    have hbody : ∃ msg, newthreadBody (entered env w)
        = (throw .illegalArgumentException msg : M Unit) (entered env w) := by
      rcases hbad with h0 | ⟨s, v, hs, hv⟩
      · have hvi : validindex (entered env w).L (-1) = false := by
          cases h : validindex (entered env w).L (-1)
          · rfl
          · have := (validindex_iff _ (-1) (by decide) (by rw [hetop]; exact hmax)).mp h
            rw [hetop] at this
            unfold lua_gettop LUA_REGISTRYINDEX LUAI_MAXSTACK at this
            rw [h0] at this
            simp at this
        exact ⟨"illegal index", checktype_bad_index _ _ _ hvi⟩
      · have htop : lua_gettop (entered env w).L = s.length + 1 := by
          rw [hetop]; unfold lua_gettop; rw [hs]; simp
        have hvi : validindex (entered env w).L (-1) = true :=
          validindex_top _ (by rw [htop]; omega) (by rw [hetop]; exact hmax)
        have hty : lua_type (entered env w).L (-1) ≠ LUA_TFUNCTION := by
          unfold lua_type
          rw [index2value_last _ s v (hes.trans hs)]
          simpa [LUA_REGISTRYINDEX, LUAI_MAXSTACK] using hv
        exact ⟨"illegal type", checktype_bad_type _ _ _ hvi hty⟩
    obtain ⟨msg, hb⟩ := hbody
    obtain ⟨w1, h1, h2, h3, h4, -, -, h5, h6, h7⟩ :=
      guarded_argument_error env (fun _ => newthreadBody) w msg hroom hb
    exact ⟨w1, msg, h1, h2, h3, h4, h5, h6, h7⟩

/-- Witness for C25: the function on top of the stack of `demoFunction` becomes the only
value of the new thread 6. -/
theorem lua_1newthread_captures_witness :
    lua_checkstack demoFunction.L LUA_MINSTACK = true ∧
      (lua_1newthread 1 demoFunction).2.L.stack = [.number 1, .thread 6] ∧
      threadStack (lua_1newthread 1 demoFunction).2.L 6 = [.lclosure 3] := by
  obtain ⟨h, -⟩ := lua_1newthread_captures 1 demoFunction (by decide) (by decide) (by decide)
  obtain ⟨w1, h1, h2, -, h3, -⟩ := h [.number 1] (.lclosure 3) rfl rfl
  rw [h1]
  exact ⟨by decide, h2, h3⟩


/-- C27 (failing input): a thread resumed with two arguments fails with the message "boom",
which is left on top of the thread's stack; `lua_resume()` then reads and pops the top of
the caller's stack instead: the exception carries the text of the thread value, the thread
value is removed from the caller's stack, and "boom" stays on the thread. -/
theorem lua_1resume_error_reads_caller_stack :
    (lua_1resume (runThreadFails "boom") 1 1 2 demoCaller).2.L.stack = [] ∧
      (threadStack (lua_1resume (runThreadFails "boom") 1 1 2 demoCaller).2.L 5).getLast?
        = some (.string "boom") ∧
      (lua_1resume (runThreadFails "boom") 1 1 2 demoCaller).2.env.pending = some 0 ∧
      (lua_1resume (runThreadFails "boom") 1 1 2 demoCaller).2.env.heap.map (fun o => o.message)
        = [some (tolstring (.thread 5))] := by
  decide

/-- C30 (failing input): after `callJavaFunction` acted on a yield the yield flag is still
set; a host callable that resumed the yielding thread and then returns without asking for a
yield is therefore treated as yielding, while the same return with the flag clear is a
return. -/
theorem yield_flag_stays_set :
    (callJavaFunction (hostYields 0) demoThreadCall).1
        = .unwind { target := none, status := some LUA_YIELD } ∧
      (callJavaFunction (hostYields 0) demoThreadCall).2.env.javaYield = true ∧
      (hostResumesThenReturns (invocationWorld demoNested) 0).1 = 0 ∧
      (callJavaFunction hostResumesThenReturns demoNested).1
        = .unwind { target := none, status := some LUA_YIELD } ∧
      (callJavaFunction (hostReturns 0) demoNested).1 = .ret 0 := by
  decide


theorem set_after_prefix (pre : List (Option TraceElement)) (k : Nat) (e : TraceElement) :
    (pre ++ List.replicate (k + 1) none).set pre.length (some e)
      = (pre ++ [some e]) ++ List.replicate k none := by
  induction pre with
  | nil => simp [List.replicate_succ]
  | cons a r ih => simpa using ih

/-- The second loop of `handleError`: either it ends early, or the array holds exactly the
trace of the frames after the elements stored before. -/
theorem fillTrace_result (frames : List lua_Debug) (pre : List TraceElement) (W : World) :
    ∃ W1, fillTrace frames pre.length
        (pre.map some ++ List.replicate (traceOf frames).length none) W = (.ret none, W1) ∨
      fillTrace frames pre.length
        (pre.map some ++ List.replicate (traceOf frames).length none) W
          = (.ret (some ((pre ++ traceOf frames).map some)), W1) := by
  induction frames generalizing pre W with
  | nil => exact ⟨W, Or.inr (by simp [fillTrace, traceOf, pure_def])⟩
  | cons ar rest ih =>
    unfold fillTrace
    by_cases hrel : (processActivationRecord ar).1 = true
    · have ht : traceOf (ar :: rest) = { functionName := (processActivationRecord ar).2.name, sourceName := (processActivationRecord ar).2.source, line := (processActivationRecord ar).2.currentline } :: traceOf rest := by
        simp [traceOf, List.filter_cons, hrel]
      simp only [hrel, if_true, bind_def, NewTraceElement, getEnv_def, ht, List.length_cons]
      rcases takeOracle W.env with ⟨b, e⟩
      cases b
      · exact ⟨_, Or.inl rfl⟩
      · simp only [bind_def, getEnv_def]
        by_cases hp : e.pending.isSome = true
        · rw [if_pos hp]
          exact ⟨_, Or.inl rfl⟩
        · rw [if_neg hp]
          have hset := set_after_prefix (pre.map some) (traceOf rest).length
            { functionName := (processActivationRecord ar).2.name, sourceName := (processActivationRecord ar).2.source, line := (processActivationRecord ar).2.currentline }
          rw [List.length_map] at hset
          rw [hset]
          have := ih (pre ++ [{ functionName := (processActivationRecord ar).2.name, sourceName := (processActivationRecord ar).2.source, line := (processActivationRecord ar).2.currentline }]) { L := W.L, env := e, csp := W.csp }
          simpa using this
    · have ht : traceOf (ar :: rest) = traceOf rest := by
        simp [traceOf, List.filter_cons, hrel]
      simp only [hrel, Bool.false_eq_true, if_false, ht]
      exact ih pre W

theorem processActivationRecord_name (ar : lua_Debug) :
    (processActivationRecord ar).2.name = if ar.name = some "" then none else ar.name := by
  unfold processActivationRecord
  by_cases h1 : ar.name = some ""
  · by_cases h2 : ar.what = some "C"
    · simp [h1, h2]
    · simp only [h1, h2, if_true, if_false]
      cases hs : ar.source with
      | none => rfl
      | some src =>
        simp only []
        rcases hd : src.data with _ | ⟨c, rest⟩
        · rfl
        · simp only []
          split <;> rfl
  · by_cases h2 : ar.what = some "C"
    · simp [h1, h2]
    · simp only [h1, h2, if_false]
      cases hs : ar.source with
      | none => rfl
      | some src =>
        simp only []
        rcases hd : src.data with _ | ⟨c, rest⟩
        · rfl
        · simp only []
          split <;> rfl

theorem processActivationRecord_source (ar : lua_Debug) :
    (processActivationRecord ar).2.source.isSome
      = (decide (ar.what ≠ some "C") && ar.source.isSome) := by
  unfold processActivationRecord
  by_cases h1 : ar.name = some ""
  · by_cases h2 : ar.what = some "C"
    · simp [h1, h2]
    · simp only [h1, h2, if_true, if_false]
      cases hs : ar.source with
      | none => simp
      | some src =>
        simp only []
        rcases hd : src.data with _ | ⟨c, rest⟩
        · simp [hs, h2]
        · simp only []
          split <;> simp [hs, h2]
  · by_cases h2 : ar.what = some "C"
    · simp [h1, h2]
    · simp only [h1, h2, if_false]
      cases hs : ar.source with
      | none => simp [hs]
      | some src =>
        simp only []
        rcases hd : src.data with _ | ⟨c, rest⟩
        · simp [hs, h2]
        · simp only []
          split <;> simp [hs, h2]

theorem processActivationRecord_relevant (ar : lua_Debug) :
    (processActivationRecord ar).1
      = ((processActivationRecord ar).2.name.isSome || (processActivationRecord ar).2.source.isSome) := by
  unfold processActivationRecord
  rfl

theorem fillTrace_complete (frames : List lua_Debug) (W : World) (ho : W.env.oracle = [])
    (hp : W.env.pending = none) :
    fillTrace frames 0 (List.replicate (traceOf frames).length none) W
      = (.ret (some ((traceOf frames).map some)), W) := by
  obtain ⟨array1, h1⟩ := fillTrace_ok frames 0 (List.replicate (traceOf frames).length none) W ho hp
  obtain ⟨W1, h2 | h2⟩ := fillTrace_result frames [] W
  · simp only [List.length_nil, List.map_nil, List.nil_append] at h2
    rw [h1] at h2
    cases h2
  · simp only [List.length_nil, List.map_nil, List.nil_append] at h2
    rw [h1] at h2 ⊢
    cases h2
    rfl

theorem unwrap_instance (L : lua_State) (env : JNIEnv) (idx : Int) (c : JClass)
    (h : unwrap L env idx (some c) ≠ .null) :
    IsInstanceOf env (unwrap L env idx (some c)) c = true := by
  by_cases h1 : lua_isuserdata L idx = true
  · cases h2 : (index2value L idx).bind (metatableOf L) with
    | none => simp [unwrap, h1, h2] at h
    | some t =>
      by_cases h3 : getfield JNLUA_MOBJECT L.registry = .table t
      · by_cases h4 : IsInstanceOf env (derefObject L (lua_touserdata L idx)) c = true
        · simp only [unwrap, h1, h2, h3, h4, if_true]
        · simp [unwrap, h1, h2, h3, h4] at h
      · simp [unwrap, h1, h2, h3] at h
  · simp [unwrap, h1] at h

theorem traceOf_length (frames : List lua_Debug) :
    (traceOf frames).length
      = (frames.filter fun ar => (processActivationRecord ar).1).length := by
  simp [traceOf]

/-- When the trace array cannot be created `handleError` returns at once. -/
theorem handleError_no_array (H : World) (hf : (takeOracle H.env).1 = false) :
    handleError H = (.ret 1, { H with env := (takeOracle H.env).2 }) := by
  unfold handleError
  simp only [bind_def, getJniEnv_eq, getL_def, NewObjectArray]
  rcases h : takeOracle H.env with ⟨b, e⟩
  rw [h] at hf
  simp only at hf
  subst hf
  rfl

/-- When JNI does not fail `handleError` attaches the trace of the frames from level 1 on
to the error record (the one the error value wraps, or a new one) and pushes its wrapper. -/
theorem handleError_attaches (H : World) (t : Nat)
    (ho : H.env.oracle = []) (hp : H.env.pending = none)
    (hm : getfield JNLUA_MOBJECT H.L.registry = .table t) :
    ∃ H2 le record, handleError H = (.ret 1, H2) ∧
      H2.L.stack = H.L.stack ++ [.userdata H.L.nextAddr] ∧
      lookup H.L.nextAddr H2.L.udata
        = some { payload := .glob H.env.nextRef le, metatable := some t } ∧
      H2.env.heap.get? le = some record ∧ record.cls = .luaError ∧
      record.luaStackTrace = some ((traceOf (H.L.callStack.drop 1)).map some) := by
  have hfill := fillTrace_complete (H.L.callStack.drop 1) H ho hp
  have key : ∀ (obj : jobject) (o : Nat) (h : List JavaObject), obj.target = some o →
      pushJavaObject obj { L := H.L, env := { H.env with heap := h }, csp := H.csp }
        = (.ret (), { L := { H.L with stack := H.L.stack ++ [.userdata H.L.nextAddr], udata := update H.L.nextAddr { payload := .glob H.env.nextRef o, metatable := some t } H.L.udata, nextAddr := H.L.nextAddr + 1 }, env := { H.env with heap := h, globals := H.env.nextRef :: H.env.globals, nextRef := H.env.nextRef + 1, log := H.env.log ++ [.NewGlobalRef H.env.nextRef o] }, csp := H.csp }) :=
    fun obj o h h1 => pushJavaObject_ok_nil obj o t { L := H.L, env := { H.env with heap := h }, csp := H.csp } hm h1 ho
  rw [traceOf_length] at hfill
  unfold handleError
  simp only [bind_def, getJniEnv_eq, getL_def, NewObjectArray, takeOracle_nil _ ho, hfill,
    getJavaObject_eq]
  by_cases hnull : unwrap H.L H.env (-1) (some .luaError) = .null
  · simp only [hnull, if_true, bind_def, toString_eq, NewObject, takeOracle_nil _ ho, pure_def,
      reduceCtorEq, if_false, modifyObject, modifyEnv_def, jobject.target]
    have hget : (H.env.heap ++ [({ cls := .luaError, message := some (tolstring ((index2value H.L (-1)).getD .nil)) } : JavaObject)]).get? H.env.heap.length = some { cls := .luaError, message := some (tolstring ((index2value H.L (-1)).getD .nil)) } := by
      simp
    simp only [hget]
    rw [key (.loc H.env.heap.length) H.env.heap.length _ rfl]
    refine ⟨_, H.env.heap.length, { cls := .luaError, message := some (tolstring ((index2value H.L (-1)).getD .nil)), luaStackTrace := some ((traceOf (H.L.callStack.drop 1)).map some) }, rfl, rfl, lookup_update _ _ _, ?_, rfl, rfl⟩
    show (List.set _ _ _).get? _ = _
    simp
  · have hinst := unwrap_instance H.L H.env (-1) .luaError hnull
    obtain ⟨found, hfound⟩ : ∃ found, found = unwrap H.L H.env (-1) (some .luaError) := ⟨_, rfl⟩
    rw [← hfound] at hinst hnull ⊢
    obtain ⟨le, hle⟩ : ∃ le, found.target = some le := by
      cases found with
      | null => exact absurd rfl hnull
      | loc o => exact ⟨o, rfl⟩
      | glob i o => exact ⟨o, rfl⟩
      | weak i o => exact ⟨o, rfl⟩
    obtain ⟨record, hrec, hcls⟩ : ∃ record, H.env.heap.get? le = some record ∧ record.cls = .luaError := by
      unfold IsInstanceOf at hinst
      rw [hle] at hinst
      simp only at hinst
      cases hg : H.env.heap.get? le with
      | none => rw [hg] at hinst; cases hinst
      | some r =>
        rw [hg] at hinst
        exact ⟨r, rfl, by simpa using hinst⟩
    simp only [hnull, if_false, pure_def, modifyObject, modifyEnv_def, hle, hrec, bind_def]
    rw [key found le _ hle]
    have hlt : le < H.env.heap.length := by
      by_contra hge
      have := List.get?_eq_none.mpr (not_lt.mp hge)
      rw [this] at hrec
      cases hrec
    refine ⟨_, le, { record with luaStackTrace := some ((traceOf (H.L.callStack.drop 1)).map some) }, rfl, rfl, lookup_update _ _ _, ?_, hcls, rfl⟩
    show (List.set _ _ _).get? _ = _
    simp [List.getElem?_set_eq, hlt]

theorem processActivationRecord_spec (ar : lua_Debug) :
    (processActivationRecord ar).2.name = specFunctionName ar ∧
      (processActivationRecord ar).2.source = specSourceName ar ∧
      (processActivationRecord ar).2.currentline = ar.currentline ∧
      (processActivationRecord ar).1
        = ((specFunctionName ar).isSome || (specSourceName ar).isSome) := by
  have hstrip : ∀ (ar2 : lua_Debug) (src : String), ar2.source = some src →
      (match src.data with
        | c :: rest =>
          if c = '=' ∨ c = '@' then { ar2 with source := some (String.mk rest) } else ar2
        | [] => ar2).source = some (stripLeadingMarker src) ∧
      (match src.data with
        | c :: rest =>
          if c = '=' ∨ c = '@' then { ar2 with source := some (String.mk rest) } else ar2
        | [] => ar2).name = ar2.name ∧
      (match src.data with
        | c :: rest =>
          if c = '=' ∨ c = '@' then { ar2 with source := some (String.mk rest) } else ar2
        | [] => ar2).currentline = ar2.currentline := by
    intro ar2 src hsrc
    unfold stripLeadingMarker
    rcases hd : src.data with _ | ⟨c, rest⟩
    · refine ⟨?_, ?_, ?_⟩ <;> first | exact hsrc | rfl
    · simp only []
      by_cases h1 : c = '='
      · subst h1
        simp
      · by_cases h2 : c = '@'
        · subst h2
          simp
        · simp only [h1, h2, or_self, if_false]
          refine ⟨?_, ?_, ?_⟩
          · rw [hsrc]
            congr 1
            split
            · rename_i heq
              simp only [List.cons.injEq] at heq
              exact absurd heq.1 h1
            · rename_i heq
              simp only [List.cons.injEq] at heq
              exact absurd heq.1 h2
            · rfl
          · first | rfl | trivial
          · first | rfl | trivial
  have hname : ∀ ar0 : lua_Debug,
      (if ar0.name = some "" then ({ ar0 with name := none } : lua_Debug) else ar0).name
        = specFunctionName ar0 := by
    intro ar0
    unfold specFunctionName
    cases hn : ar0.name with
    | none => simp [hn]
    | some n =>
      by_cases he : n = ""
      · simp [hn, he]
      · simp [hn, he]
  have key : (processActivationRecord ar).2.name = specFunctionName ar ∧
      (processActivationRecord ar).2.source = specSourceName ar ∧
      (processActivationRecord ar).2.currentline = ar.currentline := by
    obtain ⟨ar1, har1⟩ : ∃ ar1 : lua_Debug,
        ar1 = (if ar.name = some "" then ({ ar with name := none } : lua_Debug) else ar) :=
      ⟨_, rfl⟩
    have h1n : ar1.name = specFunctionName ar := by rw [har1]; exact hname ar
    have h1w : ar1.what = ar.what := by rw [har1]; split <;> rfl
    have h1s : ar1.source = ar.source := by rw [har1]; split <;> rfl
    have h1l : ar1.currentline = ar.currentline := by rw [har1]; split <;> rfl
    unfold processActivationRecord specSourceName
    simp only [← har1]
    by_cases hc : ar.what = some "C"
    · have hc1 : ar1.what = some "C" := h1w.trans hc
      simp only [hc1, hc, if_true]
      refine ⟨h1n, ?_, h1l⟩
      first | rfl | trivial
    · have hc1 : ¬ ar1.what = some "C" := by rw [h1w]; exact hc
      simp only [hc1, hc, if_false]
      cases hs : ar1.source with
      | none =>
        simp only []
        rw [← h1s, hs]
        exact ⟨h1n, rfl, h1l⟩
      | some src =>
        simp only []
        obtain ⟨g1, g2, g3⟩ := hstrip ar1 src hs
        rw [← h1s, hs]
        exact ⟨g2.trans h1n, g1, g3.trans h1l⟩
  refine ⟨key.1, key.2.1, key.2.2, ?_⟩
  rw [processActivationRecord_relevant, key.1, key.2.1]

theorem traceOf_eq_specTrace (frames : List lua_Debug) : traceOf frames = specTrace frames := by
  unfold traceOf specTrace
  induction frames with
  | nil => rfl
  | cons ar rest ih =>
    obtain ⟨h1, h2, h3, h4⟩ := processActivationRecord_spec ar
    rw [List.filterMap_cons, List.filter_cons]
    by_cases hr : (processActivationRecord ar).1 = true
    · have hr2 : ((specFunctionName ar).isSome || (specSourceName ar).isSome) = true := by
        rw [← h4]; exact hr
      simp only [hr, hr2, if_true, List.map_cons, h1, h2, h3]
      rw [ih]
    · have hr2 : ¬ ((specFunctionName ar).isSome || (specSourceName ar).isSome) = true := by
        rw [← h4]; exact hr
      simp only [hr, hr2, if_false]
      exact ih

/-- C26: the message handler runs with the execution context bound.  When JNI does not fail,
the stack trace `handleError` attaches to the error record is the trace the specification
describes, `specTrace`, of the activation records from level 1 on: in order from the
innermost level, one element for each record that has a function name or a source name
after normalisation (an empty name counts as absent, the source of a C function counts as
absent, one leading `=` or `@` is stripped from a source), holding the two normalised names
and the current line; records with neither are omitted, and every slot of the array holds
an element.  The filling loop never yields any other array.  When the trace array cannot be
created the handler returns with the error value, the stack and the host heap as they
were. -/
theorem handleError_trace (H : World) (e : Nat)
    (hctx : getfield JNLUA_RENV H.L.registry = .lightuserdata e) (he : e ≠ 0) :
    (∃ e1, (getJniEnv H).1 = .ret e1 ∧ e1 ≠ 0) ∧
    (∀ t, H.env.oracle = [] → H.env.pending = none →
      getfield JNLUA_MOBJECT H.L.registry = .table t →
      ∃ H2 le record array, handleError H = (.ret 1, H2) ∧
        H2.L.stack = H.L.stack ++ [.userdata H.L.nextAddr] ∧
        lookup H.L.nextAddr H2.L.udata
          = some { payload := .glob H.env.nextRef le, metatable := some t } ∧
        H2.env.heap.get? le = some record ∧ record.cls = .luaError ∧
        record.luaStackTrace = some array ∧
        array = (specTrace (H.L.callStack.drop 1)).map some ∧
        array.length = (specTrace (H.L.callStack.drop 1)).length) ∧
    (∀ W, ∃ W1,
      fillTrace (H.L.callStack.drop 1) 0
          (List.replicate (specTrace (H.L.callStack.drop 1)).length none) W = (.ret none, W1) ∨
      fillTrace (H.L.callStack.drop 1) 0
          (List.replicate (specTrace (H.L.callStack.drop 1)).length none) W
        = (.ret (some ((specTrace (H.L.callStack.drop 1)).map some)), W1)) ∧
    ((takeOracle H.env).1 = false →
      handleError H = (.ret 1, { H with env := (takeOracle H.env).2 }) ∧
      (takeOracle H.env).2.heap = H.env.heap ∧ (takeOracle H.env).2.pending = H.env.pending) := by
  refine ⟨⟨e, ?_, he⟩, fun t ho hp hm => ?_, fun W => ?_, fun hf => ⟨handleError_no_array H hf, ?_⟩⟩
  · rw [getJniEnv_eq, hctx]
  · obtain ⟨H2, le, record, h1, h2, h3, h4, h5, h6⟩ := handleError_attaches H t ho hp hm
    rw [traceOf_eq_specTrace] at h6
    exact ⟨H2, le, record, _, h1, h2, h3, h4, h5, h6, rfl, by simp⟩
  · rw [← traceOf_eq_specTrace]
    simpa using fillTrace_result (H.L.callStack.drop 1) [] W
  · obtain ⟨b, r, h⟩ := takeOracle_eq H.env
    rw [h]
    exact ⟨rfl, rfl⟩

/-- Witness for C26: in `demoHandler` the frame at level 1 has an empty name and is a C
function, so it is omitted; the frame at level 2 gives the element `f`, `chunk`, 3: the
leading `@` of its source is stripped. -/
theorem handleError_trace_witness :
    demoHandler.env.oracle = [] ∧
      ∃ H2 le record, handleError demoHandler = (.ret 1, H2) ∧
        H2.env.heap.get? le = some record ∧
        record.luaStackTrace
          = some [some { functionName := some "f", sourceName := some "chunk", line := 3 }] := by
  obtain ⟨-, h, -⟩ := handleError_trace demoHandler 1 rfl (by decide)
  obtain ⟨H2, le, record, array, h1, -, -, h2, -, h3, h4, -⟩ := h 7 rfl rfl (by decide)
  refine ⟨rfl, H2, le, record, h1, h2, ?_⟩
  rw [h3, h4]
  decide


theorem rawget_rawset_same (T : List (Int × Value)) (k : Int) (v : Value) :
    rawget (rawset T k v) k = v := by
  induction T with
  | nil => simp [rawset, rawget]
  | cons p r ih =>
    obtain ⟨k1, v1⟩ := p
    by_cases h : k1 = k
    · simp [rawset, rawget, h]
    · simp [rawset, rawget, h, ih]

theorem rawget_rawset_ne (T : List (Int × Value)) (k k2 : Int) (v : Value) (hne : k2 ≠ k) :
    rawget (rawset T k v) k2 = rawget T k2 := by
  induction T with
  | nil => simp [rawset, rawget, hne.symm]
  | cons p r ih =>
    obtain ⟨k1, v1⟩ := p
    by_cases h : k1 = k
    · subst h
      simp [rawset, rawget, hne.symm]
    · by_cases h2 : k1 = k2
      · subst h2
        simp [rawset, rawget, hne]
      · simp [rawset, rawget, h, h2, ih]

theorem entriesDown_spec (src dst : Int) (n : Nat) (T : List (Int × Value))
    (hlt : src < dst)
    (hs : ∀ i : Nat, i < n → addInt src i = src + i)
    (hd : ∀ i : Nat, i < n → addInt dst i = dst + i) :
    (∀ i : Nat, i < n → rawget (entriesDown src dst n T) (dst + i) = rawget T (src + i)) ∧
    (∀ k : Int, (k < dst ∨ dst + n ≤ k) → rawget (entriesDown src dst n T) k = rawget T k) := by
  induction n generalizing T with
  | zero => exact ⟨fun i hi => absurd hi (Nat.not_lt_zero i), fun k _ => rfl⟩
  | succ n ih =>
    have hs1 := hs n (Nat.lt_succ_self n)
    have hd1 := hd n (Nat.lt_succ_self n)
    obtain ⟨ih1, ih2⟩ := ih (rawset T (addInt dst n) (rawget T (addInt src n)))
      (fun i hi => hs i (Nat.lt_succ_of_lt hi)) (fun i hi => hd i (Nat.lt_succ_of_lt hi))
    unfold entriesDown
    rw [hs1, hd1] at ih1 ih2 ⊢
    constructor
    · intro i hi
      by_cases hin : i < n
      · rw [ih1 i hin, rawget_rawset_ne _ _ _ _ (by omega)]
      · have : i = n := by omega
        subst this
        rw [ih2 _ (Or.inr (by omega)), rawget_rawset_same]
    · intro k hk
      rw [ih2 k (by omega), rawget_rawset_ne _ _ _ _ (by push_cast at hk; omega)]

theorem entriesUp_spec (src dst : Int) (i n : Nat) (T : List (Int × Value))
    (hgt : src > dst)
    (hs : ∀ j : Nat, j < i + n → addInt src j = src + j)
    (hd : ∀ j : Nat, j < i + n → addInt dst j = dst + j) :
    (∀ j : Nat, i ≤ j → j < i + n →
      rawget (entriesUp src dst i n T) (dst + j) = rawget T (src + j)) ∧
    (∀ k : Int, (k < dst + i ∨ dst + i + n ≤ k) →
      rawget (entriesUp src dst i n T) k = rawget T k) := by
  induction n generalizing i T with
  | zero => exact ⟨fun j h1 h2 => by omega, fun k _ => rfl⟩
  | succ n ih =>
    have hs1 := hs i (by omega)
    have hd1 := hd i (by omega)
    obtain ⟨ih1, ih2⟩ := ih (i + 1) (rawset T (addInt dst i) (rawget T (addInt src i)))
      (fun j hj => hs j (by omega)) (fun j hj => hd j (by omega))
    unfold entriesUp
    rw [hs1, hd1] at ih1 ih2 ⊢
    constructor
    · intro j h1 h2
      by_cases hji : j = i
      · subst hji
        rw [ih2 _ (Or.inl (by push_cast; omega)), rawget_rawset_same]
      · rw [ih1 j (by omega) (by omega), rawget_rawset_ne _ _ _ _ (by omega)]
    · intro k hk
      rw [ih2 k (by push_cast at hk ⊢; omega), rawget_rawset_ne _ _ _ _ (by push_cast at hk; omega)]

theorem lookup_update_ne {β : Type} (k k2 : Nat) (v : β) (l : List (Nat × β)) (hne : k2 ≠ k) :
    lookup k2 (update k v l) = lookup k2 l := by
  induction l with
  | nil => simp [update, lookup, hne.symm]
  | cons p r ih =>
    obtain ⟨k1, v1⟩ := p
    by_cases h : k1 = k
    · subst h
      simp [update, lookup, hne.symm]
    · by_cases h2 : k1 = k2
      · subst h2
        simp [update, lookup, h]
      · simp [update, lookup, h, h2, ih]

theorem tablemove_step (L : lua_State) (s : List Value) (a : Nat) (k1 k2 : Int)
    (hs : L.stack = s ++ [.table a]) :
    lua_rawseti (lua_rawgeti L (-1) k1) (-2) k2
      = { L with tables := update a (rawset ((lookup a L.tables).getD []) k2
            (rawget ((lookup a L.tables).getD []) k1)) L.tables } := by
  have hL : L = push (.table a) { L with stack := s } := by
    cases L
    simp only [push] at hs ⊢
    simp [hs]
  rw [hL]
  unfold lua_rawgeti
  rw [index2value_top]
  unfold lua_rawseti
  rw [index2value_second]
  simp only [lua_pop_push, entriesOf]
  simp [push]

theorem moveDown_eq (src dst : Int) (n : Nat) (L : lua_State) (s : List Value) (a : Nat)
    (hs : L.stack = s ++ [.table a]) :
    moveDown src dst n L
      = { L with tables := update a (entriesDown src dst n ((lookup a L.tables).getD [])) L.tables }
      ∨ (n = 0 ∧ moveDown src dst n L = L) := by
  induction n generalizing L with
  | zero => exact Or.inr ⟨rfl, rfl⟩
  | succ n ih =>
    left
    unfold moveDown entriesDown
    rw [tablemove_step L s a _ _ hs]
    rcases ih { L with tables := update a (rawset ((lookup a L.tables).getD []) (addInt dst n) (rawget ((lookup a L.tables).getD []) (addInt src n))) L.tables } hs with h | ⟨h0, h⟩
    · rw [h]
      simp only [lookup_update, Option.getD_some, update_update]
    · subst h0
      rw [h]
      rfl

theorem moveUp_eq (src dst : Int) (i n : Nat) (L : lua_State) (s : List Value) (a : Nat)
    (hs : L.stack = s ++ [.table a]) :
    moveUp src dst i n L
      = { L with tables := update a (entriesUp src dst i n ((lookup a L.tables).getD [])) L.tables }
      ∨ (n = 0 ∧ moveUp src dst i n L = L) := by
  induction n generalizing i L with
  | zero => exact Or.inr ⟨rfl, by unfold moveUp; rfl⟩
  | succ n ih =>
    left
    unfold moveUp entriesUp
    rw [tablemove_step L s a _ _ hs]
    rcases ih (i + 1) { L with tables := update a (rawset ((lookup a L.tables).getD []) (addInt dst i) (rawget ((lookup a L.tables).getD []) (addInt src i))) L.tables } hs with h | ⟨h0, h⟩
    · rw [h]
      simp only [lookup_update, Option.getD_some, update_update]
    · subst h0
      rw [h]
      rfl

/-- The interpreter state the body of `lua_tablemove` leaves, when its checks pass. -/
theorem tablemoveBody_ok (index src dst count : Int) (W : World) (a : Nat)
    (hvi : validindex W.L index = true) (hty : index2value W.L index = some (.table a))
    (hne : index ≠ LUA_REGISTRYINDEX) (hcount : 0 ≤ count) :
    ∃ T, tablemoveBody index src dst count W
        = (.ret (), { W with L := { W.L with tables := T } }) ∧
      (src = dst → T = W.L.tables) ∧
      (src < dst → T = W.L.tables ∧ count = 0 ∨
        T = update a (entriesDown src dst count.toNat ((lookup a W.L.tables).getD [])) W.L.tables) ∧
      (src > dst → T = W.L.tables ∧ count = 0 ∨
        T = update a (entriesUp src dst 0 count.toNat ((lookup a W.L.tables).getD [])) W.L.tables) := by
  have hct := checktype_ok index LUA_TTABLE W (.table a) hvi hty hne rfl
  have hca : decide (count ≥ 0) = true := decide_eq_true hcount
  have hpush : lua_pushvalue W.L index = push (.table a) W.L := by
    unfold lua_pushvalue
    rw [hty]
    rfl
  have hst : (push (.table a) W.L).stack = W.L.stack ++ [.table a] := rfl
  have hpop : ∀ T, lua_pop 1 { push (.table a) W.L with tables := T } = { W.L with tables := T } := by
    intro T
    simp [lua_pop, push]
  unfold tablemoveBody
  simp only [bind_def, hct, hca, checkarg_true, pure_def, modifyL_def, hpush]
  by_cases h1 : src < dst
  · simp only [h1, if_true, modifyL_def, bind_def]
    rcases moveDown_eq src dst count.toNat (push (.table a) W.L) W.L.stack a hst with h | ⟨h0, h⟩
    · rw [h, hpop]
      exact ⟨_, rfl, fun he => by omega, fun _ => Or.inr rfl, fun hgt => by omega⟩
    · rw [h, lua_pop_push]
      exact ⟨W.L.tables, rfl, fun _ => rfl, fun _ => Or.inl ⟨rfl, by omega⟩,
        fun _ => Or.inl ⟨rfl, by omega⟩⟩
  · by_cases h2 : src > dst
    · simp only [h1, h2, if_true, if_false, modifyL_def, bind_def]
      rcases moveUp_eq src dst 0 count.toNat (push (.table a) W.L) W.L.stack a hst with h | ⟨h0, h⟩
      · rw [h, hpop]
        exact ⟨_, rfl, fun he => by omega, fun hlt => hlt.elim, fun _ => Or.inr rfl⟩
      · have hc0 : count = 0 := by omega
        rw [h, lua_pop_push]
        exact ⟨W.L.tables, rfl, fun _ => rfl, fun _ => Or.inl ⟨rfl, hc0⟩,
          fun _ => Or.inl ⟨rfl, hc0⟩⟩
    · simp only [h1, h2, if_false, pure_def, lua_pop_push, bind_def, modifyL_def]
      exact ⟨W.L.tables, rfl, fun _ => rfl, fun hlt => hlt.elim, fun hgt => hgt.elim⟩

/-- C28: `lua_tablemove` on a table of the stack, with `count ≥ 0` and `from + count`,
`to + count` within `int`, returns without raising and behaves like `memmove` on the
integer keys: afterwards `t[to + i]` is the value `t[from + i]` had before, for every
`0 ≤ i < count`, also when the ranges overlap; every key outside `[to, to + count)` keeps
its value; the other tables and the stack are unchanged; with `from = to` nothing changes. -/
theorem lua_1tablemove_moves (env : Nat) (index src dst count : Int) (w : World) (a : Nat)
    (hroom : lua_checkstack w.L LUA_MINSTACK = true)
    (hvi : validindex w.L index = true) (hty : index2value w.L index = some (.table a))
    (hne : index ≠ LUA_REGISTRYINDEX) (hcount : 0 ≤ count)
    (hsrc : isInt32 src) (hdst : isInt32 dst)
    (hso : src + count ≤ INT_MAX) (hdo : dst + count ≤ INT_MAX) :
    ∃ w1, lua_1tablemove env index src dst count w = (.ret (some ()), w1) ∧
      w1.L.stack = w.L.stack ∧ w1.env.pending = w.env.pending ∧
      (∀ i : Int, 0 ≤ i → i < count →
        rawget ((lookup a w1.L.tables).getD []) (dst + i)
          = rawget ((lookup a w.L.tables).getD []) (src + i)) ∧
      (∀ k : Int, (k < dst ∨ dst + count ≤ k) →
        rawget ((lookup a w1.L.tables).getD []) k = rawget ((lookup a w.L.tables).getD []) k) ∧
      (∀ b, b ≠ a → lookup b w1.L.tables = lookup b w.L.tables) ∧
      (src = dst → w1.L.tables = w.L.tables) := by
  obtain ⟨T, hb, heq, hlt, hgt⟩ := tablemoveBody_ok index src dst count (entered env w) a
    ((validindex_entered env w index).trans hvi) ((index2value_entered env w index).trans hty)
    hne hcount
  have hT0 : (entered env w).L.tables = w.L.tables := rfl
  rw [hT0] at heq hlt hgt
  have hg := guarded_ok env (fun _ => tablemoveBody index src dst count) w _ () hroom hb
  obtain ⟨hs1, hs2⟩ := hsrc
  obtain ⟨hd1, hd2⟩ := hdst
  have hcn : (count.toNat : Int) = count := Int.toNat_of_nonneg hcount
  have hsw : ∀ j : Nat, j < count.toNat → addInt src j = src + j := fun j hj =>
    wrap32_id _ (by omega) (by omega)
  have hdw : ∀ j : Nat, j < count.toNat → addInt dst j = dst + j := fun j hj =>
    wrap32_id _ (by omega) (by omega)
  refine ⟨_, hg, entered_stack env w, rfl, ?_, ?_, ?_, fun he => heq he⟩
  · intro i hi0 hic
    show rawget ((lookup a T).getD []) (dst + i) = _
    have hin : i.toNat < count.toNat := by omega
    have hii : (i.toNat : Int) = i := Int.toNat_of_nonneg hi0
    rcases lt_trichotomy src dst with h | h | h
    · rcases hlt h with ⟨-, h0⟩ | hT
      · omega
      · rw [hT, lookup_update, Option.getD_some]
        have := (entriesDown_spec src dst count.toNat ((lookup a w.L.tables).getD []) h hsw hdw).1
          i.toNat hin
        rwa [hii] at this
    · rw [heq h, h]
    · rcases hgt h with ⟨-, h0⟩ | hT
      · omega
      · rw [hT, lookup_update, Option.getD_some]
        have := (entriesUp_spec src dst 0 count.toNat ((lookup a w.L.tables).getD []) h
          (fun j hj => hsw j (by omega)) (fun j hj => hdw j (by omega))).1 i.toNat (by omega)
          (by omega)
        rwa [hii] at this
  · intro k hk
    show rawget ((lookup a T).getD []) k = _
    rcases lt_trichotomy src dst with h | h | h
    · rcases hlt h with ⟨hT, -⟩ | hT
      · rw [hT]
      · rw [hT, lookup_update, Option.getD_some]
        exact (entriesDown_spec src dst count.toNat ((lookup a w.L.tables).getD []) h hsw hdw).2
          k (by omega)
    · rw [heq h]
    · rcases hgt h with ⟨hT, -⟩ | hT
      · rw [hT]
      · rw [hT, lookup_update, Option.getD_some]
        exact (entriesUp_spec src dst 0 count.toNat ((lookup a w.L.tables).getD []) h
          (fun j hj => hsw j (by omega)) (fun j hj => hdw j (by omega))).2 k (by omega)
  · intro b hb
    show lookup b T = _
    rcases lt_trichotomy src dst with h | h | h
    · rcases hlt h with ⟨hT, -⟩ | hT
      · rw [hT]
      · rw [hT, lookup_update_ne _ _ _ _ hb]
    · rw [heq h]
    · rcases hgt h with ⟨hT, -⟩ | hT
      · rw [hT]
      · rw [hT, lookup_update_ne _ _ _ _ hb]

/-- Witness for C28: in `demoTable` the entries 1 and 2 move to the keys 2 and 3, an
overlapping move; key 3 gets the old value of key 2. -/
theorem lua_1tablemove_moves_witness :
    lua_checkstack demoTable.L LUA_MINSTACK = true ∧
      rawget ((lookup 3 (lua_1tablemove 1 1 1 2 2 demoTable).2.L.tables).getD []) 3
        = .string "b" ∧
      (lua_1tablemove 1 1 1 2 2 demoTable).2.L.stack = [.table 3] := by
  obtain ⟨w1, h, hs, -, hmove, -⟩ := lua_1tablemove_moves 1 1 1 2 2 demoTable 3 (by decide)
    (by decide) (by decide) (by decide) (by decide) (by decide) (by decide) (by decide)
    (by decide)
  rw [h]
  exact ⟨by decide, (hmove 1 (by decide) (by decide)).trans (by decide), hs⟩


theorem pinTrace_append (n : Nat) (l1 l2 : List Event) :
    pinTrace n (l1 ++ l2) = (pinTrace n l1).bind fun k => pinTrace k l2 := by
  unfold pinTrace
  rw [List.foldlM_append]
  rfl

theorem pinTrace_nil (n : Nat) : pinTrace n [] = some n := rfl

theorem pinTrace_cons (n : Nat) (e : Event) (l : List Event) :
    pinTrace n (e :: l) = (pinStep n e).bind fun k => pinTrace k l := by
  unfold pinTrace
  rw [List.foldlM_cons]
  rfl

theorem pinStep_le (n m : Nat) (e : Event) (h : pinStep n e = some m) (hn : n ≤ 1) : m ≤ 1 := by
  cases e <;> simp only [pinStep] at h <;> first
    | (cases h; exact hn)
    | (split_ifs at h <;> cases h <;> omega)

theorem pinStep_outstanding (n m : Nat) (e : Event) (l : List Event) (h : pinStep n e = some m) :
    outstanding (e :: l) = outstanding l + ((m : Int) - n) := by
  cases e <;> simp only [pinStep] at h <;> simp only [outstanding] <;> first
    | (cases h; omega)
    | (split_ifs at h <;> cases h <;> simp_all <;> omega)

theorem pinTrace_outstanding (l : List Event) (n m : Nat) (h : pinTrace n l = some m) :
    outstanding l = (m : Int) - n := by
  induction l generalizing n with
  | nil => cases h; simp [outstanding]
  | cons e l ih =>
    rw [pinTrace_cons] at h
    cases hs : pinStep n e with
    | none => rw [hs] at h; cases h
    | some k =>
      rw [hs] at h
      rw [pinStep_outstanding n k e l hs, ih k h]
      omega

theorem pinTrace_le (l : List Event) (n m : Nat) (h : pinTrace n l = some m) (hn : n ≤ 1) :
    m ≤ 1 := by
  induction l generalizing n with
  | nil => cases h; exact hn
  | cons e l ih =>
    rw [pinTrace_cons] at h
    cases hs : pinStep n e with
    | none => rw [hs] at h; cases h
    | some k =>
      rw [hs] at h
      exact ih k h (pinStep_le n k e hs hn)

/-- A log that `pinTrace` follows from no pin to no pin: at every moment at most one pin is
outstanding, and at the end none is. -/
theorem pinTrace_balanced (evs : List Event) (h : pinTrace 0 evs = some 0) :
    (∀ p s, evs = p ++ s → 0 ≤ outstanding p ∧ outstanding p ≤ 1) ∧ outstanding evs = 0 := by
  refine ⟨?_, by rw [pinTrace_outstanding evs 0 0 h]; rfl⟩
  intro p s hps
  rw [hps, pinTrace_append] at h
  cases hp : pinTrace 0 p with
  | none => rw [hp] at h; cases h
  | some k =>
    have h1 := pinTrace_le p 0 k hp (by omega)
    rw [pinTrace_outstanding p 0 k hp]
    omega

theorem tracks_refl (w : World) : Tracks w w := ⟨[], by simp, rfl⟩

theorem tracks_trans (a b c : World) (h1 : Tracks a b) (h2 : Tracks b c) : Tracks a c := by
  obtain ⟨e1, hl1, hp1⟩ := h1
  obtain ⟨e2, hl2, hp2⟩ := h2
  refine ⟨e1 ++ e2, by rw [hl2, hl1, List.append_assoc], ?_⟩
  rw [pinTrace_append, hp1]
  exact hp2

/-- A step that logs only events other than pins and releases, and leaves `stream.bytes`. -/
theorem tracks_quiet (w w1 : World) (evs : List Event)
    (hl : w1.env.log = w.env.log ++ evs) (hq : ∀ n, pinTrace n evs = some n)
    (hb : w1.env.io.stream.bytes = w.env.io.stream.bytes) : Tracks w w1 := by
  refine ⟨evs, hl, ?_⟩
  rw [hq]
  unfold pinned
  rw [hb]

theorem tracks_same (w w1 : World) (hl : w1.env.log = w.env.log)
    (hb : w1.env.io.stream.bytes = w.env.io.stream.bytes) : Tracks w w1 :=
  tracks_quiet w w1 [] (by rw [hl]; simp) (fun _ => rfl) hb

theorem tracks_bind {α β : Type} {m : M α} {f : α → M β}
    (hm : Always Tracks m) (hf : ∀ a, Always Tracks (f a)) : Always Tracks (m >>= f) :=
  always_bind tracks_trans hm hf

theorem tracks_pure {α : Type} (a : α) : Always Tracks (pure a : M α) :=
  always_pure tracks_refl a

theorem tracks_modifyL (f : lua_State → lua_State) : Always Tracks (modifyL f) := fun w =>
  tracks_same _ _ rfl rfl

theorem tracks_getL : Always Tracks getL := fun w => tracks_refl w

theorem tracks_getEnv : Always Tracks getEnv := fun w => tracks_refl w

theorem tracks_getStream : Always Tracks getStream := fun w => tracks_refl w

theorem tracks_ExceptionCheck : Always Tracks ExceptionCheck := fun w => tracks_refl w

theorem takeOracle_io (e : JNIEnv) : (takeOracle e).2.io = e.io ∧ (takeOracle e).2.log = e.log := by
  obtain ⟨b, r, h⟩ := takeOracle_eq e
  rw [h]
  exact ⟨rfl, rfl⟩

theorem tracks_logEvent (e : Event) (he : ∀ n, pinStep n e = some n) :
    Always Tracks (logEvent e) := fun w =>
  tracks_quiet _ _ [e] rfl (fun n => by rw [pinTrace_cons, he]; rfl) rfl

theorem tracks_ThrowNew (cls : JClass) (msg : String) : Always Tracks (ThrowNew cls msg) :=
  fun w => tracks_quiet _ _ [.ThrowNew cls msg] rfl (fun _ => rfl) rfl

theorem tracks_throw {α : Type} (cls : JClass) (msg : String) :
    Always Tracks (throw cls msg : M α) := fun w =>
  tracks_quiet _ _ [.ThrowNew cls msg] rfl (fun _ => rfl) rfl

theorem tracks_check (cond : Bool) (cls : JClass) (msg : String) :
    Always Tracks (check cond cls msg) := by
  unfold check
  cases cond
  · exact tracks_throw cls msg
  · exact tracks_pure ()

theorem tracks_luaD_throw {α : Type} (status : Int) : Always Tracks (luaD_throw status : M α) :=
  fun w => tracks_refl w

theorem tracks_luaL_error {α : Type} (msg : String) : Always Tracks (luaL_error msg : M α) :=
  tracks_bind (tracks_modifyL _) fun _ => tracks_luaD_throw _

theorem tracks_checkstack (space : Int) (msg : Option String) :
    Always Tracks (checkstack space msg) := by
  unfold checkstack
  refine tracks_bind tracks_getL fun L => ?_
  split
  · split
    · exact tracks_luaL_error _
    · exact tracks_luaL_error _
  · exact tracks_pure ()

theorem tracks_setJniEnv (env : Nat) : Always Tracks (setJniEnv env) :=
  tracks_bind (tracks_modifyL _) fun _ => tracks_modifyL _

theorem tracks_toString (idx : Int) : Always Tracks (toString idx) := fun w => by
  rw [toString_eq]
  exact tracks_refl w

theorem tracks_getJavaObject (idx : Int) (c : Option JClass) :
    Always Tracks (getJavaObject idx c) := fun w => by
  rw [getJavaObject_eq]
  exact tracks_refl w

theorem tracks_NewObject (obj : JavaObject) : Always Tracks (NewObject obj) := by
  intro w
  unfold NewObject
  have h := takeOracle_io w.env
  rcases ht : takeOracle w.env with ⟨b, e⟩
  rw [ht] at h
  cases b <;> exact tracks_same _ _ h.2 (by rw [← h.1])

theorem tracks_Throw (r : jobject) : Always Tracks (Throw r) := by
  intro w
  unfold Throw
  have h := takeOracle_io w.env
  rcases ht : takeOracle w.env with ⟨b, e⟩
  rw [ht] at h
  simp only at h
  cases hr : r.target <;> cases b
  · exact tracks_same _ _ h.2 (by rw [← h.1])
  · exact tracks_same _ _ h.2 (by rw [← h.1])
  · exact tracks_same _ _ h.2 (by rw [← h.1])
  · rename_i o
    exact tracks_quiet _ _ [.Throw o] (by show e.log ++ _ = _; rw [h.2]) (fun _ => rfl)
      (by show e.io.stream.bytes = _; rw [h.1])

theorem tracks_modifyObject (r : jobject) (f : JavaObject → JavaObject) :
    Always Tracks (modifyObject r f) := by
  intro w
  unfold modifyObject
  simp only [modifyEnv_def]
  split
  · split
    · exact tracks_same _ _ rfl rfl
    · exact tracks_refl w
  · exact tracks_refl w

theorem tracks_throwException (status : Int) : Always Tracks (throwException status) := by
  unfold throwException
  refine tracks_bind (tracks_logEvent _ fun _ => rfl) fun _ => ?_
  refine tracks_bind (tracks_toString _) fun _ => ?_
  refine tracks_bind (tracks_NewObject _) fun throwable => ?_
  split
  · exact tracks_pure _
  · refine tracks_bind (tracks_getJavaObject _ _) fun luaErrorObj => ?_
    have htail : Always Tracks (do
        let r ← Throw throwable
        if r < 0 then pure () else modifyL (lua_pop 1)) := by
      refine tracks_bind (tracks_Throw _) fun r => ?_
      split
      · exact tracks_pure _
      · exact tracks_modifyL _
    dsimp only
    split
    · exact tracks_bind (tracks_modifyObject _ _) fun _ => htail
    · exact tracks_bind (tracks_pure _) fun _ => htail

theorem tracks_JNLUA_END (oldnCcalls addr : Nat) (lj : lua_longjmp) :
    Always Tracks (JNLUA_END oldnCcalls addr lj) := by
  unfold JNLUA_END
  refine tracks_bind tracks_getL fun L => ?_
  refine tracks_bind (tracks_logEvent _ fun _ => rfl) fun _ => ?_
  refine tracks_bind (tracks_modifyL _) fun _ => ?_
  split
  · exact tracks_throwException _
  · exact tracks_pure _


theorem tracks_modifyStream (f : Stream → Stream) (hf : ∀ s, (f s).bytes = s.bytes) :
    Always Tracks (modifyStream f) := fun w => tracks_same _ _ rfl (hf _)

theorem tracks_GetStringUTFChars : Always Tracks GetStringUTFChars := by
  intro w
  unfold GetStringUTFChars
  have h := takeOracle_io w.env
  rcases ht : takeOracle w.env with ⟨b, e⟩
  rw [ht] at h
  exact tracks_same _ _ h.2 (by rw [← h.1])

theorem tracks_NewByteArray (length : Nat) : Always Tracks (NewByteArray length) := by
  intro w
  unfold NewByteArray
  have h := takeOracle_io w.env
  rcases ht : takeOracle w.env with ⟨b, e⟩
  rw [ht] at h
  cases b
  · exact tracks_same _ _ h.2 (by rw [← h.1])
  · exact tracks_same _ _ h.2 (by show e.io.stream.bytes = _; rw [h.1])

theorem tracks_getStringUtfChars (string : Option String) :
    Always Tracks (getStringUtfChars string) :=
  tracks_bind (tracks_check _ _ _) fun _ => tracks_bind tracks_GetStringUTFChars fun _ =>
    tracks_bind (tracks_check _ _ _) fun _ => tracks_pure _

theorem tracks_newByteArray (length : Nat) : Always Tracks (newByteArray length) :=
  tracks_bind (tracks_NewByteArray _) fun _ => tracks_bind (tracks_check _ _ _) fun _ =>
    tracks_pure _

theorem tracks_InputStream_read : Always Tracks InputStream_read := by
  intro w
  unfold InputStream_read
  split
  · exact tracks_quiet _ _ [.streamRead] rfl (fun _ => rfl) rfl
  · exact tracks_quiet _ _ [.streamRead] rfl (fun _ => rfl) rfl

theorem tracks_OutputStream_write (off len : Int) : Always Tracks (OutputStream_write off len) := by
  intro w
  unfold OutputStream_write
  split
  · exact tracks_quiet _ _ [.streamWrite off len w.env.io.array] rfl (fun _ => rfl) rfl
  · exact tracks_quiet _ _ [.streamWrite off len w.env.io.array] rfl (fun _ => rfl) rfl

theorem tracks_memcpy (data : List Nat) : Always Tracks (memcpy data) := by
  intro w
  unfold memcpy
  simp only [modifyEnv_def]
  have hb : ∀ (io : Transfer) (x : List Nat), (if io.elems.isSome then { io with elems := some x }
      else { io with array := x }).stream = io.stream := by
    intro io x
    split <;> rfl
  by_cases hlen : data.length ≤ (bufferOf w.env.io).length
  · refine tracks_same _ _ ?_ ?_
    · simp only [hlen, if_true]
    · simp only [hb]
  · refine tracks_quiet _ _ [.outOfBounds data.length] ?_ (fun _ => rfl) ?_
    · simp only [hlen, if_false]
    · simp only [hb]

/-- Pinning the buffer: nothing happens when it is pinned; otherwise a successful pin is
logged and `stream.bytes` is set, or the pin fails and `stream.bytes` stays clear. -/
theorem tracks_pinBuffer : Always Tracks pinBuffer := by
  intro w
  unfold pinBuffer
  simp only [bind_def, getStream]
  by_cases hb : w.env.io.stream.bytes = true
  · simp only [hb, if_true, pure_def]
    exact tracks_refl w
  · simp only [hb, Bool.false_eq_true, if_false]
    unfold GetByteArrayElements
    have h := takeOracle_io w.env
    rcases ht : takeOracle w.env with ⟨b, e⟩
    rw [ht] at h
    simp only at h
    cases b
    · simp only [ht, bind_def, ThrowNew, modifyEnv_def, pure_def]
      exact tracks_quiet _ _ [.ThrowNew .ioException "error accessing IO buffer"]
        (by show e.log ++ _ = _; rw [h.2]) (fun _ => rfl) (by show e.io.stream.bytes = _; rw [h.1])
    · simp only [ht, bind_def, modifyStream, modifyEnv_def, pure_def]
      refine ⟨[.GetByteArrayElements], by show e.log ++ _ = _; rw [h.2], ?_⟩
      have h0 : pinned w = 0 := by unfold pinned; simp [hb]
      rw [h0]
      rfl

theorem tracks_bind_at {α β : Type} (m : M α) (f : α → M β) (w : World)
    (hm : Tracks w (m w).2) (hf : ∀ a, Always Tracks (f a)) : Tracks w ((m >>= f) w).2 := by
  rw [bind_def]
  rcases h : m w with ⟨o, w1⟩
  rw [h] at hm
  cases o with
  | ret a => exact tracks_trans _ _ _ hm (hf a w1)
  | unwind u => exact hm

/-- The block `if (stream->bytes && stream->isCopy) { ... }` of the reader: a copied pin is
released and `stream.bytes` cleared. -/
theorem tracks_release_clear (w : World) :
    Tracks w ((if w.env.io.stream.bytes && w.env.io.stream.isCopy then do
        ReleaseByteArrayElements JNI_ABORT
        modifyStream fun s => { s with bytes := false }
      else pure ()) w).2 := by
  by_cases hb : (w.env.io.stream.bytes && w.env.io.stream.isCopy) = true
  · simp only [hb, if_true, bind_def, ReleaseByteArrayElements, modifyStream, modifyEnv_def]
    refine ⟨[.ReleaseByteArrayElements JNI_ABORT], rfl, ?_⟩
    have h1 : pinned w = 1 := by
      unfold pinned
      simp only [Bool.and_eq_true] at hb
      simp [hb.1]
    rw [h1]
    rfl
  · simp only [hb, Bool.false_eq_true, if_false, pure_def]
    exact tracks_refl w

theorem tracks_readInputStream : Always Tracks readInputStream := by
  unfold readInputStream
  refine tracks_bind tracks_InputStream_read fun read => ?_
  refine tracks_bind tracks_ExceptionCheck fun raised => ?_
  split
  · exact tracks_pure _
  · split
    · exact tracks_pure _
    · intro w
      rw [bind_def]
      simp only [getStream]
      refine tracks_bind_at _ _ w (tracks_release_clear w) fun _ => ?_
      refine tracks_bind tracks_pinBuffer fun ok => ?_
      split
      · exact tracks_pure _
      · exact tracks_bind tracks_getEnv fun _ => tracks_pure _

theorem tracks_ReleaseCommit (w : World) (hb : w.env.io.stream.bytes = true) :
    Tracks w (ReleaseByteArrayElements JNI_COMMIT w).2 := by
  refine ⟨[.ReleaseByteArrayElements JNI_COMMIT], rfl, ?_⟩
  have h1 : pinned w = 1 := by unfold pinned; simp [hb]
  have h2 : pinned (ReleaseByteArrayElements JNI_COMMIT w).2 = 1 := by
    unfold pinned ReleaseByteArrayElements
    simp [modifyEnv_def, hb]
  rw [h1, h2]
  rfl

theorem pinBuffer_returns (w : World) :
    ∃ ok w1, pinBuffer w = (.ret ok, w1) ∧ (ok = true → w1.env.io.stream.bytes = true) ∧
      w1.L = w.L := by
  unfold pinBuffer
  simp only [bind_def, getStream]
  by_cases hb : w.env.io.stream.bytes = true
  · simp only [hb, if_true, pure_def]
    exact ⟨true, w, rfl, fun _ => hb, rfl⟩
  · simp only [hb, Bool.false_eq_true, if_false]
    unfold GetByteArrayElements
    rcases ht : takeOracle w.env with ⟨b, e⟩
    cases b
    · simp only [ht, bind_def, ThrowNew, modifyEnv_def, pure_def]
      exact ⟨false, _, rfl, fun h => (by cases h), rfl⟩
    · simp only [ht, bind_def, modifyStream, modifyEnv_def, pure_def]
      exact ⟨true, _, rfl, fun _ => rfl, rfl⟩

theorem memcpy_stream (data : List Nat) (w : World) :
    (memcpy data w).2.env.io.stream = w.env.io.stream := by
  unfold memcpy
  simp only [modifyEnv_def]
  split <;> rfl

theorem tracks_writeOutputStream (data : List Nat) : Always Tracks (writeOutputStream data) := by
  intro w
  unfold writeOutputStream
  have ht := tracks_pinBuffer w
  obtain ⟨ok, w1, hp, hbytes, -⟩ := pinBuffer_returns w
  rw [hp] at ht
  rw [bind_def, hp]
  cases ok
  · exact ht
  · refine tracks_trans _ _ _ ht ?_
    simp only [Bool.not_true, Bool.false_eq_true, if_false]
    rw [bind_def]
    have hm := tracks_memcpy data w1
    have hs := memcpy_stream data w1
    rcases hmc : memcpy data w1 with ⟨o, w2⟩
    rw [hmc] at hm hs
    have ho : o = .ret () := by
      have : (memcpy data w1).1 = .ret () := rfl
      rw [hmc] at this
      exact this
    subst ho
    refine tracks_trans _ _ _ hm ?_
    simp only []
    rw [bind_def]
    simp only [getStream]
    refine tracks_bind_at _ _ w2 ?_ fun _ => ?_
    · split
      · exact tracks_ReleaseCommit w2 (by rw [hs]; exact hbytes rfl)
      · exact tracks_refl w2
    · refine tracks_bind (tracks_OutputStream_write _ _) fun _ => ?_
      refine tracks_bind tracks_ExceptionCheck fun raised => ?_
      split <;> exact tracks_pure _

theorem tracks_fill (ld : Loader) (fuel : Nat) (acc : List Nat) :
    Always Tracks (fill ld fuel acc) := by
  induction fuel generalizing acc with
  | zero => exact tracks_pure _
  | succ n ih =>
    unfold fill
    split
    · exact tracks_pure _
    · refine tracks_bind tracks_readInputStream fun r => ?_
      split
      · exact tracks_pure _
      · split
        · exact tracks_pure _
        · exact ih _

theorem tracks_lua_load (ld : Loader) (chunkname mode : String) :
    Always Tracks (lua_load ld chunkname mode) := by
  unfold lua_load
  refine tracks_bind tracks_getEnv fun env => ?_
  refine tracks_bind (tracks_fill _ _ _) fun chunk => ?_
  split
  · exact tracks_bind (tracks_modifyL _) fun _ => tracks_pure _
  · exact tracks_bind (tracks_modifyL _) fun _ => tracks_pure _

theorem tracks_JNLUA_THROW {α : Type} (addr : Nat) (status : Int) :
    Always Tracks (JNLUA_THROW addr status : M α) := fun w => tracks_refl w

theorem tracks_loadBody (ld : Loader) (chunkname mode : Option String) (addr : Nat) :
    Always Tracks (loadBody ld chunkname mode addr) := by
  unfold loadBody
  refine tracks_bind (tracks_getStringUtfChars _) fun _ => ?_
  refine tracks_bind (tracks_getStringUtfChars _) fun _ => ?_
  refine tracks_bind (tracks_newByteArray _) fun _ => ?_
  refine tracks_bind (tracks_modifyStream _ fun _ => rfl) fun _ => ?_
  refine tracks_bind (tracks_lua_load _ _ _) fun status => ?_
  split
  · exact tracks_JNLUA_THROW _ _
  · exact tracks_pure _

theorem tracks_lua_dump (chunks : List (List Nat)) : Always Tracks (lua_dump chunks) := by
  induction chunks with
  | nil => exact tracks_pure _
  | cons c cs ih =>
    unfold lua_dump
    refine tracks_bind (tracks_writeOutputStream c) fun status => ?_
    split
    · exact tracks_pure _
    · exact ih

theorem tracks_checknelems (n : Int) : Always Tracks (checknelems n) :=
  tracks_bind tracks_getL fun _ => tracks_check _ _ _

theorem tracks_dumpBody (chunks : List (List Nat)) : Always Tracks (dumpBody chunks) := by
  unfold dumpBody
  refine tracks_bind (tracks_newByteArray _) fun _ => ?_
  refine tracks_bind (tracks_modifyStream _ fun _ => rfl) fun _ => ?_
  refine tracks_bind (tracks_checknelems _) fun _ => ?_
  exact tracks_bind (tracks_lua_dump _) fun _ => tracks_pure _

/-- A guard region follows the pins when its body does. -/
theorem tracks_guarded {α : Type} (env : Nat) (body : Nat → M α)
    (hb : ∀ addr, Always Tracks (body addr)) : Always Tracks (guarded env body) := by
  intro w
  have hin : Always Tracks (do
      checkstack LUA_MINSTACK none
      setJniEnv env
      body w.csp) :=
    tracks_bind (tracks_checkstack _ _) fun _ => tracks_bind (tracks_setJniEnv _) fun _ => hb _
  have h1 := hin { w with L := { w.L with errorJmp := some w.csp }, csp := w.csp + 1 }
  have h0 : Tracks w { w with L := { w.L with errorJmp := some w.csp }, csp := w.csp + 1 } :=
    tracks_same _ _ rfl rfl
  have h2 := tracks_trans _ _ _ h0 h1
  unfold guarded
  have hT : JNLUA_TRY env body w = (do
      checkstack LUA_MINSTACK none
      setJniEnv env
      body w.csp) { w with L := { w.L with errorJmp := some w.csp }, csp := w.csp + 1 } := rfl
  rw [hT]
  rcases hr : (do
      checkstack LUA_MINSTACK none
      setJniEnv env
      body w.csp : M α) { w with L := { w.L with errorJmp := some w.csp }, csp := w.csp + 1 }
    with ⟨o, w2⟩
  rw [hr] at h2
  cases o with
  | ret a =>
    simp only []
    rw [region_exit_world]
    exact tracks_trans _ _ _ (tracks_trans _ _ _ h2 (tracks_same w2 { w2 with csp := w.csp } rfl rfl))
      (tracks_JNLUA_END _ _ _ _)
  | unwind u =>
    simp only []
    split
    · rw [region_exit_world]
      refine tracks_trans _ _ _ (tracks_trans _ _ _ h2 ?_) (tracks_JNLUA_END _ _ _ _)
      exact tracks_quiet _ _ [.landed w.csp] rfl (fun _ => rfl) rfl
    · exact h2


theorem lands_bind {α β : Type} {addr : Nat} {m : M α} {f : α → M β}
    (hm : Lands addr m) (hf : ∀ a, Lands addr (f a)) : Lands addr (m >>= f) := by
  intro w hw
  have h1 := hm w hw
  rw [bind_def]
  rcases h : m w with ⟨o, w1⟩
  rw [h] at h1
  cases o with
  | ret a => exact hf a w1 h1.1
  | unwind u => exact ⟨h1.1, fun u1 hu => by cases hu; exact h1.2 u rfl⟩

theorem lands_of_ret {α : Type} {addr : Nat} {m : M α}
    (h : ∀ w, (∃ a, (m w).1 = .ret a) ∧ (m w).2.L.errorJmp = w.L.errorJmp) : Lands addr m := by
  intro w hw
  obtain ⟨⟨a, ha⟩, h2⟩ := h w
  refine ⟨h2.trans hw, fun u hu => ?_⟩
  rw [ha] at hu
  cases hu

theorem lands_pure {α : Type} {addr : Nat} (a : α) : Lands addr (pure a : M α) :=
  lands_of_ret fun _ => ⟨⟨a, rfl⟩, rfl⟩

theorem lands_modifyL {addr : Nat} (f : lua_State → lua_State)
    (hf : ∀ L, (f L).errorJmp = L.errorJmp) : Lands addr (modifyL f) :=
  lands_of_ret fun w => ⟨⟨(), rfl⟩, hf w.L⟩

theorem lands_modifyEnv {addr : Nat} (f : JNIEnv → JNIEnv) : Lands addr (modifyEnv f) :=
  lands_of_ret fun _ => ⟨⟨(), rfl⟩, rfl⟩

theorem lands_getL {addr : Nat} : Lands addr getL := lands_of_ret fun w => ⟨⟨w.L, rfl⟩, rfl⟩

theorem lands_getEnv {addr : Nat} : Lands addr getEnv := lands_of_ret fun w => ⟨⟨w.env, rfl⟩, rfl⟩

theorem lands_getStream {addr : Nat} : Lands addr getStream :=
  lands_of_ret fun w => ⟨⟨w.env.io.stream, rfl⟩, rfl⟩

theorem lands_ExceptionCheck {addr : Nat} : Lands addr ExceptionCheck :=
  lands_of_ret fun w => ⟨⟨w.env.pending.isSome, rfl⟩, rfl⟩

theorem lands_throw {α : Type} {addr : Nat} (cls : JClass) (msg : String) :
    Lands addr (throw cls msg : M α) := fun w hw =>
  ⟨hw, fun u hu => by cases hu; exact hw⟩

theorem lands_check {addr : Nat} (cond : Bool) (cls : JClass) (msg : String) :
    Lands addr (check cond cls msg) := by
  unfold check
  cases cond
  · exact lands_throw cls msg
  · exact lands_pure ()

theorem lands_luaL_error {α : Type} {addr : Nat} (msg : String) :
    Lands addr (luaL_error msg : M α) := fun w hw =>
  ⟨hw, fun u hu => by cases hu; exact hw⟩

theorem lands_checkstack {addr : Nat} (space : Int) (msg : Option String) :
    Lands addr (checkstack space msg) := by
  unfold checkstack
  refine lands_bind lands_getL fun L => ?_
  split
  · split
    · exact lands_luaL_error _
    · exact lands_luaL_error _
  · exact lands_pure ()

theorem lands_setJniEnv {addr : Nat} (env : Nat) : Lands addr (setJniEnv env) :=
  lands_bind (lands_modifyL _ fun _ => rfl) fun _ => lands_modifyL _ fun _ => rfl

theorem lands_GetStringUTFChars {addr : Nat} : Lands addr GetStringUTFChars :=
  lands_of_ret fun w => by
    unfold GetStringUTFChars
    rcases takeOracle w.env with ⟨b, e⟩
    exact ⟨⟨b, rfl⟩, rfl⟩

theorem lands_NewByteArray {addr : Nat} (length : Nat) : Lands addr (NewByteArray length) :=
  lands_of_ret fun w => by
    unfold NewByteArray
    rcases takeOracle w.env with ⟨b, e⟩
    cases b
    · exact ⟨⟨false, rfl⟩, rfl⟩
    · exact ⟨⟨true, rfl⟩, rfl⟩

theorem lands_getStringUtfChars {addr : Nat} (string : Option String) :
    Lands addr (getStringUtfChars string) :=
  lands_bind (lands_check _ _ _) fun _ => lands_bind lands_GetStringUTFChars fun _ =>
    lands_bind (lands_check _ _ _) fun _ => lands_pure _

theorem lands_newByteArray {addr : Nat} (length : Nat) : Lands addr (newByteArray length) :=
  lands_bind (lands_NewByteArray _) fun _ => lands_bind (lands_check _ _ _) fun _ => lands_pure _

theorem lands_InputStream_read {addr : Nat} : Lands addr InputStream_read :=
  lands_of_ret fun w => by
    unfold InputStream_read
    split
    · exact ⟨⟨_, rfl⟩, rfl⟩
    · exact ⟨⟨_, rfl⟩, rfl⟩

theorem lands_OutputStream_write {addr : Nat} (off len : Int) :
    Lands addr (OutputStream_write off len) :=
  lands_of_ret fun w => by
    unfold OutputStream_write
    split
    · exact ⟨⟨_, rfl⟩, rfl⟩
    · exact ⟨⟨_, rfl⟩, rfl⟩

theorem lands_pinBuffer {addr : Nat} : Lands addr pinBuffer :=
  lands_of_ret fun w => by
    obtain ⟨ok, w1, h, -, hL⟩ := pinBuffer_returns w
    rw [h]
    exact ⟨⟨ok, rfl⟩, by rw [hL]⟩

theorem lands_readInputStream {addr : Nat} : Lands addr readInputStream := by
  unfold readInputStream
  refine lands_bind lands_InputStream_read fun read => ?_
  refine lands_bind lands_ExceptionCheck fun raised => ?_
  split
  · exact lands_pure _
  · split
    · exact lands_pure _
    · refine lands_bind lands_getStream fun stream => ?_
      refine lands_bind ?_ fun _ => ?_
      · split
        · exact lands_bind (lands_modifyEnv _) fun _ => lands_modifyEnv _
        · exact lands_pure _
      · refine lands_bind lands_pinBuffer fun ok => ?_
        split
        · exact lands_pure _
        · exact lands_bind lands_getEnv fun _ => lands_pure _

theorem lands_writeOutputStream {addr : Nat} (data : List Nat) :
    Lands addr (writeOutputStream data) := by
  unfold writeOutputStream
  refine lands_bind lands_pinBuffer fun ok => ?_
  split
  · exact lands_pure _
  · refine lands_bind (lands_modifyEnv _) fun _ => ?_
    refine lands_bind lands_getStream fun stream => ?_
    refine lands_bind ?_ fun _ => ?_
    · split
      · exact lands_modifyEnv _
      · exact lands_pure _
    · refine lands_bind (lands_OutputStream_write _ _) fun _ => ?_
      refine lands_bind lands_ExceptionCheck fun raised => ?_
      split <;> exact lands_pure _

theorem lands_fill {addr : Nat} (ld : Loader) (fuel : Nat) (acc : List Nat) :
    Lands addr (fill ld fuel acc) := by
  induction fuel generalizing acc with
  | zero => exact lands_pure _
  | succ n ih =>
    unfold fill
    split
    · exact lands_pure _
    · refine lands_bind lands_readInputStream fun r => ?_
      split
      · exact lands_pure _
      · split
        · exact lands_pure _
        · exact ih _

theorem lands_lua_load {addr : Nat} (ld : Loader) (chunkname mode : String) :
    Lands addr (lua_load ld chunkname mode) := by
  unfold lua_load
  refine lands_bind lands_getEnv fun env => ?_
  refine lands_bind (lands_fill _ _ _) fun chunk => ?_
  split
  · exact lands_bind (lands_modifyL _ fun _ => rfl) fun _ => lands_pure _
  · exact lands_bind (lands_modifyL _ fun _ => rfl) fun _ => lands_pure _

theorem lands_loadBody (ld : Loader) (chunkname mode : Option String) (addr : Nat) :
    Lands addr (loadBody ld chunkname mode addr) := by
  unfold loadBody
  refine lands_bind (lands_getStringUtfChars _) fun _ => ?_
  refine lands_bind (lands_getStringUtfChars _) fun _ => ?_
  refine lands_bind (lands_newByteArray _) fun _ => ?_
  refine lands_bind (lands_modifyEnv _) fun _ => ?_
  refine lands_bind (lands_lua_load _ _ _) fun status => ?_
  split
  · exact fun w hw => ⟨hw, fun u hu => by cases hu; rfl⟩
  · exact lands_pure _

theorem lands_lua_dump {addr : Nat} (chunks : List (List Nat)) : Lands addr (lua_dump chunks) := by
  induction chunks with
  | nil => exact lands_pure _
  | cons c cs ih =>
    unfold lua_dump
    refine lands_bind (lands_writeOutputStream c) fun status => ?_
    split
    · exact lands_pure _
    · exact ih

theorem lands_dumpBody {addr : Nat} (chunks : List (List Nat)) : Lands addr (dumpBody chunks) := by
  unfold dumpBody
  refine lands_bind (lands_newByteArray _) fun _ => ?_
  refine lands_bind (lands_modifyEnv _) fun _ => ?_
  refine lands_bind (lands_bind lands_getL fun _ => lands_check _ _ _) fun _ => ?_
  exact lands_bind (lands_lua_dump _) fun _ => lands_pure _

/-- A guard region whose body jumps only to the region's own buffer returns. -/
theorem guarded_returns {α : Type} (env : Nat) (body : Nat → M α) (w : World)
    (hb : Lands w.csp (body w.csp)) : ∃ r w1, guarded env body w = (.ret r, w1) := by
  have hin : Lands w.csp (do
      checkstack LUA_MINSTACK none
      setJniEnv env
      body w.csp) :=
    lands_bind (lands_checkstack _ _) fun _ => lands_bind (lands_setJniEnv _) fun _ => hb
  have h1 := hin { w with L := { w.L with errorJmp := some w.csp }, csp := w.csp + 1 } rfl
  unfold guarded
  have hT : JNLUA_TRY env body w = (do
      checkstack LUA_MINSTACK none
      setJniEnv env
      body w.csp) { w with L := { w.L with errorJmp := some w.csp }, csp := w.csp + 1 } := rfl
  rw [hT]
  rcases hr : (do
      checkstack LUA_MINSTACK none
      setJniEnv env
      body w.csp : M α) { w with L := { w.L with errorJmp := some w.csp }, csp := w.csp + 1 }
    with ⟨o, w2⟩
  rw [hr] at h1
  cases o with
  | ret a =>
    simp only []
    obtain ⟨w3, h3, -⟩ := JNLUA_END_spec w.L.nCcalls w.csp { status := LUA_OK, previous := w.L.errorJmp } { w2 with csp := w.csp }
    rw [h3]
    exact ⟨_, _, rfl⟩
  | unwind u =>
    simp only []
    rw [if_pos (h1.2 u rfl)]
    obtain ⟨w3, h3, -⟩ := JNLUA_END_spec w.L.nCcalls w.csp { status := u.status.getD LUA_OK, previous := w.L.errorJmp } { w2 with csp := w.csp, env := { w2.env with log := w2.env.log ++ [.landed w.csp] } }
    rw [h3]
    exact ⟨_, _, rfl⟩

theorem releaseStream_balances (w w2 : World) (evs : List Event)
    (hl : w2.env.log = w.env.log ++ evs) (hp : pinTrace 0 evs = some (pinned w2)) :
    ∃ w3 evs1, releaseStream w2 = (.ret (), w3) ∧ w3.env.log = w.env.log ++ evs1 ∧
      pinTrace 0 evs1 = some 0 := by
  unfold releaseStream
  simp only [bind_def, getStream]
  by_cases hb : w2.env.io.stream.bytes = true
  · simp only [hb, if_true, ReleaseByteArrayElements, modifyEnv_def]
    refine ⟨_, evs ++ [.ReleaseByteArrayElements JNI_ABORT], rfl, ?_, ?_⟩
    · show w2.env.log ++ _ = _
      rw [hl, List.append_assoc]
    · rw [pinTrace_append, hp]
      have h1 : pinned w2 = 1 := by unfold pinned; simp [hb]
      rw [h1]
      rfl
  · simp only [hb, Bool.false_eq_true, if_false, pure_def]
    refine ⟨_, evs, rfl, hl, ?_⟩
    rw [hp]
    unfold pinned
    simp [hb]

/-- The shape shared by `lua_load()` and `lua_dump()`: the `Stream` is initialised, a region
runs, and the buffer is released if it is still pinned. -/
theorem transfer_balanced (env : Nat) (body : Nat → M Unit) (w : World)
    (hl : ∀ addr, Lands addr (body addr)) (ht : ∀ addr, Always Tracks (body addr)) :
    ∃ w1 evs, (do
        modifyStream fun s => { s with byteArray := false, bytes := false }
        let _ ← guarded env body
        releaseStream) w = (.ret (), w1) ∧ w1.env.log = w.env.log ++ evs ∧
      pinTrace 0 evs = some 0 := by
  obtain ⟨W0, hW0⟩ : ∃ W0, W0 = (modifyStream (fun s => { s with byteArray := false, bytes := false }) w).2 := ⟨_, rfl⟩
  have hlog0 : W0.env.log = w.env.log := by rw [hW0]; rfl
  have hpin0 : pinned W0 = 0 := by rw [hW0]; rfl
  obtain ⟨r, w2, hg⟩ := guarded_returns env body W0 (hl _)
  have htr := tracks_guarded env body ht W0
  rw [hg] at htr
  obtain ⟨evs, hlog, hp⟩ := htr
  rw [hpin0] at hp
  obtain ⟨w3, evs1, h3, hl3, hp3⟩ := releaseStream_balances W0 w2 evs hlog hp
  refine ⟨w3, evs1, ?_, by rw [hl3, hlog0], hp3⟩
  rw [bind_def]
  have hm : modifyStream (fun s => { s with byteArray := false, bytes := false }) w = (.ret (), W0) := by
    rw [hW0]; rfl
  rw [hm]
  simp only []
  rw [bind_def, hg]
  exact h3

/-- C21: for every `lua_load()` and every `lua_dump()` call, whatever the stream, the
interpreter and JNI do during it (reads that end the input, fail or raise, writes that
raise, failed pins, failed allocations, null names, a full stack, a chunk that does not
compile), the call returns, and the pins and releases of the transfer buffer it logged are
balanced: at every moment at most one pin is outstanding, and at the end none is. -/
theorem transfer_pins_balanced (ld : Loader) (chunks : List (List Nat)) (env : Nat)
    (chunkname mode : Option String) (w : World) :
    (∃ w1 evs, lua_1load ld env chunkname mode w = (.ret (), w1) ∧
        w1.env.log = w.env.log ++ evs ∧
        (∀ p s, evs = p ++ s → 0 ≤ outstanding p ∧ outstanding p ≤ 1) ∧ outstanding evs = 0) ∧
      (∃ w1 evs, lua_1dump chunks env w = (.ret (), w1) ∧
        w1.env.log = w.env.log ++ evs ∧
        (∀ p s, evs = p ++ s → 0 ≤ outstanding p ∧ outstanding p ≤ 1) ∧ outstanding evs = 0) := by
  constructor
  · obtain ⟨w1, evs, h, hlog, hp⟩ := transfer_balanced env (loadBody ld chunkname mode) w
      (fun addr => lands_loadBody ld chunkname mode addr)
      (fun addr => tracks_loadBody ld chunkname mode addr)
    exact ⟨w1, evs, h, hlog, pinTrace_balanced evs hp⟩
  · obtain ⟨w1, evs, h, hlog, hp⟩ := transfer_balanced env (fun _ => dumpBody chunks) w
      (fun _ => lands_dumpBody chunks) (fun _ => tracks_dumpBody chunks)
    exact ⟨w1, evs, h, hlog, pinTrace_balanced evs hp⟩


/-- The writer on an unpinned buffer that is shorter than the block, when JNI and the stream
succeed and the JVM hands out copies: the buffer is pinned, the copy runs past its end, the
buffer is committed, and `write` is called with the length of the block. -/
theorem writeOutputStream_overrun (data : List Nat) (W : World)
    (hb : W.env.io.stream.bytes = false) (ho : W.env.oracle = []) (hw : W.env.io.writes = [])
    (hp : W.env.pending = none) (hc : W.env.io.copies = true)
    (hlen : W.env.io.array.length < data.length) :
    ∃ W1, writeOutputStream data W = (.ret 0, W1) ∧ W1.L = W.L ∧ W1.csp = W.csp ∧
      W1.env.log = W.env.log ++ [.GetByteArrayElements, .outOfBounds data.length,
        .ReleaseByteArrayElements JNI_COMMIT,
        .streamWrite 0 data.length (data.take W.env.io.array.length)] ∧
      W1.env.pending = none ∧ W1.env.io.stream.bytes = true := by
  have hnle : ¬ data.length ≤ W.env.io.array.length := by omega
  have htake : (data ++ List.drop data.length W.env.io.array).take W.env.io.array.length
      = data.take W.env.io.array.length := List.take_append_of_le_length (by omega)
  have hcommit : ¬ JNI_COMMIT = JNI_ABORT := by decide
  unfold writeOutputStream pinBuffer GetByteArrayElements
  simp only [bind_def, getStream, hb, Bool.false_eq_true, if_false, takeOracle_nil W.env ho,
    modifyStream, modifyEnv_def, pure_def, Bool.not_true, memcpy, bufferOf, hc, if_true,
    Option.getD_some, Option.isSome_some, hnle, htake, ReleaseByteArrayElements, hcommit,
    OutputStream_write, hw, ExceptionCheck, hp, Option.isSome_none, List.append_assoc,
    List.singleton_append, List.cons_append, List.nil_append]
  exact ⟨_, rfl, rfl, rfl, rfl, rfl, rfl⟩

theorem dumpBody_overrun (data : List Nat) (W : World)
    (hb : W.env.io.stream.bytes = false) (ho : W.env.oracle = []) (hw : W.env.io.writes = [])
    (hp : W.env.pending = none) (hc : W.env.io.copies = true)
    (htop : 1 ≤ lua_gettop W.L) (hlen : 1024 < data.length) :
    ∃ W1, dumpBody [data] W = (.ret (), W1) ∧ W1.L = W.L ∧ W1.csp = W.csp ∧
      W1.env.log = W.env.log ++ [.GetByteArrayElements, .outOfBounds data.length,
        .ReleaseByteArrayElements JNI_COMMIT, .streamWrite 0 data.length (data.take 1024)] ∧
      W1.env.pending = none ∧ W1.env.io.stream.bytes = true := by
  obtain ⟨W0, hW0⟩ : ∃ W0 : World, W0 = { L := W.L, env := { W.env with io := { W.env.io with array := List.replicate 1024 0, elems := none, stream := { W.env.io.stream with byteArray := true } } }, csp := W.csp } := ⟨_, rfl⟩
  have hhead : ∀ (f : Unit → M Unit), (do
      let array ← newByteArray 1024
      modifyStream fun s => { s with byteArray := array }
      f ()) W = f () W0 := by
    intro f
    unfold newByteArray NewByteArray
    simp only [bind_def, takeOracle_nil W.env ho, check, Bool.not_true, Bool.false_eq_true,
      if_false, pure_def, modifyStream, modifyEnv_def]
    rw [hW0]
  obtain ⟨W1, h1, hL, hcsp, hlog, hpend, hbytes⟩ := writeOutputStream_overrun data W0
    (by rw [hW0]; exact hb) (by rw [hW0]; exact ho) (by rw [hW0]; exact hw)
    (by rw [hW0]; exact hp) (by rw [hW0]; exact hc)
    (by rw [hW0]; show (List.replicate 1024 0).length < _; rw [List.length_replicate]; exact hlen)
  have hal : W0.env.io.array.length = 1024 := by rw [hW0]; exact List.length_replicate _ _
  rw [hal] at hlog
  refine ⟨W1, ?_, by rw [hL, hW0], by rw [hcsp, hW0], by rw [hlog, hW0], hpend, hbytes⟩
  unfold dumpBody
  rw [hhead fun _ => do
    checknelems 1
    let _ ← lua_dump [data]
    pure ()]
  rw [bind_def, checknelems_ok 1 W0 (by rw [hW0]; exact htop)]
  simp only [lua_dump, bind_def, h1, ne_eq, not_true_eq_false, if_false, pure_def]

theorem lua_1dump_overrun (data : List Nat) (env : Nat) (w : World)
    (hroom : lua_checkstack w.L LUA_MINSTACK = true)
    (ho : w.env.oracle = []) (hw : w.env.io.writes = [])
    (hp : w.env.pending = none) (hc : w.env.io.copies = true)
    (htop : 1 ≤ lua_gettop w.L) (hlen : 1024 < data.length) :
    ∃ w1, lua_1dump [data] env w = (.ret (), w1) ∧ w1.L.stack = w.L.stack ∧
      w1.env.log = w.env.log ++ [.GetByteArrayElements, .outOfBounds data.length,
        .ReleaseByteArrayElements JNI_COMMIT, .streamWrite 0 data.length (data.take 1024),
        .closed w.csp (some w.csp) w.L.errorJmp, .ReleaseByteArrayElements JNI_ABORT] ∧
      w1.env.pending = none := by
  obtain ⟨w0, hw0⟩ : ∃ w0 : World, w0 = { L := w.L, env := { w.env with io := { w.env.io with stream := { w.env.io.stream with byteArray := false, bytes := false } } }, csp := w.csp } := ⟨_, rfl⟩
  obtain ⟨W1, h1, hL, hcsp, hlog, hpend, hbytes⟩ := dumpBody_overrun data (entered env w0)
    (by rw [hw0]; rfl) (by rw [hw0]; exact ho) (by rw [hw0]; exact hw) (by rw [hw0]; exact hp)
    (by rw [hw0]; exact hc)
    (by
      have : lua_gettop (entered env w0).L = lua_gettop w.L := by
        unfold lua_gettop
        rw [entered_stack, hw0]
      rw [this]; exact htop)
    hlen
  have hg := guarded_ok env (fun _ => dumpBody [data]) w0 W1 () (by rw [hw0]; exact hroom) h1
  unfold lua_1dump
  simp only [bind_def, modifyStream, modifyEnv_def]
  rw [← hw0, hg]
  simp only [releaseStream, bind_def, getStream, closedWorld, hbytes, if_true,
    ReleaseByteArrayElements, modifyEnv_def]
  refine ⟨_, rfl, ?_, ?_, hpend⟩
  · show W1.L.stack = _
    rw [hL, entered_stack, hw0]
  · show (W1.env.log ++ _) ++ _ = _
    rw [hlog, hL]
    have he : (entered env w0).L.errorJmp = some w.csp := by rw [hw0]; rfl
    rw [he, hw0]
    simp [entered]

/-- C22 (defect): the dump of a function whose dump has a block of 1025 bytes, when JNI and
the stream succeed.  The writer copies all 1025 bytes to the 1024-byte transfer buffer: the
copy runs past the end of the buffer, and the stream's write is called with length 1025 on
an array of 1024 bytes, which does not hold the block; the writer returns 0 all the same
and the dump completes without a failure. -/
theorem writeOutputStream_overruns_buffer :
    ∃ w1, lua_1dump [List.replicate 1025 7] 1 demoFunction = (.ret (), w1) ∧
      w1.env.log = [.GetByteArrayElements, .outOfBounds 1025,
        .ReleaseByteArrayElements JNI_COMMIT, .streamWrite 0 1025 (List.replicate 1024 7),
        .closed 0 (some 0) none, .ReleaseByteArrayElements JNI_ABORT] ∧
      w1.env.pending = none := by
  obtain ⟨w1, h, -, hlog, hp⟩ := lua_1dump_overrun (List.replicate 1025 7) 1 demoFunction
    (by decide) rfl rfl rfl rfl (by decide) (by rw [List.length_replicate]; omega)
  refine ⟨w1, h, ?_, hp⟩
  rw [hlog, List.take_replicate, List.length_replicate]
  rfl


theorem InputStream_read_log (w : World) :
    (InputStream_read w).2.env.log = w.env.log ++ [.streamRead] ∧
      (InputStream_read w).2.L = w.L ∧
      (InputStream_read w).2.env.io.stream = w.env.io.stream := by
  unfold InputStream_read
  split <;> exact ⟨rfl, rfl, rfl⟩

/-- C23 (counterexample): a read that returns -2 is not taken as the end of the input, the
reader hands over the buffer with size `(size_t) -2`; and a read that returns 2 hands
nothing over when the buffer cannot be pinned: the reader returns `NULL` with an
`IOException` pending. -/
theorem readInputStream_negative_count :
    (readInputStream demoReadNegative).1 = .ret (some (2 ^ 64 - 2, [0, 0, 0, 0])) ∧
      (readInputStream demoReadNoPin).1 = .ret none ∧
      (readInputStream demoReadNoPin).2.env.pending = some 0 ∧
      (readInputStream demoReadNoPin).2.env.heap
        = [{ cls := .ioException, message := some "error accessing IO buffer" }] := by
  decide

/-- C23 (as amended): on a chunk request the reader calls the stream's read once.  When
the read returns -1 without raising, the reader returns `NULL` and does nothing else.  When
it returns `n ≥ 0` without raising and the buffer is pinned directly or can be pinned, the
reader hands over the pinned buffer with size exactly `n`; the buffer holds what the array
holds after the read; a copied pin taken before the read is released with `JNI_ABORT` and
taken again, a direct pin is kept, and without a pin one is taken. -/
theorem readInputStream_chunk (w wr : World) (n : Int)
    (hread : InputStream_read w = (.ret n, wr)) (hexc : wr.env.pending = none)
    (hdirect : wr.env.io.stream.bytes = true → wr.env.io.stream.isCopy = false →
      wr.env.io.elems = none) :
    wr.env.log = w.env.log ++ [.streamRead] ∧
      (n = -1 → readInputStream w = (.ret none, wr)) ∧
      (0 ≤ n → n ≤ INT_MAX →
        (wr.env.io.stream.bytes = true ∧ wr.env.io.stream.isCopy = false ∨
          wr.env.oracle.headD true = true) →
        ∃ w1, readInputStream w = (.ret (some (n.toNat, wr.env.io.array)), w1) ∧
          w1.env.io.stream.bytes = true ∧ bufferOf w1.env.io = wr.env.io.array ∧
          w1.env.io.array = wr.env.io.array ∧
          w1.env.log = wr.env.log ++
            (if wr.env.io.stream.bytes = true then
              (if wr.env.io.stream.isCopy = true
                then [.ReleaseByteArrayElements JNI_ABORT, .GetByteArrayElements] else [])
            else [.GetByteArrayElements])) := by
  have hl := (InputStream_read_log w).1
  rw [hread] at hl
  refine ⟨hl, ?_, ?_⟩
  · intro hn
    unfold readInputStream
    simp only [bind_def, hread, ExceptionCheck, hexc, Option.isSome_none, Bool.false_eq_true,
      if_false, hn, if_true, pure_def]
  · intro h0 hmax hpin
    have hne : n ≠ -1 := by omega
    have hsize : toSize n = n.toNat := by
      unfold toSize SIZE_BITS
      unfold INT_MAX at hmax
      rw [Int.emod_eq_of_lt h0 (by omega)]
    have hget : ∀ (c : Bool) (a : List Nat),
        (if c = true then some a else none).getD a = a := by
      intro c a
      cases c <;> rfl
    unfold readInputStream pinBuffer GetByteArrayElements
    simp only [bind_def, hread, ExceptionCheck, hexc, Option.isSome_none, Bool.false_eq_true,
      if_false, hne, getStream, hsize, takeOracle_head]
    by_cases hb : wr.env.io.stream.bytes = true
    · by_cases hc : wr.env.io.stream.isCopy = true
      · have ho : wr.env.oracle.headD true = true := by
          rcases hpin with ⟨-, h⟩ | h
          · rw [hc] at h; cases h
          · exact h
        simp only [hb, hc, Bool.and_self, if_true, ReleaseByteArrayElements, modifyStream,
          modifyEnv_def, bind_def, Bool.false_eq_true, if_false, ho, pure_def, Bool.not_true,
          getEnv_def, bufferOf, hget]
        refine ⟨_, rfl, rfl, hget _ _, rfl, ?_⟩
        simp only [List.append_assoc, List.singleton_append]
      · have hc2 : wr.env.io.stream.isCopy = false := by simpa using hc
        simp only [hb, hc2, Bool.and_false, Bool.false_eq_true, if_false, pure_def, if_true,
          Bool.not_true, bind_def, getEnv_def, bufferOf, hdirect hb hc2, Option.getD_none,
          List.append_nil]
        exact ⟨_, rfl, hb, by simp only [hdirect hb hc2, Option.getD_none], rfl, rfl⟩
    · have hb2 : wr.env.io.stream.bytes = false := by simpa using hb
      have ho : wr.env.oracle.headD true = true := by
        rcases hpin with ⟨h, -⟩ | h
        · rw [hb2] at h; cases h
        · exact h
      simp only [hb2, Bool.false_and, Bool.false_eq_true, if_false, pure_def, ho, modifyStream,
        modifyEnv_def, bind_def, Bool.not_true, getEnv_def, bufferOf, hget]
      exact ⟨_, rfl, rfl, hget _ _, rfl, rfl⟩

/-- Witness for C23: in `demoRead` the read stores 5, 6 and returns 2; the reader pins the
buffer and hands over 2 bytes of it. -/
theorem readInputStream_chunk_witness :
    (readInputStream demoRead).1 = .ret (some (2, [5, 6, 0, 0])) ∧
      (readInputStream demoRead).2.env.log = [.streamRead, .GetByteArrayElements] := by
  obtain ⟨-, -, h⟩ := readInputStream_chunk demoRead (InputStream_read demoRead).2 2 rfl rfl
    (fun h => by cases h)
  obtain ⟨w1, h1, -, -, -, hlog⟩ := h (by decide) (by decide) (Or.inr rfl)
  rw [h1]
  exact ⟨rfl, hlog⟩


/-- C24 (defect): a load from a stream that raises an `IOException` on its first read.  The
reader answers the exception with `NULL`, which the interpreter takes as the end of the
input: the empty chunk compiles, `lua_load` reports `LUA_OK`, the region closes without a
failure of its own, and `lua_load()` returns with the compiled function left on the stack
while the stream's exception is pending. -/
theorem lua_1load_read_failure_not_aborted :
    (lua_1load demoLoader 1 (some "chunk") (some "t") demoLoadRaises).1 = .ret () ∧
      (lua_1load demoLoader 1 (some "chunk") (some "t") demoLoadRaises).2.L.stack
        = [.lclosure 1] ∧
      (lua_1load demoLoader 1 (some "chunk") (some "t") demoLoadRaises).2.env.pending
        = some 0 ∧
      (lua_1load demoLoader 1 (some "chunk") (some "t") demoLoadRaises).2.env.log
        = [.streamRead, .closed 0 (some 0) none] := by
  decide

end JNLua
